import Mathlib

/-!
A segregated-free-list allocator (`mm.c`): shallow embedding and verified properties

The embedding follows `src/mm.c` function by function on an LP64 target:
`WSIZE = sizeof(void *) = 8`, `size_t` and `uintptr_t` are 64-bit, `int` and
`unsigned int` are 32-bit.  The heap is a flat word store addressed by byte
address; the global `heap_listp` and the break maintained by the growth
primitive are fields of an explicit state that every operation threads through.
`NULL` is the address `0`.  Arithmetic on `size_t` is reduced modulo `2 ^ 64`
wherever the C expression can wrap, and the implicit conversions to `int` /
`unsigned int` at the calls of `calc_size` are reduced modulo `2 ^ 32`.
-/

namespace MM

/-! ## Definitions -/

/-- Word and header/footer size in bytes (`sizeof(void *)`). -/
def WSIZE : Nat := 8

/-- Doubleword size in bytes. -/
def DSIZE : Nat := 2 * WSIZE

/-- Amount by which the heap is extended by default (bytes). -/
def CHUNKSIZE : Nat := 144

/-- Number of values of a `size_t` / `uintptr_t`. -/
def SIZE_MOD : Nat := 18446744073709551616

/-- Number of values of an `unsigned int`. -/
def UINT_MOD : Nat := 4294967296

/-- The macro `MAX(x, y)`. -/
def MAX (x y : Nat) : Nat := if x > y then x else y

/-- The macro `PACK(size, alloc)`: a size and an allocated bit in one word. -/
def PACK (size alloc : Nat) : Nat := size ||| alloc

/-- Allocator state: the word store, the current break and the limit of the
growth primitive, and the global `heap_listp`. -/
structure State where
  /-- The word stored at each byte address. -/
  mem : Nat → Nat
  /-- First address past the region handed out so far by the growth primitive. -/
  brk : Nat
  /-- Highest break the growth primitive will grant. -/
  cap : Nat
  /-- The global `heap_listp`. -/
  heap_listp : Nat

/-- The macro `GET(p)`. -/
def GET (s : State) (p : Nat) : Nat := s.mem p

/-- The macro `PUT(p, val)`. -/
def PUT (s : State) (p val : Nat) : State :=
  { s with mem := fun a => if a = p then val else s.mem a }

/-- The macro `GET_SIZE(p)`: `GET(p) & ~(WSIZE - 1)` on 64-bit words. -/
def GET_SIZE (s : State) (p : Nat) : Nat := GET s p &&& (SIZE_MOD - 1 - (WSIZE - 1))

/-- The macro `GET_ALLOC(p)`. -/
def GET_ALLOC (s : State) (p : Nat) : Nat := GET s p &&& 1

/-- The macro `HDRP(bp)`. -/
def HDRP (bp : Nat) : Nat := bp - WSIZE

/-- The macro `FTRP(bp)`. -/
def FTRP (s : State) (bp : Nat) : Nat := bp + GET_SIZE s (HDRP bp) - DSIZE

/-- The macro `NEXT_BLKP(bp)`. -/
def NEXT_BLKP (s : State) (bp : Nat) : Nat := bp + GET_SIZE s (bp - WSIZE)

/-- The macro `PREV_BLKP(bp)`. -/
def PREV_BLKP (s : State) (bp : Nat) : Nat := bp - GET_SIZE s (bp - DSIZE)

/-- Modelled from the spec: the heap-growth primitive `mem_sbrk` of `memlib`, which
is not part of the sources.  It extends the heap by `incr` bytes and returns the
start of the new region, or fails (`none`, the C sentinel `(void *)-1`) when the
request does not fit below the limit; a failed request changes nothing. -/
def mem_sbrk (s : State) (incr : Nat) : Option (Nat × State) :=
  if s.brk + incr ≤ s.cap then some (s.brk, { s with brk := s.brk + incr }) else none

/-- The helper `GET_NEXT`: the `next` field is the first word of the node. -/
def GET_NEXT (s : State) (bp : Nat) : Nat := GET s bp

/-- The helper `SET_NEXT`. -/
def SET_NEXT (s : State) (bp next : Nat) : State := PUT s bp next

/-- The helper `GET_PREV`: the `prev` field is the second word of the packed node. -/
def GET_PREV (s : State) (bp : Nat) : Nat := GET s (bp + WSIZE)

/-- The helper `SET_PREV`. -/
def SET_PREV (s : State) (bp prev : Nat) : State := PUT s (bp + WSIZE) prev

/-- The function `calc_size` on an `unsigned int` argument. -/
def calc_size (bytes : Nat) : Nat :=
  if bytes ≤ 2 then 0
  else if bytes ≤ 4 then 1
  else if bytes ≤ 8 then 2
  else if bytes ≤ 16 then 3
  else if bytes ≤ 32 then 4
  else if bytes ≤ 64 then 5
  else if bytes ≤ 144 then 6
  else if bytes ≤ 256 then 7
  else if bytes ≤ 512 then 8
  else if bytes ≤ 1024 then 9
  else if bytes ≤ 2058 then 10
  else if bytes ≤ 4096 then 11
  else if bytes ≤ 8192 then 12
  else if bytes ≤ 16384 then 13
  else 14

/-- The function `insert_block(bp, size)`; the `int size` parameter reaches
`calc_size` as an `unsigned int`, that is, modulo `2 ^ 32`. -/
def insert_block (s : State) (bp size : Nat) : State :=
  let range := calc_size (size % UINT_MOD)
  let list_head := s.heap_listp + range * WSIZE
  let list_next := GET s list_head
  let s1 := SET_NEXT s bp list_next
  let s2 := SET_PREV s1 bp list_head
  let s3 := if list_next ≠ 0 then SET_PREV s2 list_next bp else s2
  PUT s3 list_head bp

/-- The function `remove_block(bp)`. -/
def remove_block (s : State) (bp : Nat) : State :=
  let next_block := GET_NEXT s bp
  let prev_block := GET_PREV s bp
  let s1 := if next_block ≠ 0 then SET_PREV s next_block prev_block else s
  if prev_block ≠ 0 then SET_NEXT s1 prev_block next_block else s1

/-- The function `coalesce(bp)`: returns the address of the coalesced block. -/
def coalesce (s : State) (bp : Nat) : Nat × State :=
  let size := GET_SIZE s (HDRP bp)
  let prev_alloc := GET_ALLOC s (FTRP s (PREV_BLKP s bp))
  let next_alloc := GET_ALLOC s (HDRP (NEXT_BLKP s bp))
  if prev_alloc ≠ 0 ∧ next_alloc ≠ 0 then (bp, s)
  else if prev_alloc ≠ 0 ∧ next_alloc = 0 then
    let s1 := remove_block s (NEXT_BLKP s bp)
    let s2 := remove_block s1 bp
    let size1 := (size + GET_SIZE s2 (HDRP (NEXT_BLKP s2 bp))) % SIZE_MOD
    let s3 := PUT s2 (HDRP bp) (PACK size1 0)
    let s4 := PUT s3 (FTRP s3 bp) (PACK size1 0)
    (bp, insert_block s4 bp size1)
  else if prev_alloc = 0 ∧ next_alloc ≠ 0 then
    let s1 := remove_block s (PREV_BLKP s bp)
    let s2 := remove_block s1 bp
    let size1 := (size + GET_SIZE s2 (HDRP (PREV_BLKP s2 bp))) % SIZE_MOD
    let s3 := PUT s2 (FTRP s2 bp) (PACK size1 0)
    let s4 := PUT s3 (HDRP (PREV_BLKP s3 bp)) (PACK size1 0)
    let bp1 := PREV_BLKP s4 bp
    (bp1, insert_block s4 bp1 size1)
  else
    let s1 := remove_block s (NEXT_BLKP s bp)
    let s2 := remove_block s1 (PREV_BLKP s1 bp)
    let s3 := remove_block s2 bp
    let size1 := (size + (GET_SIZE s3 (HDRP (PREV_BLKP s3 bp)) +
      GET_SIZE s3 (FTRP s3 (NEXT_BLKP s3 bp))) % SIZE_MOD) % SIZE_MOD
    let s4 := PUT s3 (HDRP (PREV_BLKP s3 bp)) (PACK size1 0)
    let s5 := PUT s4 (FTRP s4 (NEXT_BLKP s4 bp)) (PACK size1 0)
    let bp1 := PREV_BLKP s5 bp
    (bp1, insert_block s5 bp1 size1)

/-- The function `extend_heap(words)`: `(NULL, s)` when the growth primitive
fails, otherwise the new free block and the state after it has been indexed. -/
def extend_heap (s : State) (words : Nat) : Nat × State :=
  let size := (words * WSIZE) % SIZE_MOD
  match mem_sbrk s size with
  | none => (0, s)
  | some (bp, s0) =>
    let s1 := PUT s0 (HDRP bp) (PACK size 0)
    let s2 := PUT s1 (FTRP s1 bp) (PACK size 0)
    let s3 := PUT s2 (HDRP (NEXT_BLKP s2 bp)) (PACK 0 1)
    (bp, insert_block s3 bp size)

/-- The inner `while` loop of `find_fit` over one bucket list, started at `bp`:
`some bp` for the first fitting node, `some 0` when the list ends without one,
and `none` when the walk has not ended after `fuel` nodes. -/
def find_in_list (s : State) (asize : Nat) : Nat → Nat → Option Nat
  | 0, _ => none
  | fuel + 1, bp =>
    if bp = 0 then some 0
    else if asize ≤ GET_SIZE s (HDRP bp) then some bp
    else find_in_list s asize fuel (GET_NEXT s bp)

/-- The outer `for` loop of `find_fit`, with `count` buckets left to visit from
bucket `range` on. -/
def find_fit_from (s : State) (asize : Nat) : Nat → Nat → Option Nat
  | 0, _ => some 0
  | count + 1, range =>
    match find_in_list s asize (s.brk + 1) (GET_NEXT s (s.heap_listp + range * WSIZE)) with
    | none => none
    | some 0 => find_fit_from s asize count (range + 1)
    | some bp => some bp

/-- The function `find_fit(asize)`: `some bp` for the block found, `some 0` for
`NULL`, and `none` when a bucket list does not end (the C loop does not return).
A list of distinct heap nodes has fewer than `brk + 1` nodes, which is the fuel
given to each list walk. -/
def find_fit (s : State) (asize : Nat) : Option Nat :=
  find_fit_from s asize (15 - calc_size (asize % UINT_MOD)) (calc_size (asize % UINT_MOD))

/-- The function `place(bp, asize)`. -/
def place (s : State) (bp asize : Nat) : State :=
  let block_size := GET_SIZE s (HDRP bp)
  if (block_size + SIZE_MOD - asize) % SIZE_MOD ≥ 2 * DSIZE then
    let s1 := PUT s (HDRP bp) (PACK asize 1)
    let s2 := PUT s1 (FTRP s1 bp) (PACK asize 1)
    let bp1 := NEXT_BLKP s2 bp
    let rest := (block_size + SIZE_MOD - asize) % SIZE_MOD
    let s3 := PUT s2 (HDRP bp1) (PACK rest 0)
    let s4 := PUT s3 (FTRP s3 bp1) (PACK rest 0)
    insert_block s4 bp1 rest
  else
    let s1 := PUT s (HDRP bp) (PACK block_size 1)
    PUT s1 (FTRP s1 bp) (PACK block_size 1)

/-- The function `mm_init`: the returned integer is `0` on success and `-1` on
failure.  Line 108 assigns the result of `mem_sbrk` to `heap_listp` before
testing it, so a refused first request leaves `(void *)-1` in `heap_listp`. -/
def mm_init (s : State) : Int × State :=
  match mem_sbrk s (19 * WSIZE) with
  | none => (-1, { s with heap_listp := SIZE_MOD - 1 })
  | some (p, s0) =>
    let s1 := { s0 with heap_listp := p }
    let s2 := PUT s1 s1.heap_listp 0
    let s3 := PUT s2 (s2.heap_listp + 1 * WSIZE) (PACK (17 * WSIZE) 1)
    let s4 := (List.range 15).foldl
      (fun t i => PUT t (t.heap_listp + (i + 2) * WSIZE) 0) s3
    let s5 := PUT s4 (s4.heap_listp + 17 * WSIZE) (PACK (17 * WSIZE) 1)
    let s6 := PUT s5 (s5.heap_listp + 18 * WSIZE) (PACK 0 1)
    let s7 := { s6 with heap_listp := s6.heap_listp + 2 * WSIZE }
    match extend_heap s7 (CHUNKSIZE / WSIZE) with
    | (0, s8) => (-1, s8)
    | (_, s8) => (0, s8)

/-- The adjusted block size computed by `mm_malloc` (lines 146-151). -/
def malloc_asize (size : Nat) : Nat :=
  if size ≤ DSIZE then 2 * DSIZE
  else WSIZE * (((size + DSIZE + (WSIZE - 1)) % SIZE_MOD) / WSIZE)

/-- The function `mm_malloc(size)`; `none` when `find_fit` does not return. -/
def mm_malloc (s : State) (size : Nat) : Option (Nat × State) :=
  if size = 0 then some (0, s)
  else
    let asize := malloc_asize size
    match find_fit s asize with
    | none => none
    | some bp =>
      if bp ≠ 0 then
        let s1 := remove_block s bp
        some (bp, place s1 bp asize)
      else
        match extend_heap s (MAX asize CHUNKSIZE / WSIZE) with
        | (0, s1) => some (0, s1)
        | (bp1, s1) =>
          let s2 := remove_block s1 bp1
          some (bp1, place s2 bp1 asize)

/-- The function `mm_free(bp)`. -/
def mm_free (s : State) (bp : Nat) : State :=
  if bp = 0 then s
  else
    let size := GET_SIZE s (HDRP bp)
    let s1 := PUT s (HDRP bp) (PACK size 0)
    let s2 := PUT s1 (FTRP s1 bp) (PACK size 0)
    let s3 := insert_block s2 bp size
    (coalesce s3 bp).2

/-- The library routine `memcpy(dst, src, n)` on the word store (little-endian):
whole words first, then the low `n % 8` bytes of the last, partial word. -/
def memcpy (s : State) (dst src n : Nat) : State :=
  let s1 := (List.range (n / WSIZE)).foldl
    (fun t i => PUT t (dst + i * WSIZE) (GET s (src + i * WSIZE))) s
  let r := n % WSIZE
  let a := n / WSIZE * WSIZE
  if r = 0 then s1
  else PUT s1 (dst + a)
    (GET s (src + a) % 2 ^ (8 * r) + GET s1 (dst + a) / 2 ^ (8 * r) * 2 ^ (8 * r))

/-- The adjusted block size computed by `mm_realloc` (line 223). -/
def realloc_asize (size : Nat) : Nat :=
  WSIZE * (((size + DSIZE + (WSIZE - 1)) % SIZE_MOD) / WSIZE)

/-- The function `mm_realloc(ptr, size)`; `none` when the fallback `mm_malloc`
does not return. -/
def mm_realloc (s : State) (ptr size : Nat) : Option (Nat × State) :=
  if ptr = 0 then mm_malloc s size
  else if size = 0 then some (0, mm_free s ptr)
  else
    let oldsize := GET_SIZE s (HDRP ptr)
    let header := HDRP ptr
    let asize := realloc_asize size
    if asize = oldsize then some (ptr, s)
    else if asize ≤ (oldsize + GET_SIZE s (HDRP (NEXT_BLKP s ptr))) % SIZE_MOD ∧
        GET_ALLOC s (HDRP (NEXT_BLKP s ptr)) = 0 then
      let s1 := remove_block s (NEXT_BLKP s ptr)
      let s2 := PUT s1 header
        (PACK ((oldsize + GET_SIZE s1 (HDRP (NEXT_BLKP s1 ptr))) % SIZE_MOD) 0)
      let s3 := PUT s2 (FTRP s2 ptr)
        (PACK ((oldsize + GET_SIZE s2 (HDRP (NEXT_BLKP s2 ptr))) % SIZE_MOD) 0)
      some (ptr, s3)
    else if GET_ALLOC s (HDRP (NEXT_BLKP s ptr)) = 0 ∨
        GET_SIZE s (HDRP (NEXT_BLKP s ptr)) = 0 then
      match mem_sbrk s ((asize + SIZE_MOD - oldsize) % SIZE_MOD) with
      | none => some (0, s)
      | some (_, s1) =>
        let s2 := PUT s1 header (PACK asize 1)
        let s3 := PUT s2 (FTRP s2 ptr) (PACK asize 1)
        let s4 := PUT s3 (HDRP (NEXT_BLKP s3 ptr)) (PACK 0 1)
        some (ptr, s4)
    else
      match mm_malloc s size with
      | none => none
      | some (0, s1) => some (0, s1)
      | some (newptr, s1) =>
        let s2 := memcpy s1 newptr ptr (if size < oldsize then size else oldsize)
        some (newptr, mm_free s2 ptr)

/-- Walks the physical block chain as `checkheap` does: from `bp`, following
`NEXT_BLKP`, until a header of size `0`; `none` when no such header is met
within `fuel` blocks. -/
def chain_from (s : State) : Nat → Nat → Option (List Nat)
  | 0, _ => none
  | fuel + 1, bp =>
    if GET_SIZE s (HDRP bp) = 0 then some []
    else (chain_from s fuel (NEXT_BLKP s bp)).map (fun l => bp :: l)

/-- The blocks of the physical chain, starting at `heap_listp` (the prologue). -/
def chain (s : State) : Option (List Nat) := chain_from s (s.brk + 1) s.heap_listp

/-- Walks a free list from node `bp` along the `next` links until `NULL`. -/
def list_from (s : State) : Nat → Nat → Option (List Nat)
  | 0, _ => none
  | fuel + 1, bp =>
    if bp = 0 then some []
    else (list_from s fuel (GET_NEXT s bp)).map (fun l => bp :: l)

/-- The nodes of bucket `k`, read from its slot, head to tail. -/
def bucket (s : State) (k : Nat) : Option (List Nat) :=
  list_from s (s.brk + 1) (GET s (s.heap_listp + k * WSIZE))

/-- Number of blocks of the physical chain whose allocated bit is clear. -/
def chain_free_count (s : State) : Option Nat :=
  (chain s).map fun l => (l.filter fun bp => GET_ALLOC s (HDRP bp) = 0).length

/-- Total number of nodes in the 15 bucket lists. -/
def index_count (s : State) : Option Nat :=
  (List.range 15).foldl
    (fun acc k => acc.bind fun n => (bucket s k).map fun l => n + l.length) (some 0)

/-- The physically adjacent pairs `(b, NEXT_BLKP(b))` of the chain whose headers
both have the allocated bit clear. -/
def adjacent_free_pairs (s : State) : Option (List (Nat × Nat)) :=
  (chain s).map fun l =>
    (l.filter fun bp =>
      GET_ALLOC s (HDRP bp) = 0 ∧ GET_ALLOC s (HDRP (NEXT_BLKP s bp)) = 0).map
      fun bp => (bp, NEXT_BLKP s bp)

/-- A machine before `mm_init`: zeroed store, break at `base`, growth allowed up
to `base + room`. -/
def boot (base room : Nat) : State :=
  { mem := fun _ => 0, brk := base, cap := base + room, heap_listp := 0 }

/-- The heap right after a successful `mm_init` on a region starting at the
double-word-aligned address `4096`. -/
def heap0 : State := (mm_init (boot 4096 1048576)).2

/-- The run `p = mm_malloc(32); mm_malloc(1)` from `heap0`, after which the caller
stores four data words in the 32-byte payload of `p`. -/
def run_fill : Option (Nat × State) := do
  let (p, s1) ← mm_malloc heap0 32
  let (_, s2) ← mm_malloc s1 1
  pure (p, PUT (PUT (PUT (PUT s2 p 1229782938247303441) (p + 8) 2459565876494606882)
    (p + 16) 3689348814741910323) (p + 24) 4919131752989213764)

/-- The run `p = mm_malloc(1)` from `heap0`. -/
def run_one : Option (Nat × State) := mm_malloc heap0 1

/-- The run `a = mm_malloc(1); b = mm_malloc(1); mm_free(a)` from `heap0`,
returning `b`. -/
def run_two : Option (Nat × State) := do
  let (a, s1) ← mm_malloc heap0 1
  let (b, s2) ← mm_malloc s1 1
  pure (b, mm_free s2 a)

/-- A block of the physical chain: payload address, size in bytes, allocated flag. -/
structure Blk where
  /-- Block pointer (address of the payload). -/
  bp : Nat
  /-- Block size in bytes, header and footer included. -/
  sz : Nat
  /-- Allocated flag. -/
  al : Bool
deriving DecidableEq

/-- The boundary tag of a block of size `sz`. -/
def tag (sz : Nat) (al : Bool) : Nat := PACK sz (if al then 1 else 0)

/-- `Chain m a bs e`: in store `m` the blocks `bs` lie back to back from address
`a` to address `e`, each of at least four words (32 bytes) and a multiple of the
word size (8 bytes), with header (at `bp - 8`) and footer (at `bp + sz - 16`)
both holding the block's tag. -/
def Chain (m : Nat → Nat) : Nat → List Blk → Nat → Prop
  | a, [], e => a = e
  | a, b :: bs, e =>
    b.bp = a ∧ 32 ≤ b.sz ∧ b.sz % 8 = 0 ∧
    m (a - 8) = tag b.sz b.al ∧ m (a + b.sz - 16) = tag b.sz b.al ∧
    Chain m (a + b.sz) bs e

/-- `DLL m a xs`: in store `m` the nodes `xs` form the doubly linked list hanging
off the anchor `a` (a bucket slot or a node): the forward link of the anchor is
the first node, each node's `prev` is what precedes it, the last forward link is
`NULL`. -/
def DLL (m : Nat → Nat) : Nat → List Nat → Prop
  | a, [] => m a = 0
  | a, x :: xs => m a = x ∧ x ≠ 0 ∧ m (x + 8) = a ∧ DLL m x xs

/-- `Linked s bs L`: the state `s` holds the block chain `bs` (prologue first) up
to the epilogue header at the break, and the 15 bucket lists `L 0 .. L 14` are
well-formed doubly linked lists without repetition whose nodes are free blocks
of the chain. -/
structure Linked (s : State) (bs : List Blk) (L : Nat → List Nat) : Prop where
  low : 16 ≤ s.heap_listp
  high : s.brk < SIZE_MOD
  prologue : bs.head? = some ⟨s.heap_listp, 136, true⟩
  chain : Chain s.mem s.heap_listp bs s.brk
  epilogue : s.mem (s.brk - 8) = PACK 0 1
  links : ∀ k, k < 15 → DLL s.mem (s.heap_listp + k * 8) (L k)
  nodup : ∀ k, k < 15 → (L k).Nodup
  disjoint : ∀ j, j < 15 → ∀ k, k < 15 → j ≠ k → ∀ x ∈ L j, x ∉ L k
  listed : ∀ k, k < 15 → ∀ x ∈ L k, ∃ b ∈ bs, b.bp = x ∧ b.al = false

/-- `Heap s bs L`: a well-formed heap.  On top of `Linked`, every free block of
the chain is a node of some bucket list. -/
structure Heap (s : State) (bs : List Blk) (L : Nat → List Nat) : Prop where
  linked : Linked s bs L
  indexed : ∀ b ∈ bs, b.al = false → ∃ k, k < 15 ∧ b.bp ∈ L k

/-- Size contributed by the successor when a block is freed: the size of the
next block if it is free, `0` if it is allocated or the epilogue follows. -/
def next_free_size : List Blk → Nat
  | [] => 0
  | n :: _ => if n.al then 0 else n.sz

/-- The blocks that remain after the freed block. -/
def after_next : List Blk → List Blk
  | [] => []
  | n :: post => if n.al then n :: post else post

/-- Address of the free block that contains `b` after `mm_free`. -/
def free_start (p b : Blk) : Nat := if p.al then b.bp else p.bp

/-- Size of the free block that contains `b` after `mm_free`. -/
def free_size (p b : Blk) (post : List Blk) : Nat :=
  (if p.al then 0 else p.sz) + b.sz + next_free_size post

/-- The block chain after `mm_free` of block `b` with predecessor `p`. -/
def free_chain (pre : List Blk) (p b : Blk) (post : List Blk) : List Blk :=
  (if p.al then pre ++ [p] else pre) ++
    ⟨free_start p b, free_size p b post, false⟩ :: after_next post

/-- The addresses of the blocks that `mm_free` merges: the predecessor if it is
free, the freed block, the successor if it is free. -/
def merged_addrs (p b : Blk) (post : List Blk) : List Nat :=
  (if p.al then [] else [p.bp]) ++ b.bp ::
    (match post with
     | [] => []
     | n :: _ => if n.al then [] else [n.bp])

/-- `Chain` is decidable: it is a finite conjunction of equalities and bounds. -/
instance Chain.decide (m : Nat → Nat) : ∀ (bs : List Blk) (a e : Nat), Decidable (Chain m a bs e)
  | [], a, e => inferInstanceAs (Decidable (a = e))
  | b :: bs, a, e =>
    have := Chain.decide m bs (a + b.sz) e
    inferInstanceAs (Decidable (b.bp = a ∧ 32 ≤ b.sz ∧ b.sz % 8 = 0 ∧
      m (a - 8) = tag b.sz b.al ∧ m (a + b.sz - 16) = tag b.sz b.al ∧
      Chain m (a + b.sz) bs e))

/-- `DLL` is decidable: it is a finite conjunction of equalities. -/
instance DLL.decide (m : Nat → Nat) : ∀ (xs : List Nat) (a : Nat), Decidable (DLL m a xs)
  | [], a => inferInstanceAs (Decidable (m a = 0))
  | x :: xs, a =>
    have := DLL.decide m xs x
    inferInstanceAs (Decidable (m a = x ∧ x ≠ 0 ∧ m (x + 8) = a ∧ DLL m x xs))

/-- The heap after `mm_init` and three calls `mm_malloc(1)`. -/
def heap3 : State :=
  (((mm_malloc heap0 1).bind fun r => (mm_malloc r.2 1).bind fun r2 =>
    mm_malloc r2.2 1).map Prod.snd).getD heap0

/-- The block chain of `heap3`: prologue, three allocated blocks of 32 bytes and
the free remainder of 48 bytes. -/
def chain3 : List Blk :=
  [⟨4112, 136, true⟩, ⟨4248, 32, true⟩, ⟨4280, 32, true⟩, ⟨4312, 32, true⟩, ⟨4344, 48, false⟩]

/-- The bucket lists of `heap3`: the free remainder is the only node, in
bucket `calc_size(48) = 5`. -/
def index3 : Nat → List Nat := fun k => if k = 5 then [4344] else []

/-- The heap after `mm_init`, four calls `mm_malloc(1)` returning `4248`, `4280`,
`4312`, `4344`, and `mm_free(4248)`: the allocated blocks at `4280`, `4312`,
`4344` are adjacent and the predecessor of the first of them is free. -/
def heap4 : State :=
  (((mm_malloc heap0 1).bind fun r => (mm_malloc r.2 1).bind fun r2 =>
    (mm_malloc r2.2 1).bind fun r3 => (mm_malloc r3.2 1).map fun r4 =>
      mm_free r4.2 4248)).getD heap0

/-- The nodes met by `find_fit` in scan order: `count` buckets from bucket
`range` on, each list head to tail. -/
def scan_from (s : State) : Nat → Nat → List Nat
  | 0, _ => []
  | count + 1, range => (bucket s range).getD [] ++ scan_from s count (range + 1)

/-- The scan order of `find_fit(asize)`: buckets `calc_size(asize) .. 14`. -/
def scan_order (s : State) (asize : Nat) : List Nat :=
  scan_from s (15 - calc_size (asize % UINT_MOD)) (calc_size (asize % UINT_MOD))

/-- The first block of size at least `asize` in scan order. -/
def first_fit (s : State) (asize : Nat) : Option Nat :=
  (scan_order s asize).find? fun bp => decide (asize ≤ GET_SIZE s (HDRP bp))

/-- Modelled from the spec: the first block of size at least `asize` met when
scanning buckets `calc_size(asize) .. 14` in ascending order, each list head to
tail. -/
def first_fit_spec (s : State) (asize : Nat) : Option Nat :=
  (scan_from s (15 - calc_size asize) (calc_size asize)).find? fun bp =>
    decide (asize ≤ GET_SIZE s (HDRP bp))

/-- The run `p1 = mm_malloc(100); p2 = mm_malloc(200); mm_free(p1)` from `heap0`,
returning `p1`. -/
def run_reuse : Option (Nat × State) :=
  (mm_malloc heap0 100).bind fun r => (mm_malloc r.2 200).map fun r2 => (r.1, mm_free r2.2 r.1)

/-- The heap after `mm_init; mm_malloc(100); p = mm_malloc(2 ^ 32 - 16)` with a
growth primitive that grants eight gigabytes: the block `p = 4392` is allocated
and has size `2 ^ 32`. -/
def heap_big_alloc : State :=
  (((mm_malloc (mm_init (boot 4096 8589934592)).2 100).bind fun r =>
    (mm_malloc r.2 (UINT_MOD - 16)).map Prod.snd)).getD heap0

/-- The test of `mm_realloc` for absorbing the successor in place (lines 229-230). -/
def realloc_absorbs (s : State) (ptr size : Nat) : Prop :=
  realloc_asize size ≤
      (GET_SIZE s (HDRP ptr) + GET_SIZE s (HDRP (NEXT_BLKP s ptr))) % SIZE_MOD ∧
    GET_ALLOC s (HDRP (NEXT_BLKP s ptr)) = 0

instance (s : State) (ptr size : Nat) : Decidable (realloc_absorbs s ptr size) :=
  inferInstanceAs (Decidable (_ ∧ _))

/-- The test of `mm_realloc` for growing the block by extending the heap
(line 239). -/
def realloc_extends (s : State) (ptr : Nat) : Prop :=
  GET_ALLOC s (HDRP (NEXT_BLKP s ptr)) = 0 ∨ GET_SIZE s (HDRP (NEXT_BLKP s ptr)) = 0

instance (s : State) (ptr : Nat) : Decidable (realloc_extends s ptr) :=
  inferInstanceAs (Decidable (_ ∨ _))

/-- The number of bytes `mm_malloc(size)` asks of the growth primitive when no
fit is found. -/
def malloc_growth (size : Nat) : Nat :=
  (MAX (malloc_asize size) CHUNKSIZE / WSIZE * WSIZE) % SIZE_MOD

/-- The number of bytes `mm_realloc(ptr, size)` asks of the growth primitive on
its extension path: `asize - oldsize` in `size_t` arithmetic. -/
def realloc_growth (s : State) (ptr size : Nat) : Nat :=
  (realloc_asize size + SIZE_MOD - GET_SIZE s (HDRP ptr)) % SIZE_MOD

/-- The heap after `mm_init` when the growth primitive grants exactly the 296
bytes that `mm_init` asks for. -/
def heap_tight : State := (mm_init (boot 4096 296)).2

/-- `heap_tight` after `mm_malloc(100)`, which returns `4248` and takes the whole
free block, so that the epilogue follows the block. -/
def heap_tight_full : State := ((mm_malloc heap_tight 100).map Prod.snd).getD heap_tight

/-- `heap_tight` after `mm_malloc(1)` and `mm_malloc(80)`, which return `4248` and
`4280` and leave no free block. -/
def heap_tight_two : State :=
  (((mm_malloc heap_tight 1).bind fun r => mm_malloc r.2 80).map Prod.snd).getD heap_tight

/-- The heap after `mm_init; p1 = mm_malloc(100); p2 = mm_malloc(200); mm_free(p1)`. -/
def heap_reuse : State := (run_reuse.map Prod.snd).getD heap0

/-- The messages that `checkheap` and `checkblock` print when a check fails
(the other output lines are informational). -/
inductive Finding where
  /-- Prints "Error: %p is not doubleword aligned". -/
  | misaligned (bp : Nat)
  /-- Prints "Error: header does not match footer". -/
  | header_footer_mismatch
  /-- Prints "Bad prologue header". -/
  | bad_prologue
  /-- Prints "Bad epilogue header". -/
  | bad_epilogue
  /-- Prints "An allocated block is on the free list". -/
  | allocated_on_free_list
  /-- Prints "Not all of the free blocks are on the free list". -/
  | free_count_mismatch
deriving DecidableEq

/-- The function `checkblock(bp)`: the findings it prints. -/
def checkblock (s : State) (bp : Nat) : List Finding :=
  (if bp % DSIZE ≠ 0 then [Finding.misaligned bp] else []) ++
    (if GET s (HDRP bp) ≠ GET s (FTRP s bp) then [Finding.header_footer_mismatch] else [])

/-- The block loop of `checkheap` (line 614) from `bp` on: the findings printed,
the number of free blocks counted in `total`, and the value of `bp` when the
loop ends.  `printed` is what each call of `printblock` prints when `verbose` is
set, and is empty otherwise. -/
def check_blocks (s : State) (printed : List Finding) :
    Nat → Nat → Option (List Finding × Nat × Nat)
  | 0, _ => none
  | fuel + 1, bp =>
    if GET_SIZE s (HDRP bp) > 0 then
      (check_blocks s printed fuel (NEXT_BLKP s bp)).map fun r =>
        (printed ++ checkblock s bp ++ r.1,
          (if GET_ALLOC s (HDRP bp) = 0 then 1 else 0) + r.2.1, r.2.2)
    else some ([], 0, bp)

/-- The inner `while` loop of `checkheap` over one free list (line 630): the
findings printed and the number of nodes counted in `actual`. -/
def check_list (s : State) : Nat → Nat → Option (List Finding × Nat)
  | 0, _ => none
  | fuel + 1, bp =>
    if bp ≠ 0 then
      (check_list s fuel (GET_NEXT s bp)).map fun r =>
        ((if GET_ALLOC s (HDRP bp) ≠ 0 then [Finding.allocated_on_free_list] else []) ++ r.1,
          1 + r.2)
    else some ([], 0)

/-- The outer `for (i = 0; i < 14; i++)` loop of `checkheap` (line 628), with
`count` buckets left to visit from bucket `i` on. -/
def check_lists (s : State) : Nat → Nat → Option (List Finding × Nat)
  | 0, _ => some ([], 0)
  | count + 1, i =>
    (check_list s (s.brk + 1) (GET s (i * WSIZE + s.heap_listp))).bind fun r =>
      (check_lists s count (i + 1)).map fun r2 => (r.1 ++ r2.1, r.2 + r2.2)

/-- One pass of the body of `checkheap`; `printed` is what each call of
`printblock` prints (empty when `verbose` is false).  The counters `total` and
`actual` are `int`s.  `none` when a loop does not end. -/
def checkheap_pass (s : State) (printed : List Finding) : Option (List Finding) :=
  let f0 := if GET_SIZE s (HDRP s.heap_listp) ≠ 19 * WSIZE ∨
      GET_ALLOC s (HDRP s.heap_listp) = 0 then [Finding.bad_prologue] else []
  (check_blocks s printed (s.brk + 1) s.heap_listp).bind fun r =>
    let bp := r.2.2
    let f3 := if GET_SIZE s (HDRP bp) ≠ 0 ∨ GET_ALLOC s (HDRP bp) = 0
      then [Finding.bad_epilogue] else []
    (check_lists s 14 0).map fun r2 =>
      f0 ++ r.1 ++ printed ++ f3 ++ r2.1 ++
        (if r.2.1 % UINT_MOD ≠ r2.2 % UINT_MOD then [Finding.free_count_mismatch] else [])

/-- The function `printblock(bp)`: the findings it prints are those of the
`checkheap(false)` it starts with. -/
def printblock (s : State) (_bp : Nat) : Option (List Finding) := checkheap_pass s []

/-- The function `checkheap(verbose)`: the findings printed, in order. -/
def checkheap (s : State) (verbose : Bool) : Option (List Finding) :=
  if verbose then (printblock s s.heap_listp).bind fun printed => checkheap_pass s printed
  else checkheap_pass s []

/-- The heap after `mm_init; p = mm_malloc(1)`, where `p = 4248`. -/
def heap1 : State := (run_one.map Prod.snd).getD heap0

/-- The block chain of `heap0`: the prologue and the free block of `CHUNKSIZE` bytes. -/
def chain0 : List Blk := [⟨4112, 136, true⟩, ⟨4248, 144, false⟩]

/-- The bucket lists of `heap0`: the free block is the only node, in bucket 6. -/
def index0 : Nat → List Nat := fun k => if k = 6 then [4248] else []

/-- The block chain of `heap1`: prologue, the allocated block of 32 bytes and the
free remainder of 112 bytes. -/
def chain1 : List Blk := [⟨4112, 136, true⟩, ⟨4248, 32, true⟩, ⟨4280, 112, false⟩]

/-- The bucket lists of `heap1`: the free remainder is the only node, in
bucket `calc_size(112) = 6`. -/
def index1 : Nat → List Nat := fun k => if k = 6 then [4280] else []

/-- The heap after `mm_init; p = mm_malloc(20000); mm_free(p)`: the prologue and one
free block of 20160 bytes at `4248`, the only node of bucket 14. -/
def heap_large : State :=
  ((mm_malloc heap0 20000).map fun r => mm_free r.2 r.1).getD heap0

/-- The block chain of `heap_large`. -/
def chain_large : List Blk := [⟨4112, 136, true⟩, ⟨4248, 20160, false⟩]

/-- The bucket lists of `heap_large`. -/
def index_large : Nat → List Nat := fun k => if k = 14 then [4248] else []

/-- The block chain of `heap_tight_full`: the prologue and one allocated block. -/
def chain_tight_full : List Blk := [⟨4112, 136, true⟩, ⟨4248, 144, true⟩]

/-- The amount `mm_realloc(ptr, size)` passes to `mem_sbrk` at line 240: `some` of
the amount when control reaches that call, `none` when it does not. -/
def realloc_sbrk_request (s : State) (ptr size : Nat) : Option Nat :=
  if ptr = 0 then none
  else if size = 0 then none
  else if realloc_asize size = GET_SIZE s (HDRP ptr) then none
  else if realloc_absorbs s ptr size then none
  else if realloc_extends s ptr then some (realloc_growth s ptr size)
  else none

/-- The heap after `mm_init; mm_malloc(2 ^ 64 - 1)`. -/
def heap_wrapped : State := ((mm_malloc heap0 (SIZE_MOD - 1)).map Prod.snd).getD heap0

/-- Modelled from the spec: heap well-formedness `WF`.  On top of `Heap` (the chain
reaches the epilogue, header equals footer, sizes are multiples of the word size
of at least four words, every free block is a node of exactly one well-linked
bucket list and every node is a free block), each node sits in the bucket that
`calc_size` gives for its size as `insert_block` passes it, and no two physically
adjacent blocks are both free. -/
structure WF (s : State) (bs : List Blk) (L : Nat → List Nat) : Prop where
  heap : Heap s bs L
  classed : ∀ k, k < 15 → ∀ b ∈ bs, b.bp ∈ L k → calc_size (b.sz % UINT_MOD) = k
  merged : bs.Chain' fun a b => a.al = true ∨ b.al = true

/-- Modelled from the spec: `Index s L`, a well-formed free-list index.  The 15 bucket lists
`L 0 .. L 14` are doubly linked lists hanging off the 15 slots (each node's
`prev` is its predecessor node, or the bucket slot for the head), no node
occurs twice, in one list or in two, every node lies above the slot table and
below the break, and two nodes are at least two words apart (a node holds two
link words). -/
structure Index (s : State) (L : Nat → List Nat) : Prop where
  low : 0 < s.heap_listp
  links : ∀ k, k < 15 → DLL s.mem (s.heap_listp + k * 8) (L k)
  nodup : ∀ k, k < 15 → (L k).Nodup
  disjoint : ∀ j, j < 15 → ∀ k, k < 15 → j ≠ k → ∀ x ∈ L j, x ∉ L k
  above : ∀ k, k < 15 → ∀ x ∈ L k, s.heap_listp + 120 ≤ x ∧ x < s.brk
  apart : ∀ j, j < 15 → ∀ k, k < 15 → ∀ u ∈ L j, ∀ v ∈ L k, u = v ∨ u + 16 ≤ v ∨ v + 16 ≤ u

/-- The heap `heap0` after `remove_block(4248)`: the free block of 144 bytes is
no longer in the index, as when `mm_malloc` calls `place`. -/
def heap0_unlinked : State := remove_block heap0 4248

/-- The state in which `mm_malloc(2 ^ 32 + 16)` calls `place`, right after
`mm_init` with a growth primitive that grants eight gigabytes: the heap has been
extended by a block of `2 ^ 32 + 32` bytes at `4392`, and `remove_block(4392)`
has taken it out of the index. -/
def heap_huge_unlinked : State :=
  remove_block (extend_heap (mm_init (boot 4096 8589934592)).2
    (MAX (malloc_asize (UINT_MOD + 16)) CHUNKSIZE / WSIZE)).2 4392

/-- The state in which `mm_init` calls `extend_heap`, when the request for 19
words has been granted at address `s.brk` (lines 111-119): padding word,
prologue header, 15 zeroed slots, prologue footer and epilogue header are
written and `heap_listp` points at the first slot. -/
def init_layout (s : State) : State :=
  let s1 : State := { s with brk := s.brk + 19 * WSIZE, heap_listp := s.brk }
  let s2 := PUT s1 s1.heap_listp 0
  let s3 := PUT s2 (s2.heap_listp + 1 * WSIZE) (PACK (17 * WSIZE) 1)
  let s4 := (List.range 15).foldl
    (fun t i => PUT t (t.heap_listp + (i + 2) * WSIZE) 0) s3
  let s5 := PUT s4 (s4.heap_listp + 17 * WSIZE) (PACK (17 * WSIZE) 1)
  let s6 := PUT s5 (s5.heap_listp + 18 * WSIZE) (PACK 0 1)
  { s6 with heap_listp := s6.heap_listp + 2 * WSIZE }

/-! ## Theorems -/

/-- C1: after `mm_init` on a region that starts at a multiple of `2 * WSIZE`, the
first `mm_malloc(1)` returns `4248`, which is `WSIZE` modulo `2 * WSIZE`: the
returned pointer is word aligned but not double-word aligned. -/
theorem first_malloc_not_double_word_aligned :
    4096 % (2 * WSIZE) = 0 ∧ (mm_init (boot 4096 1048576)).1 = 0 ∧
    (mm_malloc heap0 1).map Prod.fst = some 4248 ∧ 4248 % (2 * WSIZE) = WSIZE := by
  decide

/-- C2: on the heap produced by `mm_init`, `mm_malloc(2 ^ 64 - 1)` returns the
non-null pointer `4248` whose block is marked allocated with size `16`: the
size computation wrapped around, and the block is far smaller than the request
plus `2 * WSIZE` (its payload is empty). -/
theorem malloc_wraps_on_huge_request :
    (mm_malloc heap0 (SIZE_MOD - 1)).map
      (fun r => (r.1, GET_SIZE r.2 (HDRP r.1), GET_ALLOC r.2 (HDRP r.1))) = some (4248, 16, 1) ∧
    16 < (SIZE_MOD - 1) + 2 * WSIZE := by
  decide

/-- C3: `p` is an allocated block of size 48 whose 32-byte payload holds four data
words; `mm_realloc(p, 2 ^ 64 - 1)` returns `q = 4328`, and the word at `q + 24`
(bytes 24..31, inside the first `min(n, 32)` bytes) holds the address `4248`
instead of the fourth data word. -/
theorem realloc_wrap_clobbers_data :
    (run_fill.bind fun r => (mm_realloc r.2 r.1 (SIZE_MOD - 1)).map fun q =>
      (r.1, GET_SIZE r.2 (HDRP r.1), GET_ALLOC r.2 (HDRP r.1), q.1,
        GET r.2 (r.1 + 24), GET q.2 (q.1 + 24))) =
      some (4248, 48, 1, 4328, 4919131752989213764, 4248) := by
  decide

/-- C4: after `mm_init; p = mm_malloc(1); mm_realloc(p, 40)` the physical chain
holds one block with the allocated bit clear while the 15 bucket lists hold no
node at all (before the `mm_realloc` both counts are 1). -/
theorem realloc_absorb_breaks_free_count :
    (run_one.bind fun r => (mm_realloc r.2 r.1 40).map fun q =>
      (q.1, chain_free_count r.2, index_count r.2, chain_free_count q.2, index_count q.2)) =
      some (4248, some 1, some 1, some 1, some 0) := by
  decide

/-- C5: after `mm_init; a = mm_malloc(1); b = mm_malloc(1); mm_free(a);
mm_realloc(b, 40)` the blocks `a = 4248` and `b = 4280` are physically adjacent
and both have the allocated bit clear (there was no such pair before the
`mm_realloc`). -/
theorem realloc_absorb_leaves_adjacent_free :
    (run_two.bind fun r => (mm_realloc r.2 r.1 40).map fun q =>
      (q.1, adjacent_free_pairs r.2, adjacent_free_pairs q.2)) =
      some (4280, some [], some [(4248, 4280)]) := by
  decide

/-- C8: `p = mm_malloc(1)` has block size 32, the adjusted size `mm_malloc`
computes for 1; yet `mm_realloc(p, 1)` computes the adjusted size 24, takes the
absorb path and rewrites the header of `p` from `PACK(32, 1)` to `PACK(144, 0)`
and empties bucket 6. -/
theorem realloc_same_size_changes_heap :
    malloc_asize 1 = 32 ∧ realloc_asize 1 = 24 ∧
    (run_one.bind fun r => (mm_realloc r.2 r.1 1).map fun q =>
      (r.1, GET r.2 (HDRP r.1), q.1, GET q.2 (HDRP q.1))) = some (4248, 33, 4248, 144) ∧
    (run_one.bind fun r => (mm_realloc r.2 r.1 1).map fun q =>
      (bucket r.2 6, bucket q.2 6)) = some (some [4280], some []) := by
  decide

/-- C9: `mm_malloc(0)` returns `NULL` and `mm_free(NULL)` returns, each leaving the
state unchanged; `mm_realloc(NULL, n)` is `mm_malloc(n)`, result and final state;
`mm_realloc(p, 0)` returns `NULL` in the final state of `mm_free(p)`. -/
theorem degenerate_inputs (s : State) :
    mm_malloc s 0 = some (0, s) ∧ mm_free s 0 = s ∧
    (∀ n, mm_realloc s 0 n = mm_malloc s n) ∧
    (∀ p, mm_realloc s p 0 = some (0, mm_free s p)) := by
  refine ⟨by simp [mm_malloc], by simp [mm_free], fun n => by simp [mm_realloc], fun p => ?_⟩
  by_cases hp : p = 0
  · subst hp; simp [mm_realloc, mm_malloc, mm_free]
  · simp [mm_realloc, hp]

theorem land_mask (x : Nat) (hx : x < SIZE_MOD) :
    x &&& (SIZE_MOD - 1 - (WSIZE - 1)) = x / 8 * 8 := by
  have hM : SIZE_MOD - 1 - (WSIZE - 1) = (2 ^ 61 - 1) <<< 3 := by decide
  rw [hM]
  have key : x &&& ((2 ^ 61 - 1) <<< 3) = ((x >>> 3) &&& (2 ^ 61 - 1)) <<< 3 := by
    apply Nat.eq_of_testBit_eq
    intro i
    simp only [Nat.testBit_land, Nat.testBit_shiftLeft, Nat.testBit_shiftRight]
    by_cases h : 3 ≤ i
    · simp [h, Nat.add_sub_cancel' h]
    · simp [h]
  rw [key, Nat.and_pow_two_sub_one_eq_mod, Nat.shiftRight_eq_div_pow, Nat.shiftLeft_eq]
  have : x / 2 ^ 3 < 2 ^ 61 := by
    unfold SIZE_MOD at hx
    omega
  rw [Nat.mod_eq_of_lt this]
  norm_num

theorem pack_add (sz a : Nat) (hs : sz % 8 = 0) (ha : a < 8) : PACK sz a = sz + a := by
  unfold PACK
  obtain ⟨q, rfl⟩ : ∃ q, sz = 2 ^ 3 * q := ⟨sz / 8, by omega⟩
  exact (Nat.mul_add_lt_is_or (by omega) q).symm

theorem tag_eq (sz : Nat) (al : Bool) (hs : sz % 8 = 0) :
    tag sz al = sz + (if al then 1 else 0) := by
  unfold tag
  cases al <;> simp [pack_add sz _ hs]

theorem tag_size (sz : Nat) (al : Bool) (hs : sz % 8 = 0) (hlt : sz < SIZE_MOD) :
    tag sz al &&& (SIZE_MOD - 1 - (WSIZE - 1)) = sz := by
  rw [tag_eq sz al hs, land_mask]
  · cases al <;> simp <;> omega
  · unfold SIZE_MOD at *
    cases al <;> simp <;> omega

theorem tag_alloc (sz : Nat) (al : Bool) (hs : sz % 8 = 0) :
    tag sz al &&& 1 = if al then 1 else 0 := by
  rw [tag_eq sz al hs, Nat.and_one_is_mod]
  cases al <;> simp <;> omega

@[simp] theorem PUT_mem (s : State) (p v a : Nat) :
    (PUT s p v).mem a = if a = p then v else s.mem a := rfl

@[simp] theorem PUT_brk (s : State) (p v : Nat) : (PUT s p v).brk = s.brk := rfl

@[simp] theorem PUT_cap (s : State) (p v : Nat) : (PUT s p v).cap = s.cap := rfl

@[simp] theorem PUT_heap_listp (s : State) (p v : Nat) :
    (PUT s p v).heap_listp = s.heap_listp := rfl

theorem Chain.le {m : Nat → Nat} {bs : List Blk} : ∀ {a e : Nat}, Chain m a bs e → a ≤ e := by
  induction bs with
  | nil => intro a e h; simp only [Chain] at h; omega
  | cons b bs ih =>
    intro a e h
    obtain ⟨_, _, _, _, _, h6⟩ := h
    have := ih h6
    omega

theorem Chain.append {m : Nat → Nat} {l1 l2 : List Blk} : ∀ {a e : Nat},
    Chain m a (l1 ++ l2) e ↔ ∃ c, Chain m a l1 c ∧ Chain m c l2 e := by
  induction l1 with
  | nil => intro a e; simp [Chain]
  | cons b l1 ih =>
    intro a e
    show (_ ∧ _ ∧ _ ∧ _ ∧ _ ∧ Chain m (a + b.sz) (l1 ++ l2) e) ↔ _
    rw [ih]
    constructor
    · rintro ⟨h1, h2, h3, h4, h5, c, h6, h7⟩
      exact ⟨c, ⟨h1, h2, h3, h4, h5, h6⟩, h7⟩
    · rintro ⟨c, ⟨h1, h2, h3, h4, h5, h6⟩, h7⟩
      exact ⟨h1, h2, h3, h4, h5, c, h6, h7⟩

/-- Every block of a chain lies between its ends and carries its tags. -/
theorem Chain.mem {m : Nat → Nat} {bs : List Blk} : ∀ {a e : Nat}, Chain m a bs e →
    ∀ b ∈ bs, a ≤ b.bp ∧ b.bp + b.sz ≤ e ∧ 32 ≤ b.sz ∧ b.sz % 8 = 0 ∧
      m (b.bp - 8) = tag b.sz b.al ∧ m (b.bp + b.sz - 16) = tag b.sz b.al := by
  induction bs with
  | nil => intro a e _ b hb; simp at hb
  | cons c bs ih =>
    intro a e h b hb
    obtain ⟨h1, h2, h3, h4, h5, h6⟩ := h
    have hle := Chain.le h6
    rcases List.mem_cons.1 hb with rfl | hb
    · subst h1
      exact ⟨le_refl _, hle, h2, h3, h4, h5⟩
    · have := ih h6 b hb
      exact ⟨by omega, this.2⟩

/-- Two blocks of a chain are the same block or do not overlap. -/
theorem Chain.disj {m : Nat → Nat} {bs : List Blk} : ∀ {a e : Nat}, Chain m a bs e →
    ∀ b ∈ bs, ∀ c ∈ bs, b = c ∨ b.bp + b.sz ≤ c.bp ∨ c.bp + c.sz ≤ b.bp := by
  induction bs with
  | nil => intro a e _ b hb; simp at hb
  | cons d bs ih =>
    intro a e h b hb c hc
    obtain ⟨h1, h2, h3, h4, h5, h6⟩ := h
    rcases List.mem_cons.1 hb with rfl | hb1 <;> rcases List.mem_cons.1 hc with rfl | hc1
    · exact Or.inl rfl
    · have := (Chain.mem h6 c hc1).1
      right; left; omega
    · have := (Chain.mem h6 b hb1).1
      right; right; omega
    · exact ih h6 b hb1 c hc1

/-- A chain only depends on the words between its first header and its end. -/
theorem Chain.congr_range {m m1 : Nat → Nat} {bs : List Blk} : ∀ {a e : Nat},
    (∀ x, a ≤ x + 8 → x + 8 < e → m1 x = m x) → Chain m a bs e → Chain m1 a bs e := by
  induction bs with
  | nil => intro a e _ h; exact h
  | cons b bs ih =>
    intro a e hm h
    obtain ⟨h1, h2, h3, h4, h5, h6⟩ := h
    have hle := Chain.le h6
    refine ⟨h1, h2, h3, ?_, ?_, ih (fun x hx1 hx2 => hm x (by omega) hx2) h6⟩
    · rw [hm _ (by omega) (by omega)]; exact h4
    · rw [hm _ (by omega) (by omega)]; exact h5

/-- A list only depends on the link words of its anchor and of its nodes. -/
theorem DLL.congr_links {m m1 : Nat → Nat} {xs : List Nat} : ∀ {a : Nat},
    m1 a = m a → (∀ x ∈ xs, m1 x = m x ∧ m1 (x + 8) = m (x + 8)) → DLL m a xs → DLL m1 a xs := by
  induction xs with
  | nil => intro a ha _ h; simp only [DLL] at *; omega
  | cons x xs ih =>
    intro a ha hx h
    obtain ⟨h1, h2, h3, h4⟩ := h
    have hxx := hx x (List.mem_cons_self _ _)
    refine ⟨by omega, h2, by omega, ih hxx.1 (fun y hy => hx y (List.mem_cons_of_mem _ hy)) h4⟩

/-- Nodes of a list are not `NULL`. -/
theorem DLL.ne_zero {m : Nat → Nat} {xs : List Nat} : ∀ {a : Nat}, DLL m a xs → ∀ x ∈ xs, x ≠ 0 := by
  induction xs with
  | nil => intro a _ x hx; simp at hx
  | cons y xs ih =>
    intro a h x hx
    obtain ⟨_, h2, _, h4⟩ := h
    rcases List.mem_cons.1 hx with rfl | hx1
    · exact h2
    · exact ih h4 x hx1

/-- The links stored in a node in the middle of a list: the back link is the
anchor or an earlier node, the forward link is `NULL` or a later node. -/
theorem DLL.at_node {m : Nat → Nat} {l1 : List Nat} {x : Nat} {l2 : List Nat} : ∀ {a : Nat},
    DLL m a (l1 ++ x :: l2) →
    (m (x + 8) = a ∧ l1 = [] ∨ m (x + 8) ∈ l1) ∧ (m x = 0 ∧ l2 = [] ∨ m x ∈ l2) := by
  induction l1 with
  | nil =>
    intro a h
    obtain ⟨_, _, h3, h4⟩ := h
    refine ⟨Or.inl ⟨h3, rfl⟩, ?_⟩
    cases l2 with
    | nil => exact Or.inl ⟨h4, rfl⟩
    | cons y l2 => exact Or.inr (by rw [h4.1]; exact List.mem_cons_self _ _)
  | cons z l1 ih =>
    intro a h
    obtain ⟨_, _, _, h4⟩ := h
    have := ih h4
    refine ⟨Or.inr ?_, this.2⟩
    rcases this.1 with ⟨h1, _⟩ | h1
    · rw [h1]; exact List.mem_cons_self _ _
    · exact List.mem_cons_of_mem _ h1

/-- Words that `remove_block` leaves alone. -/
theorem remove_block_mem (s : State) (x w : Nat) (h1 : w ≠ s.mem (x + 8))
    (h2 : s.mem x = 0 ∨ w ≠ s.mem x + 8) : (remove_block s x).mem w = s.mem w := by
  simp only [remove_block, GET_NEXT, GET_PREV, GET, SET_PREV, SET_NEXT, WSIZE]
  by_cases hn : s.mem x = 0 <;> by_cases hp : s.mem (x + 8) = 0 <;> simp [hn, hp, h1] <;> omega

/-- Unlinking a node of a list: the list read from the same anchor is the old
list without the node. -/
theorem DLL.remove_node (s : State) {x : Nat} {l2 : List Nat} {l1 : List Nat} : ∀ {a : Nat},
    DLL s.mem a (l1 ++ x :: l2) → a ≠ 0 →
    (∀ u ∈ l1 ++ x :: l2, a ≠ u ∧ a ≠ u + 8) →
    (l1 ++ x :: l2).Nodup →
    (∀ u ∈ l1 ++ x :: l2, ∀ v ∈ l1 ++ x :: l2, u = v ∨ u + 16 ≤ v ∨ v + 16 ≤ u) →
    DLL (remove_block s x).mem a (l1 ++ l2) := by
  induction l1 with
  | nil =>
    intro a h ha hanc hnd hsp
    obtain ⟨h1, h2, h3, h4⟩ := h
    simp only [List.nil_append] at *
    cases l2 with
    | nil =>
      simp only [DLL] at h4 ⊢
      simp [remove_block, GET_NEXT, GET_PREV, GET, SET_PREV, SET_NEXT, WSIZE, h3, h4, ha]
    | cons y l2 =>
      obtain ⟨g1, g2, g3, g4⟩ := h4
      have hay := hanc y (by simp)
      have hxy : x ≠ y := by
        intro h; subst h; simp at hnd
      have hmem : ∀ w, (remove_block s x).mem w =
          if w = a then y else if w = y + 8 then a else s.mem w := by
        intro w
        simp [remove_block, GET_NEXT, GET_PREV, GET, SET_PREV, SET_NEXT, WSIZE, h3, g1, g2, ha]
      refine ⟨by simp [hmem], g2, ?_, ?_⟩
      · rw [hmem, if_neg (by omega), if_pos rfl]
      · apply DLL.congr_links _ _ g4
        · rw [hmem, if_neg (by omega), if_neg (by omega)]
        · intro u hu
          have hau := hanc u (by simp [hu])
          have hyu : y ≠ u := by
            intro h; subst h
            simp at hnd; tauto
          have := hsp y (by simp) u (by simp [hu])
          have e : ∀ w, w ≠ a → w ≠ y + 8 → (remove_block s x).mem w = s.mem w := by
            intro w h1 h2
            rw [hmem]; simp [h1, h2]
          exact ⟨e _ (by omega) (by omega), e _ (by omega) (by omega)⟩
  | cons z l1 ih =>
    intro a h ha hanc hnd hsp
    obtain ⟨h1, h2, h3, h4⟩ := h
    have hz : ∀ u ∈ l1 ++ x :: l2, z ≠ u ∧ z ≠ u + 8 := by
      intro u hu
      have hzu : z ≠ u := by
        intro h; subst h
        simp only [List.cons_append, List.nodup_cons] at hnd
        exact hnd.1 hu
      have := hsp z (by simp) u (List.mem_cons_of_mem _ hu)
      omega
    have hz2 : ∀ u ∈ l1 ++ x :: l2, z + 8 ≠ u ∧ z + 8 ≠ u + 8 := by
      intro u hu
      have := hz u hu
      have := hsp z (by simp) u (List.mem_cons_of_mem _ hu)
      omega
    have hnd1 : (l1 ++ x :: l2).Nodup := by
      simp only [List.cons_append, List.nodup_cons] at hnd
      exact hnd.2
    have := ih h4 h2 hz hnd1
      (fun u hu v hv => hsp u (List.mem_cons_of_mem _ hu) v (List.mem_cons_of_mem _ hv))
    have hat := DLL.at_node h4
    have hnz := DLL.ne_zero h4
    have hx1 := hz x (by simp)
    refine ⟨?_, h2, ?_, this⟩
    · rw [remove_block_mem, h1]
      · rcases hat.1 with ⟨e1, _⟩ | e1
        · rw [e1]; exact (hanc z (by simp)).1
        · exact (hanc _ (List.mem_cons_of_mem _ (by simp [e1]))).1
      · rcases hat.2 with ⟨e1, _⟩ | e1
        · exact Or.inl e1
        · exact Or.inr (hanc _ (List.mem_cons_of_mem _ (by simp [e1]))).2
    · rw [remove_block_mem, h3]
      · rcases hat.1 with ⟨e1, _⟩ | e1
        · rw [e1]; omega
        · exact (hz2 _ (show s.mem (x + 8) ∈ l1 ++ x :: l2 by simp [e1])).1
      · rcases hat.2 with ⟨e1, _⟩ | e1
        · exact Or.inl e1
        · exact Or.inr (hz2 _ (show s.mem x ∈ l1 ++ x :: l2 by simp [e1])).2

theorem ite_lt_of_lt (c : Prop) [Decidable c] (a b k : Nat) (ha : a < k) (hb : b < k) :
    (if c then a else b) < k := by
  split <;> assumption

theorem calc_size_lt (n : Nat) : calc_size n < 15 := by
  unfold calc_size
  repeat (first | apply ite_lt_of_lt | omega)

@[simp] theorem remove_block_brk (s : State) (x : Nat) : (remove_block s x).brk = s.brk := by
  simp only [remove_block, SET_PREV, SET_NEXT]
  split_ifs <;> rfl

@[simp] theorem remove_block_cap (s : State) (x : Nat) : (remove_block s x).cap = s.cap := by
  simp only [remove_block, SET_PREV, SET_NEXT]
  split_ifs <;> rfl

@[simp] theorem remove_block_heap_listp (s : State) (x : Nat) :
    (remove_block s x).heap_listp = s.heap_listp := by
  simp only [remove_block, SET_PREV, SET_NEXT]
  split_ifs <;> rfl

@[simp] theorem insert_block_brk (s : State) (x n : Nat) : (insert_block s x n).brk = s.brk := by
  simp only [insert_block, SET_PREV, SET_NEXT]
  split_ifs <;> rfl

@[simp] theorem insert_block_cap (s : State) (x n : Nat) : (insert_block s x n).cap = s.cap := by
  simp only [insert_block, SET_PREV, SET_NEXT]
  split_ifs <;> rfl

@[simp] theorem insert_block_heap_listp (s : State) (x n : Nat) :
    (insert_block s x n).heap_listp = s.heap_listp := by
  simp only [insert_block, SET_PREV, SET_NEXT]
  split_ifs <;> rfl

/-- The store after `insert_block`, word by word. -/
theorem insert_block_mem (s : State) (x n w : Nat) :
    (insert_block s x n).mem w =
      if w = s.heap_listp + calc_size (n % UINT_MOD) * 8 then x
      else if s.mem (s.heap_listp + calc_size (n % UINT_MOD) * 8) ≠ 0 ∧
          w = s.mem (s.heap_listp + calc_size (n % UINT_MOD) * 8) + 8 then x
      else if w = x + 8 then s.heap_listp + calc_size (n % UINT_MOD) * 8
      else if w = x then s.mem (s.heap_listp + calc_size (n % UINT_MOD) * 8)
      else s.mem w := by
  simp only [insert_block, GET, SET_PREV, SET_NEXT, WSIZE]
  by_cases h0 : s.mem (s.heap_listp + calc_size (n % UINT_MOD) * 8) = 0
  · simp [h0]
  · simp [h0]

/-- Linking a fresh node at the head of a list. -/
theorem DLL.insert_head (s : State) (x n : Nat) (xs : List Nat)
    (h : DLL s.mem (s.heap_listp + calc_size (n % UINT_MOD) * 8) xs) (hx : x ≠ 0)
    (hanc : ∀ u ∈ x :: xs, s.heap_listp + calc_size (n % UINT_MOD) * 8 ≠ u ∧
      s.heap_listp + calc_size (n % UINT_MOD) * 8 ≠ u + 8)
    (hnd : (x :: xs).Nodup)
    (hsp : ∀ u ∈ x :: xs, ∀ v ∈ x :: xs, u = v ∨ u + 16 ≤ v ∨ v + 16 ≤ u) :
    DLL (insert_block s x n).mem (s.heap_listp + calc_size (n % UINT_MOD) * 8) (x :: xs) := by
  generalize ha : s.heap_listp + calc_size (n % UINT_MOD) * 8 = a at *
  have hmem := fun w => insert_block_mem s x n w
  rw [ha] at hmem
  have hax := hanc x (by simp)
  cases xs with
  | nil =>
    simp only [DLL] at h
    refine ⟨by rw [hmem]; simp, hx, ?_, ?_⟩
    · rw [hmem, if_neg (by omega), if_neg (by simp [h]), if_pos rfl]
    · show (insert_block s x n).mem x = 0
      rw [hmem, if_neg (by omega), if_neg (by simp [h]), if_neg (by omega), if_pos rfl, h]
  | cons y xs =>
    obtain ⟨h1, h2, h3, h4⟩ := h
    have hay := hanc y (by simp)
    have hxy : x ≠ y := by
      intro e; subst e; simp at hnd
    have sxy := hsp x (by simp) y (by simp)
    refine ⟨by rw [hmem]; simp, hx, ?_, ?_, h2, ?_, ?_⟩
    · rw [hmem, if_neg (by omega), if_neg (by rw [h1]; omega), if_pos rfl]
    · rw [hmem, if_neg (by omega), if_neg (by rw [h1]; omega), if_neg (by omega), if_pos rfl, h1]
    · rw [hmem, if_neg (by omega), if_pos ⟨by rw [h1]; exact h2, by rw [h1]⟩]
    · have e : ∀ w, w ≠ a → w ≠ y + 8 → w ≠ x + 8 → w ≠ x → (insert_block s x n).mem w = s.mem w := by
        intro w e1 e2 e3 e4
        rw [hmem, if_neg e1, if_neg (by rw [h1]; simp [e2]), if_neg e3, if_neg e4]
      apply DLL.congr_links _ _ h4
      · exact e _ (by omega) (by omega) (by omega) (by omega)
      · intro u hu
        have hau := hanc u (by simp [hu])
        have hyu : y ≠ u := by
          intro e; subst e
          simp at hnd; tauto
        have hxu : x ≠ u := by
          intro e; subst e
          simp at hnd; tauto
        have := hsp y (by simp) u (by simp [hu])
        have := hsp x (by simp) u (by simp [hu])
        exact ⟨e _ (by omega) (by omega) (by omega) (by omega),
          e _ (by omega) (by omega) (by omega) (by omega)⟩

/-- A chain only depends on the tag words of its blocks. -/
theorem Chain.congr_tags {m m1 : Nat → Nat} {bs : List Blk} : ∀ {a e : Nat},
    (∀ b ∈ bs, m1 (b.bp - 8) = m (b.bp - 8) ∧ m1 (b.bp + b.sz - 16) = m (b.bp + b.sz - 16)) →
    Chain m a bs e → Chain m1 a bs e := by
  induction bs with
  | nil => intro a e _ h; exact h
  | cons b bs ih =>
    intro a e hm h
    obtain ⟨h1, h2, h3, h4, h5, h6⟩ := h
    have hb := hm b (List.mem_cons_self _ _)
    subst h1
    exact ⟨rfl, h2, h3, by rw [hb.1]; exact h4, by rw [hb.2]; exact h5,
      ih (fun c hc => hm c (List.mem_cons_of_mem _ hc)) h6⟩

/-- Every block lies in the heap and carries its tags. -/
theorem Linked.block {s : State} {bs : List Blk} {L : Nat → List Nat} (h : Linked s bs L)
    {b : Blk} (hb : b ∈ bs) :
    s.heap_listp ≤ b.bp ∧ b.bp + b.sz ≤ s.brk ∧ 32 ≤ b.sz ∧ b.sz % 8 = 0 ∧
      s.mem (b.bp - 8) = tag b.sz b.al ∧ s.mem (b.bp + b.sz - 16) = tag b.sz b.al :=
  Chain.mem h.chain b hb

/-- Every block is the prologue or lies above it. -/
theorem Linked.above {s : State} {bs : List Blk} {L : Nat → List Nat} (h : Linked s bs L)
    {b : Blk} (hb : b ∈ bs) :
    b = ⟨s.heap_listp, 136, true⟩ ∨ s.heap_listp + 136 ≤ b.bp := by
  have hp := h.prologue
  have hc := h.chain
  cases bs with
  | nil => simp at hb
  | cons p rest =>
    simp only [List.head?_cons, Option.some.injEq] at hp
    subst hp
    rcases List.mem_cons.1 hb with e | hb1
    · exact Or.inl e
    · obtain ⟨_, _, _, _, _, h6⟩ := hc
      exact Or.inr (Chain.mem h6 b hb1).1

/-- Blocks with the same address are the same block. -/
theorem Linked.same {s : State} {bs : List Blk} {L : Nat → List Nat} (h : Linked s bs L)
    {b c : Blk} (hb : b ∈ bs) (hc : c ∈ bs) (e : b.bp = c.bp) : b = c := by
  have h1 := h.block hb
  have h2 := h.block hc
  rcases Chain.disj h.chain b hb c hc with h3 | h3 | h3
  · exact h3
  · omega
  · omega

/-- A list node is a free block above the prologue. -/
theorem Linked.node {s : State} {bs : List Blk} {L : Nat → List Nat} (h : Linked s bs L)
    {k x : Nat} (hk : k < 15) (hx : x ∈ L k) :
    ∃ b ∈ bs, b.bp = x ∧ b.al = false ∧ s.heap_listp + 136 ≤ x ∧ 32 ≤ b.sz ∧ x + b.sz ≤ s.brk := by
  obtain ⟨b, hb, e1, e2⟩ := h.listed k hk x hx
  have h1 := h.block hb
  refine ⟨b, hb, e1, e2, ?_, h1.2.2.1, by omega⟩
  rcases h.above hb with e | e
  · subst e; simp at e2
  · omega

/-- Two list nodes are the same or at least a minimal block apart. -/
theorem Linked.spaced {s : State} {bs : List Blk} {L : Nat → List Nat} (h : Linked s bs L)
    {j k u v : Nat} (hj : j < 15) (hu : u ∈ L j) (hk : k < 15) (hv : v ∈ L k) :
    u = v ∨ u + 32 ≤ v ∨ v + 32 ≤ u := by
  obtain ⟨b, hb, e1, _, _, e4, _⟩ := h.node hj hu
  obtain ⟨c, hc, f1, _, _, f4, _⟩ := h.node hk hv
  rcases Chain.disj h.chain b hb c hc with h3 | h3 | h3
  · subst h3; left; omega
  · right; left; omega
  · right; right; omega

/-- The tag words of a block are not link words of a list node. -/
theorem Linked.tag_ne_node {s : State} {bs : List Blk} {L : Nat → List Nat} (h : Linked s bs L)
    {b : Blk} (hb : b ∈ bs) {k x : Nat} (hk : k < 15) (hx : x ∈ L k) :
    b.bp - 8 ≠ x ∧ b.bp - 8 ≠ x + 8 ∧ b.bp + b.sz - 16 ≠ x ∧ b.bp + b.sz - 16 ≠ x + 8 := by
  obtain ⟨c, hc, f1, _, f3, f4, _⟩ := h.node hk hx
  have h1 := h.block hb
  have hl := h.low
  rcases Chain.disj h.chain b hb c hc with h3 | h3 | h3
  · subst h3; omega
  · omega
  · omega

/-- The tag words of a block are not bucket slots. -/
theorem Linked.tag_ne_slot {s : State} {bs : List Blk} {L : Nat → List Nat} (h : Linked s bs L)
    {b : Blk} (hb : b ∈ bs) {k : Nat} (hk : k < 15) :
    b.bp - 8 ≠ s.heap_listp + k * 8 ∧ b.bp + b.sz - 16 ≠ s.heap_listp + k * 8 := by
  have h1 := h.block hb
  have hl := h.low
  rcases h.above hb with e | e
  · subst e; simp only; omega
  · omega

/-- The links stored in a list node: `prev` is the bucket slot or another node of
the bucket, `next` is `NULL` or another node of the bucket. -/
theorem Linked.node_links {s : State} {bs : List Blk} {L : Nat → List Nat} (h : Linked s bs L)
    {k x : Nat} (hk : k < 15) (hx : x ∈ L k) :
    (s.mem (x + 8) = s.heap_listp + k * 8 ∨ s.mem (x + 8) ∈ L k) ∧
      (s.mem x = 0 ∨ s.mem x ∈ L k) := by
  obtain ⟨l1, l2, e⟩ := List.append_of_mem hx
  have hd := h.links k hk
  rw [e] at hd
  have := DLL.at_node hd
  constructor
  · rcases this.1 with h1 | h1
    · exact Or.inl h1.1
    · right; rw [e]; simp [h1]
  · rcases this.2 with h1 | h1
    · exact Or.inl h1.1
    · right; rw [e]; simp [h1]

/-- Two blocks start at the same address or at least a minimal block apart. -/
theorem Linked.block_spaced {s : State} {bs : List Blk} {L : Nat → List Nat} (h : Linked s bs L)
    {b c : Blk} (hb : b ∈ bs) (hc : c ∈ bs) :
    b.bp = c.bp ∨ b.bp + 32 ≤ c.bp ∨ c.bp + 32 ≤ b.bp := by
  have h1 := h.block hb
  have h2 := h.block hc
  rcases Chain.disj h.chain b hb c hc with h3 | h3 | h3
  · subst h3; left; rfl
  · right; left; omega
  · right; right; omega

/-- The tag words of a block are not the link words of a block. -/
theorem Linked.tag_ne_block {s : State} {bs : List Blk} {L : Nat → List Nat} (h : Linked s bs L)
    {b c : Blk} (hb : b ∈ bs) (hc : c ∈ bs) :
    b.bp - 8 ≠ c.bp ∧ b.bp - 8 ≠ c.bp + 8 ∧ b.bp + b.sz - 16 ≠ c.bp ∧
      b.bp + b.sz - 16 ≠ c.bp + 8 := by
  have h1 := h.block hb
  have h2 := h.block hc
  have hl := h.low
  rcases Chain.disj h.chain b hb c hc with h3 | h3 | h3
  · subst h3; omega
  · omega
  · omega

/-- The heap extends beyond the prologue. -/
theorem Linked.brk_above {s : State} {bs : List Blk} {L : Nat → List Nat} (h : Linked s bs L) :
    s.heap_listp + 136 ≤ s.brk := by
  have hp := h.prologue
  cases bs with
  | nil => simp at hp
  | cons p rest =>
    simp only [List.head?_cons, Option.some.injEq] at hp
    have := h.block (List.mem_cons_self p rest)
    subst hp
    simp only at this
    omega

/-- Unlinking a node keeps the heap linked; every bucket list loses the node. -/
theorem Linked.remove {s : State} {bs : List Blk} {L : Nat → List Nat} (h : Linked s bs L)
    {k0 x : Nat} (hk0 : k0 < 15) (hx : x ∈ L k0) :
    Linked (remove_block s x) bs (fun k => (L k).erase x) := by
  have hl := h.low
  have hbrk := h.brk_above
  have hlinks := h.node_links hk0 hx
  obtain ⟨bx, hbx, ex1, ex2, ex3, ex4, ex5⟩ := h.node hk0 hx
  -- where the two writes go
  have hprev : s.mem (x + 8) = s.heap_listp + k0 * 8 ∨ s.mem (x + 8) ∈ L k0 := hlinks.1
  have hnext : s.mem x = 0 ∨ s.mem x ∈ L k0 := hlinks.2
  have keep : ∀ w, (w ≠ s.heap_listp + k0 * 8) → (∀ u ∈ L k0, w ≠ u ∧ w ≠ u + 8) →
      (remove_block s x).mem w = s.mem w := by
    intro w h1 h2
    apply remove_block_mem
    · rcases hprev with e | e
      · rw [e]; exact h1
      · exact (h2 _ e).1
    · rcases hnext with e | e
      · exact Or.inl e
      · exact Or.inr (h2 _ e).2
  refine ⟨by simpa using hl, by simpa using h.high, by simpa using h.prologue, ?_, ?_, ?_, ?_, ?_, ?_⟩
  · simp only [remove_block_heap_listp, remove_block_brk]
    apply Chain.congr_tags _ h.chain
    intro b hb
    have t1 := h.tag_ne_slot hb hk0
    constructor
    · exact keep _ t1.1 (fun u hu => ⟨(h.tag_ne_node hb hk0 hu).1, (h.tag_ne_node hb hk0 hu).2.1⟩)
    · exact keep _ t1.2 (fun u hu => ⟨(h.tag_ne_node hb hk0 hu).2.2.1, (h.tag_ne_node hb hk0 hu).2.2.2⟩)
  · simp only [remove_block_brk]
    rw [keep, h.epilogue]
    · omega
    · intro u hu
      obtain ⟨b, _, e1, _, _, e4, e5⟩ := h.node hk0 hu
      omega
  · intro k hk
    simp only [remove_block_heap_listp]
    by_cases hkk : k = k0
    · subst hkk
      obtain ⟨l1, l2, e⟩ := List.append_of_mem hx
      have hnd := h.nodup k hk
      have hd := h.links k hk
      rw [e] at hnd hd
      have hx1 : x ∉ l1 := by
        intro hm
        have := List.nodup_append.1 hnd
        exact this.2.2 hm (List.mem_cons_self _ _) 
      have herase : (L k).erase x = l1 ++ l2 := by
        rw [e, List.erase_append_right _ hx1, List.erase_cons_head]
      rw [herase]
      apply DLL.remove_node s hd (by omega)
      · intro u hu
        rw [← e] at hu
        obtain ⟨_, _, _, _, e3, _⟩ := h.node hk hu
        omega
      · exact hnd
      · intro u hu v hv
        rw [← e] at hu hv
        have := h.spaced hk hu hk hv
        omega
    · have hxk : x ∉ L k := fun hm => h.disjoint k hk k0 hk0 hkk x hm hx
      rw [List.erase_of_not_mem hxk]
      apply DLL.congr_links _ _ (h.links k hk)
      · apply keep
        · omega
        · intro u hu
          obtain ⟨_, _, _, _, e3, _⟩ := h.node hk0 hu
          omega
      · intro u hu
        obtain ⟨_, _, _, _, e3, _⟩ := h.node hk hu
        constructor
        · apply keep
          · omega
          · intro v hv
            have := h.spaced hk hu hk0 hv
            have : u ≠ v := fun e => h.disjoint k hk k0 hk0 hkk u hu (e ▸ hv)
            omega
        · apply keep
          · omega
          · intro v hv
            have := h.spaced hk hu hk0 hv
            have : u ≠ v := fun e => h.disjoint k hk k0 hk0 hkk u hu (e ▸ hv)
            omega
  · intro k hk
    exact (h.nodup k hk).erase x
  · intro j hj k hk hjk u hu hu2
    exact h.disjoint j hj k hk hjk u (List.mem_of_mem_erase hu) (List.mem_of_mem_erase hu2)
  · intro k hk u hu
    exact h.listed k hk u (List.mem_of_mem_erase hu)

/-- Linking a free block that is in no list keeps the heap linked; the block
becomes the head of the bucket of its size. -/
theorem Linked.insert {s : State} {bs : List Blk} {L : Nat → List Nat} (h : Linked s bs L)
    {b : Blk} (hb : b ∈ bs) (hal : b.al = false) (hnl : ∀ k, k < 15 → b.bp ∉ L k) (n : Nat) :
    Linked (insert_block s b.bp n) bs
      (fun k => if k = calc_size (n % UINT_MOD) then b.bp :: L k else L k) := by
  have hl := h.low
  have hbrk := h.brk_above
  have hk0 := calc_size_lt (n % UINT_MOD)
  have hbb := h.block hb
  have hab : s.heap_listp + 136 ≤ b.bp := by
    rcases h.above hb with e | e
    · subst e; simp at hal
    · exact e
  have hhead : s.mem (s.heap_listp + (calc_size (n % UINT_MOD)) * 8) = 0 ∨ s.mem (s.heap_listp + (calc_size (n % UINT_MOD)) * 8) ∈ L (calc_size (n % UINT_MOD)) := by
    have hd := h.links (calc_size (n % UINT_MOD)) hk0
    cases hL : L (calc_size (n % UINT_MOD)) with
    | nil => rw [hL] at hd; exact Or.inl hd
    | cons y ys => rw [hL] at hd; right; rw [hd.1]; exact List.mem_cons_self _ _
  have keep : ∀ w, (w ≠ s.heap_listp + (calc_size (n % UINT_MOD)) * 8) → (∀ u ∈ L (calc_size (n % UINT_MOD)), w ≠ u + 8) →
      w ≠ b.bp + 8 → w ≠ b.bp → (insert_block s b.bp n).mem w = s.mem w := by
    intro w h1 h2 h3 h4
    rw [insert_block_mem]
    rw [if_neg (by simpa using h1), if_neg, if_neg h3, if_neg h4]
    rintro ⟨e1, e2⟩
    rcases hhead with e | e
    · exact e1 (by simpa using e)
    · exact h2 _ e (by simpa using e2)
  refine ⟨by simpa using hl, by simpa using h.high, by simpa using h.prologue, ?_, ?_, ?_, ?_, ?_, ?_⟩
  · simp only [insert_block_heap_listp, insert_block_brk]
    apply Chain.congr_tags _ h.chain
    intro c hc
    have t1 := h.tag_ne_slot hc hk0
    have t2 := h.tag_ne_block hc hb
    constructor
    · exact keep _ t1.1 (fun u hu => (h.tag_ne_node hc hk0 hu).2.1) t2.2.1 t2.1
    · exact keep _ t1.2 (fun u hu => (h.tag_ne_node hc hk0 hu).2.2.2) t2.2.2.2 t2.2.2.1
  · simp only [insert_block_brk]
    rw [keep, h.epilogue]
    · omega
    · intro u hu
      obtain ⟨_, _, e1, _, _, e4, e5⟩ := h.node hk0 hu
      omega
    · omega
    · omega
  · intro k hk
    simp only [insert_block_heap_listp]
    have bsp : ∀ j, j < 15 → ∀ u ∈ L j, b.bp ≠ u ∧ (b.bp + 32 ≤ u ∨ u + 32 ≤ b.bp) := by
      intro j hj u hu
      have hne : b.bp ≠ u := fun e => hnl j hj (e ▸ hu)
      obtain ⟨c, hc, e1, _⟩ := h.node hj hu
      have := h.block_spaced hb hc
      exact ⟨hne, by omega⟩
    by_cases hkk : k = (calc_size (n % UINT_MOD))
    · subst hkk
      rw [if_pos rfl]
      apply DLL.insert_head s b.bp n (L _) (h.links _ hk) (by omega)
      · intro u hu
        rcases List.mem_cons.1 hu with e | hu1
        · subst e; omega
        · obtain ⟨_, _, _, _, e3, _⟩ := h.node hk hu1
          omega
      · exact List.nodup_cons.2 ⟨hnl _ hk, h.nodup _ hk⟩
      · intro u hu v hv
        rcases List.mem_cons.1 hu with e | hu1 <;> rcases List.mem_cons.1 hv with f | hv1
        · left; rw [e, f]
        · subst e
          have := bsp _ hk v hv1
          omega
        · subst f
          have := bsp _ hk u hu1
          omega
        · have := h.spaced hk hu1 hk hv1
          omega
    · rw [if_neg hkk]
      apply DLL.congr_links _ _ (h.links k hk)
      · apply keep
        · omega
        · intro u hu
          obtain ⟨_, _, _, _, e3, _⟩ := h.node hk0 hu
          omega
        · omega
        · omega
      · intro u hu
        obtain ⟨_, _, _, _, e3, _⟩ := h.node hk hu
        have hbu := bsp k hk u hu
        constructor
        · apply keep
          · omega
          · intro v hv
            have := h.spaced hk hu hk0 hv
            have : u ≠ v := fun e => h.disjoint k hk (calc_size (n % UINT_MOD)) hk0 hkk u hu (e ▸ hv)
            omega
          · omega
          · omega
        · apply keep
          · omega
          · intro v hv
            have : u ≠ v := fun e => h.disjoint k hk (calc_size (n % UINT_MOD)) hk0 hkk u hu (e ▸ hv)
            omega
          · omega
          · omega
  · intro k hk
    by_cases hkk : k = (calc_size (n % UINT_MOD))
    · subst hkk
      simp only [if_true]
      exact List.nodup_cons.2 ⟨hnl _ hk, h.nodup _ hk⟩
    · simp only [if_neg hkk]
      exact h.nodup k hk
  · intro j hj k hk hjk u hu hu2
    by_cases hj0 : j = (calc_size (n % UINT_MOD)) <;> by_cases hkk0 : k = (calc_size (n % UINT_MOD))
    · omega
    · simp only [if_pos hj0, if_neg hkk0] at hu hu2
      rcases List.mem_cons.1 hu with e | hu1
      · subst e; exact hnl k hk hu2
      · exact h.disjoint j hj k hk hjk u hu1 hu2
    · simp only [if_neg hj0, if_pos hkk0] at hu hu2
      rcases List.mem_cons.1 hu2 with e | hu1
      · subst e; exact hnl j hj hu
      · exact h.disjoint j hj k hk hjk u hu hu1
    · simp only [if_neg hj0, if_neg hkk0] at hu hu2
      exact h.disjoint j hj k hk hjk u hu hu2
  · intro k hk u hu
    by_cases hkk : k = (calc_size (n % UINT_MOD))
    · simp only [if_pos hkk] at hu
      rcases List.mem_cons.1 hu with e | hu1
      · subst e; exact ⟨b, hb, rfl, hal⟩
      · exact h.listed k hk u hu1
    · simp only [if_neg hkk] at hu
      exact h.listed k hk u hu

theorem Linked.size_lt {s : State} {bs : List Blk} {L : Nat → List Nat} (h : Linked s bs L)
    {b : Blk} (hb : b ∈ bs) : b.sz < SIZE_MOD := by
  have := h.block hb
  have := h.high
  omega

theorem Linked.get_size_hdr {s : State} {bs : List Blk} {L : Nat → List Nat} (h : Linked s bs L)
    {b : Blk} (hb : b ∈ bs) : GET_SIZE s (b.bp - 8) = b.sz := by
  have h1 := h.block hb
  simp only [GET_SIZE, GET]
  rw [h1.2.2.2.2.1]
  exact tag_size _ _ h1.2.2.2.1 (h.size_lt hb)

theorem Linked.get_size_ftr {s : State} {bs : List Blk} {L : Nat → List Nat} (h : Linked s bs L)
    {b : Blk} (hb : b ∈ bs) : GET_SIZE s (b.bp + b.sz - 16) = b.sz := by
  have h1 := h.block hb
  simp only [GET_SIZE, GET]
  rw [h1.2.2.2.2.2]
  exact tag_size _ _ h1.2.2.2.1 (h.size_lt hb)

theorem Linked.get_alloc_hdr {s : State} {bs : List Blk} {L : Nat → List Nat} (h : Linked s bs L)
    {b : Blk} (hb : b ∈ bs) : GET_ALLOC s (b.bp - 8) = if b.al then 1 else 0 := by
  have h1 := h.block hb
  simp only [GET_ALLOC, GET]
  rw [h1.2.2.2.2.1]
  exact tag_alloc _ _ h1.2.2.2.1

theorem Linked.get_alloc_ftr {s : State} {bs : List Blk} {L : Nat → List Nat} (h : Linked s bs L)
    {b : Blk} (hb : b ∈ bs) : GET_ALLOC s (b.bp + b.sz - 16) = if b.al then 1 else 0 := by
  have h1 := h.block hb
  simp only [GET_ALLOC, GET]
  rw [h1.2.2.2.2.2]
  exact tag_alloc _ _ h1.2.2.2.1

theorem Linked.next_blkp {s : State} {bs : List Blk} {L : Nat → List Nat} (h : Linked s bs L)
    {b : Blk} (hb : b ∈ bs) : NEXT_BLKP s b.bp = b.bp + b.sz := by
  simp only [NEXT_BLKP, WSIZE, h.get_size_hdr hb]

theorem Linked.ftrp {s : State} {bs : List Blk} {L : Nat → List Nat} (h : Linked s bs L)
    {b : Blk} (hb : b ∈ bs) : FTRP s b.bp = b.bp + b.sz - 16 := by
  simp only [FTRP, HDRP, WSIZE, DSIZE, h.get_size_hdr hb]

theorem Linked.epi_size {s : State} {bs : List Blk} {L : Nat → List Nat} (h : Linked s bs L) :
    GET_SIZE s (s.brk - 8) = 0 := by
  simp only [GET_SIZE, GET, h.epilogue]
  decide

theorem Linked.epi_alloc {s : State} {bs : List Blk} {L : Nat → List Nat} (h : Linked s bs L) :
    GET_ALLOC s (s.brk - 8) = 1 := by
  simp only [GET_ALLOC, GET, h.epilogue]
  decide

/-- In a chain, a block starts where its predecessor ends. -/
theorem Chain.adjacent {m : Nat → Nat} {pre : List Blk} {p b : Blk} {post : List Blk} {a e : Nat}
    (h : Chain m a (pre ++ p :: b :: post) e) : b.bp = p.bp + p.sz := by
  obtain ⟨c, _, h2⟩ := Chain.append.1 h
  obtain ⟨h1, _, _, _, _, g1, _⟩ := h2
  omega

/-- The last block of a chain ends where the chain ends. -/
theorem Chain.last {m : Nat → Nat} {pre : List Blk} {b : Blk} {a e : Nat}
    (h : Chain m a (pre ++ [b]) e) : b.bp + b.sz = e := by
  obtain ⟨c, _, h2⟩ := Chain.append.1 h
  obtain ⟨h1, _, _, _, _, g1⟩ := h2
  simp only [Chain] at g1
  omega

theorem Linked.prev_blkp {s : State} {pre : List Blk} {p b : Blk} {post : List Blk}
    {L : Nat → List Nat} (h : Linked s (pre ++ p :: b :: post) L) :
    PREV_BLKP s b.bp = p.bp := by
  have hp : p ∈ pre ++ p :: b :: post := by simp
  have e := Chain.adjacent h.chain
  have := h.get_size_ftr hp
  have h1 := h.block hp
  simp only [PREV_BLKP, DSIZE, WSIZE]
  rw [show b.bp - 2 * 8 = p.bp + p.sz - 16 by omega, this]
  omega

/-- The allocated bit found in the header that follows block `b`: the next
block's, or the epilogue's when `b` is the last block. -/
theorem Linked.next_alloc {s : State} {pre : List Blk} {b : Blk} {post : List Blk}
    {L : Nat → List Nat} (h : Linked s (pre ++ b :: post) L) :
    GET_ALLOC s (HDRP (NEXT_BLKP s b.bp)) =
      match post with
      | [] => 1
      | n :: _ => if n.al then 1 else 0 := by
  have hb : b ∈ pre ++ b :: post := by simp
  rw [h.next_blkp hb]
  simp only [HDRP, WSIZE]
  cases post with
  | nil =>
    have := Chain.last h.chain
    rw [this]
    exact h.epi_alloc
  | cons n post =>
    have hc := h.chain
    rw [show pre ++ b :: n :: post = pre ++ b :: n :: post from rfl] at hc
    have e := Chain.adjacent hc
    rw [← e]
    exact h.get_alloc_hdr (by simp)

theorem Linked.prev_alloc {s : State} {pre : List Blk} {p b : Blk} {post : List Blk}
    {L : Nat → List Nat} (h : Linked s (pre ++ p :: b :: post) L) :
    GET_ALLOC s (FTRP s (PREV_BLKP s b.bp)) = if p.al then 1 else 0 := by
  have hp : p ∈ pre ++ p :: b :: post := by simp
  rw [h.prev_blkp, h.ftrp hp]
  exact h.get_alloc_ftr hp

/-- A non-empty chain starts with the header of one of its blocks, ends with the
footer of one of its blocks, and spans the sum of its block sizes. -/
theorem Chain.span {m : Nat → Nat} {bs : List Blk} : ∀ {a e : Nat}, Chain m a bs e → bs ≠ [] →
    (∃ f ∈ bs, f.bp = a) ∧ (∃ z ∈ bs, z.bp + z.sz = e) ∧
      e = a + (bs.map (fun b => b.sz)).sum ∧ a + 32 ≤ e ∧ (bs.map (fun b => b.sz)).sum % 8 = 0 := by
  induction bs with
  | nil => intro a e _ h; exact absurd rfl h
  | cons b bs ih =>
    intro a e h _
    obtain ⟨h1, h2, h3, h4, h5, h6⟩ := h
    have hle := Chain.le h6
    refine ⟨⟨b, List.mem_cons_self _ _, h1⟩, ?_⟩
    cases bs with
    | nil =>
      simp only [Chain] at h6
      refine ⟨⟨b, List.mem_cons_self _ _, by omega⟩, ?_⟩
      simp only [List.map_cons, List.map_nil, List.sum_cons, List.sum_nil]
      omega
    | cons c bs =>
      obtain ⟨_, ⟨z, hz, hz2⟩, g3, g4, g5⟩ := ih h6 (by simp)
      refine ⟨⟨z, List.mem_cons_of_mem _ hz, hz2⟩, ?_⟩
      simp only [List.map_cons, List.sum_cons] at g3 g5 ⊢
      omega

/-- Rewriting the two outer tags of a run of unlisted blocks turns the run into
one block; the heap stays linked. -/
theorem Linked.retag {s s1 : State} {pre mid post : List Blk} {M : Blk} {L : Nat → List Nat}
    (h : Linked s (pre ++ mid ++ post) L) (hpre : pre ≠ []) (hmid : mid ≠ [])
    (hbp : mid.head?.map (fun b => b.bp) = some M.bp)
    (hsz : M.sz = (mid.map (fun b => b.sz)).sum)
    (hbrk : s1.brk = s.brk) (hhl : s1.heap_listp = s.heap_listp)
    (hmem : ∀ w, s1.mem w =
      if w = M.bp - 8 ∨ w = M.bp + M.sz - 16 then tag M.sz M.al else s.mem w)
    (hnl : ∀ b ∈ mid, ∀ k, k < 15 → b.bp ∉ L k) :
    Linked s1 (pre ++ M :: post) L := by
  have hl := h.low
  obtain ⟨d, hc1, hpost⟩ := Chain.append.1 h.chain
  obtain ⟨c, hprec, hmidc⟩ := Chain.append.1 hc1
  obtain ⟨⟨f, hf, hf1⟩, ⟨z, hz, hz1⟩, hd, hcd, hmod⟩ := Chain.span hmidc hmid
  have hMbp : M.bp = c := by
    cases mid with
    | nil => exact absurd rfl hmid
    | cons b mid =>
      simp only [List.head?_cons, Option.map_some', Option.some.injEq] at hbp
      obtain ⟨g1, _⟩ := hmidc
      omega
  have hfm : f ∈ pre ++ mid ++ post := by simp [hf]
  have hzm : z ∈ pre ++ mid ++ post := by simp [hz]
  have hca : s.heap_listp ≤ c := Chain.le hprec
  have hde : d ≤ s.brk := Chain.le hpost
  have keep : ∀ w, w ≠ f.bp - 8 → w ≠ z.bp + z.sz - 16 → s1.mem w = s.mem w := by
    intro w h1 h2
    rw [hmem, if_neg]
    rintro (e | e) <;> omega
  refine ⟨by omega, by rw [hbrk]; exact h.high, ?_, ?_, ?_, ?_, h.nodup, h.disjoint, ?_⟩
  · have := h.prologue
    cases pre with
    | nil => exact absurd rfl hpre
    | cons p pre => simpa [hhl] using this
  · rw [hhl, hbrk]
    apply Chain.append.2
    refine ⟨c, Chain.congr_range (fun x _ hx => keep x (by omega) (by omega)) hprec, ?_⟩
    refine ⟨hMbp, by omega, by omega, ?_, ?_, ?_⟩
    · rw [hmem, if_pos (Or.inl (by omega))]
    · rw [hmem, if_pos (Or.inr (by omega))]
    · rw [show c + M.sz = d by omega]
      exact Chain.congr_range (fun x hx _ => keep x (by omega) (by omega)) hpost
  · rw [hbrk, keep _ (by omega) (by omega)]
    exact h.epilogue
  · intro k hk
    rw [hhl]
    apply DLL.congr_links _ _ (h.links k hk)
    · exact keep _ (h.tag_ne_slot hfm hk).1.symm (h.tag_ne_slot hzm hk).2.symm
    · intro x hx
      have t1 := h.tag_ne_node hfm hk hx
      have t2 := h.tag_ne_node hzm hk hx
      exact ⟨keep _ t1.1.symm t2.2.2.1.symm, keep _ t1.2.1.symm t2.2.2.2.symm⟩
  · intro k hk x hx
    obtain ⟨b, hb, e1, e2⟩ := h.listed k hk x hx
    refine ⟨b, ?_, e1, e2⟩
    simp only [List.mem_append, List.mem_cons] at hb ⊢
    rcases hb with (hb | hb) | hb
    · exact Or.inl hb
    · exact absurd hx (e1 ▸ hnl b hb k hk)
    · exact Or.inr (Or.inr hb)

theorem tag_false (sz : Nat) : tag sz false = PACK sz 0 := rfl

theorem pack_zero_size (sz : Nat) (hs : sz % 8 = 0) (hlt : sz < SIZE_MOD) :
    PACK sz 0 &&& (SIZE_MOD - 1 - (WSIZE - 1)) = sz := by
  rw [← tag_false]; exact tag_size sz false hs hlt

/-- An allocated block is in no bucket list. -/
theorem Linked.not_listed {s : State} {bs : List Blk} {L : Nat → List Nat} (h : Linked s bs L)
    {b : Blk} (hb : b ∈ bs) (hal : b.al = true) : ∀ k, k < 15 → b.bp ∉ L k := by
  intro k hk hx
  obtain ⟨c, hc, e1, e2⟩ := h.listed k hk _ hx
  have := h.same hc hb e1
  subst this
  rw [hal] at e2
  exact absurd e2 (by simp)

/-- The first half of `mm_free`: clearing the allocated bit in both tags of an
allocated block and linking the block. -/
theorem free_mark {s : State} {pre : List Blk} {p : Blk} {bp sz : Nat} {post : List Blk}
    {L : Nat → List Nat} (h : Heap s (pre ++ p :: ⟨bp, sz, true⟩ :: post) L) :
    Heap (insert_block (PUT (PUT s (HDRP bp) (PACK (GET_SIZE s (HDRP bp)) 0))
        (FTRP (PUT s (HDRP bp) (PACK (GET_SIZE s (HDRP bp)) 0)) bp)
        (PACK (GET_SIZE s (HDRP bp)) 0)) bp (GET_SIZE s (HDRP bp)))
      (pre ++ p :: ⟨bp, sz, false⟩ :: post)
      (fun k => if k = calc_size (sz % UINT_MOD) then bp :: L k else L k) := by
  have hl := h.linked
  have hb : (⟨bp, sz, true⟩ : Blk) ∈ pre ++ p :: ⟨bp, sz, true⟩ :: post := by simp
  have hbb := hl.block hb
  have hsz : GET_SIZE s (HDRP bp) = sz := by
    have e := hl.get_size_hdr hb
    simp only [HDRP, WSIZE]
    exact e
  have hlt := hl.size_lt hb
  simp only at hbb hlt
  rw [hsz]
  have hf : FTRP (PUT s (HDRP bp) (PACK sz 0)) bp = bp + sz - 16 := by
    simp only [FTRP, GET_SIZE, GET, PUT_mem, HDRP, DSIZE, WSIZE, if_true]
    have := pack_zero_size sz hbb.2.2.2.1 hlt
    simp only [WSIZE] at this
    rw [this]
  rw [hf]
  have h2 : Linked (PUT (PUT s (HDRP bp) (PACK sz 0)) (bp + sz - 16) (PACK sz 0))
      ((pre ++ [p]) ++ ⟨bp, sz, false⟩ :: post) L := by
    have hl1 : Linked s ((pre ++ [p]) ++ [⟨bp, sz, true⟩] ++ post) L := by simpa using hl
    apply Linked.retag hl1 (by simp) (by simp) (by simp) (by simp) (by simp) (by simp)
    · intro w
      simp only [PUT_mem, HDRP, WSIZE, tag_false]
      by_cases e1 : w = bp + sz - 16
      · simp [e1]
      · by_cases e2 : w = bp - 8
        · simp [e2]
        · simp [e1, e2]
    · intro b hb1 k hk
      simp only [List.mem_singleton] at hb1
      subst hb1
      exact hl.not_listed hb rfl k hk
  have h2a : Linked (PUT (PUT s (HDRP bp) (PACK sz 0)) (bp + sz - 16) (PACK sz 0))
      (pre ++ p :: ⟨bp, sz, false⟩ :: post) L := by simpa using h2
  have hb2 : (⟨bp, sz, false⟩ : Blk) ∈ pre ++ p :: ⟨bp, sz, false⟩ :: post := by simp
  have hnl : ∀ k, k < 15 → bp ∉ L k := hl.not_listed hb rfl
  have h3 := h2a.insert hb2 rfl hnl sz
  refine ⟨h3, ?_⟩
  intro b hb3 hal
  by_cases e : b = ⟨bp, sz, false⟩
  · subst e
    exact ⟨calc_size (sz % UINT_MOD), calc_size_lt _, by simp⟩
  · have hb4 : b ∈ pre ++ p :: ⟨bp, sz, true⟩ :: post := by
      simp only [List.mem_append, List.mem_cons] at hb3 ⊢
      tauto
    obtain ⟨k, hk, hx⟩ := h.indexed b hb4 hal
    refine ⟨k, hk, ?_⟩
    by_cases hkk : k = calc_size (sz % UINT_MOD)
    · simp only [if_pos hkk]; exact List.mem_cons_of_mem _ hx
    · simp only [if_neg hkk]; exact hx

/-- A chain cut in three: the blocks before the middle run end before it, the
blocks after it start after it. -/
theorem Chain.split3 {m : Nat → Nat} {pre mid post : List Blk} {a e : Nat}
    (h : Chain m a (pre ++ mid ++ post) e) :
    ∃ c d, Chain m a pre c ∧ Chain m c mid d ∧ Chain m d post e ∧
      (∀ x ∈ pre, x.bp + x.sz ≤ c) ∧ (∀ x ∈ mid, c ≤ x.bp ∧ x.bp + x.sz ≤ d) ∧
      (∀ x ∈ post, d ≤ x.bp) := by
  obtain ⟨d, hc1, hpost⟩ := Chain.append.1 h
  obtain ⟨c, hpre, hmid⟩ := Chain.append.1 hc1
  exact ⟨c, d, hpre, hmid, hpost, fun x hx => (Chain.mem hpre x hx).2.1,
    fun x hx => ⟨(Chain.mem hmid x hx).1, (Chain.mem hmid x hx).2.1⟩,
    fun x hx => (Chain.mem hpost x hx).1⟩

/-- The common end of the three merging cases of `coalesce`: once the blocks of
the run `mid` are unlinked, the outer tags rewritten to the merged size and the
merged block linked, the heap is well formed again with the run replaced by the
merged free block, which sits in the bucket of the merged size. -/
theorem merge_spec {s s2 : State} (s4 : State) {pre mid post : List Blk} {M : Blk}
    {L L2 : Nat → List Nat}
    (h : Heap s (pre ++ mid ++ post) L)
    (h2 : Linked s2 (pre ++ mid ++ post) L2)
    (hL2 : ∀ k, k < 15 → ∀ x, x ∈ L2 k ↔ x ∈ L k ∧ ∀ b ∈ mid, x ≠ b.bp)
    (hpre : pre ≠ []) (hmid : mid ≠ [])
    (hbp : mid.head?.map (fun b => b.bp) = some M.bp)
    (hsz : M.sz = (mid.map (fun b => b.sz)).sum) (hal : M.al = false)
    (hbrk : s4.brk = s2.brk) (hhl : s4.heap_listp = s2.heap_listp)
    (hmem : ∀ w, s4.mem w =
      if w = M.bp - 8 ∨ w = M.bp + M.sz - 16 then tag M.sz M.al else s2.mem w) :
    Heap (insert_block s4 M.bp M.sz) (pre ++ M :: post)
        (fun k => if k = calc_size (M.sz % UINT_MOD) then M.bp :: L2 k else L2 k) := by
  have hnl : ∀ b ∈ mid, ∀ k, k < 15 → b.bp ∉ L2 k := by
    intro b hb k hk hx
    exact ((hL2 k hk _).1 hx).2 b hb rfl
  have h4 := h2.retag hpre hmid hbp hsz hbrk hhl hmem hnl
  obtain ⟨c, d, _, hmidc, _, hprec, hmidcd, hpostd⟩ := Chain.split3 h2.chain
  obtain ⟨_, _, hd, hcd, _⟩ := Chain.span hmidc hmid
  have hMbp : M.bp = c := by
    cases mid with
    | nil => exact absurd rfl hmid
    | cons b mid =>
      simp only [List.head?_cons, Option.map_some', Option.some.injEq] at hbp
      obtain ⟨g1, _⟩ := hmidc
      omega
  have hM : M ∈ pre ++ M :: post := by simp
  have hMnl : ∀ k, k < 15 → M.bp ∉ L2 k := by
    intro k hk hx
    obtain ⟨b, hb, e1, e2, _, e4, _⟩ := h2.node hk hx
    simp only [List.mem_append] at hb
    rcases hb with (hb | hb) | hb
    · have := hprec b hb; omega
    · exact hnl b hb k hk (e1 ▸ hx)
    · have := hpostd b hb; omega
  refine ⟨h4.insert hM hal hMnl M.sz, ?_⟩
  intro b hb hbal
  by_cases e : b = M
  · subst e
    exact ⟨calc_size (b.sz % UINT_MOD), calc_size_lt _, by simp⟩
  · have hb1 : b ∈ pre ∨ b ∈ post := by
      simp only [List.mem_append, List.mem_cons] at hb
      tauto
    have hb2 : b ∈ pre ++ mid ++ post := by
      simp only [List.mem_append]
      tauto
    obtain ⟨k, hk, hx⟩ := h.indexed b hb2 hbal
    have hx2 : b.bp ∈ L2 k := by
      refine (hL2 k hk _).2 ⟨hx, ?_⟩
      intro m hm
      have := hmidcd m hm
      have h5 := h2.block (show m ∈ pre ++ mid ++ post by simp [hm])
      have h6 := h2.block hb2
      rcases hb1 with hb1 | hb1
      · have := hprec b hb1; omega
      · have := hpostd b hb1; omega
    refine ⟨k, hk, ?_⟩
    by_cases hkk : k = calc_size (M.sz % UINT_MOD)
    · simp only [if_pos hkk]; exact List.mem_cons_of_mem _ hx2
    · simp only [if_neg hkk]; exact hx2

/-- Membership in a list from which two elements were erased. -/
theorem mem_erase_erase {l : List Nat} (hnd : l.Nodup) (a b x : Nat) :
    x ∈ (l.erase a).erase b ↔ x ∈ l ∧ x ≠ b ∧ x ≠ a := by
  rw [(hnd.erase a).mem_erase_iff, hnd.mem_erase_iff]
  tauto

/-- The branch of `coalesce` taken when only the successor is free. -/
theorem coalesce_eq_next (s : State) (bp : Nat) (s1 s2 : State) (size1 : Nat) (s3 s4 : State)
    (hp : GET_ALLOC s (FTRP s (PREV_BLKP s bp)) ≠ 0)
    (hn : GET_ALLOC s (HDRP (NEXT_BLKP s bp)) = 0)
    (e1 : s1 = remove_block s (NEXT_BLKP s bp)) (e2 : s2 = remove_block s1 bp)
    (e3 : size1 = (GET_SIZE s (HDRP bp) + GET_SIZE s2 (HDRP (NEXT_BLKP s2 bp))) % SIZE_MOD)
    (e4 : s3 = PUT s2 (HDRP bp) (PACK size1 0)) (e5 : s4 = PUT s3 (FTRP s3 bp) (PACK size1 0)) :
    coalesce s bp = (bp, insert_block s4 bp size1) := by
  subst e1 e2 e3 e4 e5
  simp only [coalesce]
  rw [if_neg (fun h => h.2 hn), if_pos ⟨hp, hn⟩]

theorem coalesce_next {s : State} {pre : List Blk} {p b n : Blk} {post : List Blk}
    {L : Nat → List Nat} (h : Heap s (pre ++ p :: b :: n :: post) L)
    (hp : p.al = true) (hb : b.al = false) (hn : n.al = false) :
    ∃ L1, Heap (coalesce s b.bp).2 (pre ++ p :: ⟨b.bp, b.sz + n.sz, false⟩ :: post) L1 ∧
      (coalesce s b.bp).1 = b.bp ∧ b.bp ∈ L1 (calc_size ((b.sz + n.sz) % UINT_MOD)) := by
  have hl := h.linked
  have hbm : b ∈ pre ++ p :: b :: n :: post := by simp
  have hnm : n ∈ pre ++ p :: b :: n :: post := by simp
  have hprev := hl.prev_alloc
  have hl' : Linked s ((pre ++ [p]) ++ b :: n :: post) L := by simpa using hl
  have hnext := hl'.next_alloc
  simp only [hp, hn, if_true] at hprev hnext
  have hadj : n.bp = b.bp + b.sz := Chain.adjacent hl'.chain
  have hbb := hl.block hbm
  have hnb := hl.block hnm
  have hhigh := hl.high
  -- the successor and the block are list nodes
  obtain ⟨kn, hkn, hnin⟩ := h.indexed n hnm hn
  obtain ⟨kb, hkb, hbin⟩ := h.indexed b hbm hb
  have h1 := hl.remove hkn hnin
  have hbin1 : b.bp ∈ (fun k => (L k).erase n.bp) kb := by
    show b.bp ∈ (L kb).erase n.bp
    rw [(hl.nodup kb hkb).mem_erase_iff]
    exact ⟨by omega, hbin⟩
  have h2 := h1.remove hkb hbin1
  -- the values read by the code
  have r1 : NEXT_BLKP s b.bp = n.bp := by
    have := hl.next_blkp hbm
    omega
  have r2 : NEXT_BLKP (remove_block (remove_block s n.bp) b.bp) b.bp = n.bp := by
    have := h2.next_blkp hbm
    omega
  have r3 : GET_SIZE s (HDRP b.bp) = b.sz := by
    have := hl.get_size_hdr hbm
    simpa only [HDRP, WSIZE] using this
  have r4 : GET_SIZE (remove_block (remove_block s n.bp) b.bp) (HDRP n.bp) = n.sz := by
    have := h2.get_size_hdr hnm
    simpa only [HDRP, WSIZE] using this
  have hsum : (b.sz + n.sz) % SIZE_MOD = b.sz + n.sz := Nat.mod_eq_of_lt (by omega)
  have r5 : FTRP (PUT (remove_block (remove_block s n.bp) b.bp) (HDRP b.bp) (PACK (b.sz + n.sz) 0))
      b.bp = b.bp + (b.sz + n.sz) - 16 := by
    simp only [FTRP, GET_SIZE, GET, PUT_mem, HDRP, DSIZE, WSIZE, if_true]
    have := pack_zero_size (b.sz + n.sz) (by omega) (by omega)
    simp only [WSIZE] at this
    rw [this]
  have hco := coalesce_eq_next s b.bp (remove_block s n.bp)
    (remove_block (remove_block s n.bp) b.bp) (b.sz + n.sz)
    (PUT (remove_block (remove_block s n.bp) b.bp) (HDRP b.bp) (PACK (b.sz + n.sz) 0))
    (PUT (PUT (remove_block (remove_block s n.bp) b.bp) (HDRP b.bp) (PACK (b.sz + n.sz) 0))
      (b.bp + (b.sz + n.sz) - 16) (PACK (b.sz + n.sz) 0))
    (by rw [hprev]; decide) hnext (by rw [r1]) rfl (by rw [r3, r2, r4, hsum]) rfl (by rw [r5])
  rw [hco]
  have a1 : Heap s ((pre ++ [p]) ++ [b, n] ++ post) L := by simpa using h
  have a2 : Linked (remove_block (remove_block s n.bp) b.bp) ((pre ++ [p]) ++ [b, n] ++ post)
      (fun k => ((L k).erase n.bp).erase b.bp) := by simpa using h2
  have a3 : ∀ k, k < 15 → ∀ x, x ∈ (fun k => ((L k).erase n.bp).erase b.bp) k ↔
      x ∈ L k ∧ ∀ c ∈ [b, n], x ≠ c.bp := by
    intro k hk x
    show x ∈ ((L k).erase n.bp).erase b.bp ↔ _
    rw [mem_erase_erase (hl.nodup k hk)]
    simp
  have hm := merge_spec (M := ⟨b.bp, b.sz + n.sz, false⟩)
    (PUT (PUT (remove_block (remove_block s n.bp) b.bp) (HDRP b.bp) (PACK (b.sz + n.sz) 0))
      (b.bp + (b.sz + n.sz) - 16) (PACK (b.sz + n.sz) 0)) a1 a2 a3
    (by simp) (by simp) (by simp) (by simp) rfl (by simp) (by simp)
    (by
      intro w
      simp only [PUT_mem, HDRP, WSIZE, tag_false]
      by_cases e1 : w = b.bp + (b.sz + n.sz) - 16
      · simp [e1]
      · by_cases e2 : w = b.bp - 8
        · simp [e2]
        · simp [e1, e2])
  refine ⟨_, by simpa using hm, rfl, ?_⟩
  simp

theorem GET_SIZE_PUT_ne (s : State) (a v w : Nat) (h : w ≠ a) :
    GET_SIZE (PUT s a v) w = GET_SIZE s w := by
  simp only [GET_SIZE, GET, PUT_mem, if_neg h]

/-- A free block is not the first block of the chain, so something precedes it. -/
theorem Linked.pre_ne_nil {s : State} {pre : List Blk} {p : Blk} {post : List Blk}
    {L : Nat → List Nat} (h : Linked s (pre ++ p :: post) L) (hp : p.al = false) : pre ≠ [] := by
  intro e
  subst e
  have := h.prologue
  simp only [List.nil_append, List.head?_cons, Option.some.injEq] at this
  subst this
  simp at hp

/-- The branch of `coalesce` taken when only the predecessor is free. -/
theorem coalesce_eq_prev (s : State) (bp : Nat) (s1 s2 : State) (size1 : Nat) (s3 s4 : State)
    (bp1 : Nat)
    (hp : GET_ALLOC s (FTRP s (PREV_BLKP s bp)) = 0)
    (hn : GET_ALLOC s (HDRP (NEXT_BLKP s bp)) ≠ 0)
    (e1 : s1 = remove_block s (PREV_BLKP s bp)) (e2 : s2 = remove_block s1 bp)
    (e3 : size1 = (GET_SIZE s (HDRP bp) + GET_SIZE s2 (HDRP (PREV_BLKP s2 bp))) % SIZE_MOD)
    (e4 : s3 = PUT s2 (FTRP s2 bp) (PACK size1 0))
    (e5 : s4 = PUT s3 (HDRP (PREV_BLKP s3 bp)) (PACK size1 0))
    (e6 : bp1 = PREV_BLKP s4 bp) :
    coalesce s bp = (bp1, insert_block s4 bp1 size1) := by
  subst e1 e2 e3 e4 e5 e6
  simp only [coalesce]
  rw [if_neg (fun h => h.1 hp), if_neg (fun h => h.1 hp), if_pos ⟨hp, hn⟩]

theorem coalesce_prev {s : State} {pre : List Blk} {p b : Blk} {post : List Blk}
    {L : Nat → List Nat} (h : Heap s (pre ++ p :: b :: post) L)
    (hp : p.al = false) (hb : b.al = false)
    (hnx : GET_ALLOC s (HDRP (NEXT_BLKP s b.bp)) ≠ 0) :
    ∃ L1, Heap (coalesce s b.bp).2 (pre ++ ⟨p.bp, p.sz + b.sz, false⟩ :: post) L1 ∧
      (coalesce s b.bp).1 = p.bp ∧ p.bp ∈ L1 (calc_size ((p.sz + b.sz) % UINT_MOD)) := by
  have hl := h.linked
  have hbm : b ∈ pre ++ p :: b :: post := by simp
  have hpm : p ∈ pre ++ p :: b :: post := by simp
  have hprev := hl.prev_alloc
  simp only [hp, if_false] at hprev
  have hadj : b.bp = p.bp + p.sz := Chain.adjacent hl.chain
  have hbb := hl.block hbm
  have hpb := hl.block hpm
  have hhigh := hl.high
  have hlow := hl.low
  obtain ⟨kp, hkp, hpin⟩ := h.indexed p hpm hp
  obtain ⟨kb, hkb, hbin⟩ := h.indexed b hbm hb
  have h1 := hl.remove hkp hpin
  have hbin1 : b.bp ∈ (fun k => (L k).erase p.bp) kb := by
    show b.bp ∈ (L kb).erase p.bp
    rw [(hl.nodup kb hkb).mem_erase_iff]
    exact ⟨by omega, hbin⟩
  have h2 := h1.remove hkb hbin1
  have r1 : PREV_BLKP s b.bp = p.bp := hl.prev_blkp
  have r2 : PREV_BLKP (remove_block (remove_block s p.bp) b.bp) b.bp = p.bp := h2.prev_blkp
  have r3 : GET_SIZE s (HDRP b.bp) = b.sz := by
    have := hl.get_size_hdr hbm
    simpa only [HDRP, WSIZE] using this
  have r4 : GET_SIZE (remove_block (remove_block s p.bp) b.bp) (HDRP p.bp) = p.sz := by
    have := h2.get_size_hdr hpm
    simpa only [HDRP, WSIZE] using this
  have hsum : (b.sz + p.sz) % SIZE_MOD = p.sz + b.sz := by
    rw [Nat.mod_eq_of_lt (by omega)]; omega
  have r5 : FTRP (remove_block (remove_block s p.bp) b.bp) b.bp = b.bp + b.sz - 16 := h2.ftrp hbm
  have r6 : PREV_BLKP (PUT (remove_block (remove_block s p.bp) b.bp) (b.bp + b.sz - 16)
      (PACK (p.sz + b.sz) 0)) b.bp = p.bp := by
    have := h2.get_size_ftr hpm
    simp only [PREV_BLKP, DSIZE, WSIZE]
    rw [GET_SIZE_PUT_ne _ _ _ _ (by omega), show b.bp - 2 * 8 = p.bp + p.sz - 16 by omega, this]
    omega
  have r7 : PREV_BLKP (PUT (PUT (remove_block (remove_block s p.bp) b.bp) (b.bp + b.sz - 16)
      (PACK (p.sz + b.sz) 0)) (HDRP p.bp) (PACK (p.sz + b.sz) 0)) b.bp = p.bp := by
    have := h2.get_size_ftr hpm
    simp only [PREV_BLKP, DSIZE, WSIZE, HDRP]
    rw [GET_SIZE_PUT_ne _ _ _ _ (by omega), GET_SIZE_PUT_ne _ _ _ _ (by omega),
      show b.bp - 2 * 8 = p.bp + p.sz - 16 by omega, this]
    omega
  have hco := coalesce_eq_prev s b.bp (remove_block s p.bp)
    (remove_block (remove_block s p.bp) b.bp) (p.sz + b.sz)
    (PUT (remove_block (remove_block s p.bp) b.bp) (b.bp + b.sz - 16) (PACK (p.sz + b.sz) 0))
    (PUT (PUT (remove_block (remove_block s p.bp) b.bp) (b.bp + b.sz - 16)
      (PACK (p.sz + b.sz) 0)) (HDRP p.bp) (PACK (p.sz + b.sz) 0))
    p.bp hprev hnx (by rw [r1]) rfl (by rw [r3, r2, r4, hsum]) (by rw [r5]) (by rw [r6])
    (by rw [r7])
  rw [hco]
  have hpre : pre ≠ [] := hl.pre_ne_nil hp
  have a1 : Heap s (pre ++ [p, b] ++ post) L := by simpa using h
  have a2 : Linked (remove_block (remove_block s p.bp) b.bp) (pre ++ [p, b] ++ post)
      (fun k => ((L k).erase p.bp).erase b.bp) := by simpa using h2
  have a3 : ∀ k, k < 15 → ∀ x, x ∈ (fun k => ((L k).erase p.bp).erase b.bp) k ↔
      x ∈ L k ∧ ∀ c ∈ [p, b], x ≠ c.bp := by
    intro k hk x
    show x ∈ ((L k).erase p.bp).erase b.bp ↔ _
    rw [mem_erase_erase (hl.nodup k hk)]
    simp
    tauto
  have hm := merge_spec (M := ⟨p.bp, p.sz + b.sz, false⟩)
    (PUT (PUT (remove_block (remove_block s p.bp) b.bp) (b.bp + b.sz - 16)
      (PACK (p.sz + b.sz) 0)) (HDRP p.bp) (PACK (p.sz + b.sz) 0)) a1 a2 a3
    hpre (by simp) (by simp) (by simp) rfl (by simp) (by simp)
    (by
      intro w
      simp only [PUT_mem, HDRP, WSIZE, tag_false]
      split_ifs <;> first | (exfalso; omega) | rfl)
  refine ⟨_, by simpa using hm, rfl, ?_⟩
  simp

/-- Membership in a list from which three elements were erased. -/
theorem mem_erase_erase_erase {l : List Nat} (hnd : l.Nodup) (a b c x : Nat) :
    x ∈ ((l.erase a).erase b).erase c ↔ x ∈ l ∧ x ≠ c ∧ x ≠ b ∧ x ≠ a := by
  rw [((hnd.erase a).erase b).mem_erase_iff, mem_erase_erase hnd]
  tauto

/-- The store after two writes of the same value. -/
theorem put_put_mem (s : State) (a b v w : Nat) :
    (PUT (PUT s a v) b v).mem w = if w = a ∨ w = b then v else s.mem w := by
  simp only [PUT_mem]
  by_cases h1 : w = b
  · simp [h1]
  · by_cases h2 : w = a
    · simp [h2]
    · simp [h1, h2]

/-- The branch of `coalesce` taken when both neighbours are allocated. -/
theorem coalesce_eq_none (s : State) (bp : Nat)
    (hp : GET_ALLOC s (FTRP s (PREV_BLKP s bp)) ≠ 0)
    (hn : GET_ALLOC s (HDRP (NEXT_BLKP s bp)) ≠ 0) :
    coalesce s bp = (bp, s) := by
  simp only [coalesce]
  rw [if_pos ⟨hp, hn⟩]

/-- The branch of `coalesce` taken when both neighbours are free. -/
theorem coalesce_eq_both (s : State) (bp : Nat) (s1 s2 s3 : State) (size1 : Nat) (s4 s5 : State)
    (bp1 : Nat)
    (hp : GET_ALLOC s (FTRP s (PREV_BLKP s bp)) = 0)
    (hn : GET_ALLOC s (HDRP (NEXT_BLKP s bp)) = 0)
    (e1 : s1 = remove_block s (NEXT_BLKP s bp)) (e2 : s2 = remove_block s1 (PREV_BLKP s1 bp))
    (e3 : s3 = remove_block s2 bp)
    (e4 : size1 = (GET_SIZE s (HDRP bp) + (GET_SIZE s3 (HDRP (PREV_BLKP s3 bp)) +
      GET_SIZE s3 (FTRP s3 (NEXT_BLKP s3 bp))) % SIZE_MOD) % SIZE_MOD)
    (e5 : s4 = PUT s3 (HDRP (PREV_BLKP s3 bp)) (PACK size1 0))
    (e6 : s5 = PUT s4 (FTRP s4 (NEXT_BLKP s4 bp)) (PACK size1 0))
    (e7 : bp1 = PREV_BLKP s5 bp) :
    coalesce s bp = (bp1, insert_block s5 bp1 size1) := by
  subst e1 e2 e3 e4 e5 e6 e7
  simp only [coalesce]
  rw [if_neg (fun h => h.1 hp), if_neg (fun h => h.1 hp), if_neg (fun h => h.2 hn)]

theorem coalesce_both {s : State} {pre : List Blk} {p b n : Blk} {post : List Blk}
    {L : Nat → List Nat} (h : Heap s (pre ++ p :: b :: n :: post) L)
    (hp : p.al = false) (hb : b.al = false) (hn : n.al = false) :
    ∃ L1, Heap (coalesce s b.bp).2 (pre ++ ⟨p.bp, p.sz + b.sz + n.sz, false⟩ :: post) L1 ∧
      (coalesce s b.bp).1 = p.bp ∧
      p.bp ∈ L1 (calc_size ((p.sz + b.sz + n.sz) % UINT_MOD)) := by
  have hl := h.linked
  have hbm : b ∈ pre ++ p :: b :: n :: post := by simp
  have hpm : p ∈ pre ++ p :: b :: n :: post := by simp
  have hnm : n ∈ pre ++ p :: b :: n :: post := by simp
  have hprev := hl.prev_alloc
  have hl' : Linked s ((pre ++ [p]) ++ b :: n :: post) L := by simpa using hl
  have hnext := hl'.next_alloc
  simp only [hp, hn, if_false] at hprev hnext
  have hadj : b.bp = p.bp + p.sz := Chain.adjacent hl.chain
  have hadj2 : n.bp = b.bp + b.sz := Chain.adjacent hl'.chain
  have hbb := hl.block hbm
  have hpb := hl.block hpm
  have hnb := hl.block hnm
  have hhigh := hl.high
  have hlow := hl.low
  obtain ⟨kp, hkp, hpin⟩ := h.indexed p hpm hp
  obtain ⟨kb, hkb, hbin⟩ := h.indexed b hbm hb
  obtain ⟨kn, hkn, hnin⟩ := h.indexed n hnm hn
  have h1 := hl.remove hkn hnin
  have hpin1 : p.bp ∈ (fun k => (L k).erase n.bp) kp := by
    show p.bp ∈ (L kp).erase n.bp
    rw [(hl.nodup kp hkp).mem_erase_iff]
    exact ⟨by omega, hpin⟩
  have h2 := h1.remove hkp hpin1
  have hbin2 : b.bp ∈ (fun k => ((L k).erase n.bp).erase p.bp) kb := by
    show b.bp ∈ ((L kb).erase n.bp).erase p.bp
    rw [mem_erase_erase (hl.nodup kb hkb)]
    exact ⟨hbin, by omega, by omega⟩
  have h3 := h2.remove hkb hbin2
  have r1 : NEXT_BLKP s b.bp = n.bp := by
    have := hl.next_blkp hbm
    omega
  have r2 : PREV_BLKP (remove_block s n.bp) b.bp = p.bp := h1.prev_blkp
  have r3 : GET_SIZE s (HDRP b.bp) = b.sz := by
    have := hl.get_size_hdr hbm
    simpa only [HDRP, WSIZE] using this
  have r4 : PREV_BLKP (remove_block (remove_block (remove_block s n.bp) p.bp) b.bp) b.bp = p.bp :=
    h3.prev_blkp
  have r5 : GET_SIZE (remove_block (remove_block (remove_block s n.bp) p.bp) b.bp) (HDRP p.bp) =
      p.sz := by
    have := h3.get_size_hdr hpm
    simpa only [HDRP, WSIZE] using this
  have r6 : NEXT_BLKP (remove_block (remove_block (remove_block s n.bp) p.bp) b.bp) b.bp = n.bp := by
    have := h3.next_blkp hbm
    omega
  have r7 : FTRP (remove_block (remove_block (remove_block s n.bp) p.bp) b.bp) n.bp =
      n.bp + n.sz - 16 := h3.ftrp (b := n) hnm
  have r8 : GET_SIZE (remove_block (remove_block (remove_block s n.bp) p.bp) b.bp)
      (n.bp + n.sz - 16) = n.sz := h3.get_size_ftr (b := n) hnm
  have hsum : (b.sz + (p.sz + n.sz) % SIZE_MOD) % SIZE_MOD = p.sz + b.sz + n.sz := by
    rw [Nat.mod_eq_of_lt (show p.sz + n.sz < SIZE_MOD by omega), Nat.mod_eq_of_lt (by omega)]
    omega
  have g1 := h3.get_size_hdr hbm
  have g2 := h3.get_size_hdr hnm
  have g3 := h3.get_size_ftr hpm
  have r9 : NEXT_BLKP (PUT (remove_block (remove_block (remove_block s n.bp) p.bp) b.bp)
      (HDRP p.bp) (PACK (p.sz + b.sz + n.sz) 0)) b.bp = n.bp := by
    simp only [NEXT_BLKP, WSIZE, HDRP]
    rw [GET_SIZE_PUT_ne _ _ _ _ (by omega), g1]
    omega
  have r10 : FTRP (PUT (remove_block (remove_block (remove_block s n.bp) p.bp) b.bp)
      (HDRP p.bp) (PACK (p.sz + b.sz + n.sz) 0)) n.bp = n.bp + n.sz - 16 := by
    simp only [FTRP, DSIZE, WSIZE, HDRP]
    rw [GET_SIZE_PUT_ne _ _ _ _ (by omega), g2]
  have r11 : PREV_BLKP (PUT (PUT (remove_block (remove_block (remove_block s n.bp) p.bp) b.bp)
      (HDRP p.bp) (PACK (p.sz + b.sz + n.sz) 0)) (n.bp + n.sz - 16)
      (PACK (p.sz + b.sz + n.sz) 0)) b.bp = p.bp := by
    simp only [PREV_BLKP, DSIZE, WSIZE, HDRP]
    rw [GET_SIZE_PUT_ne _ _ _ _ (by omega), GET_SIZE_PUT_ne _ _ _ _ (by omega),
      show b.bp - 2 * 8 = p.bp + p.sz - 16 by omega, g3]
    omega
  have hco := coalesce_eq_both s b.bp (remove_block s n.bp)
    (remove_block (remove_block s n.bp) p.bp)
    (remove_block (remove_block (remove_block s n.bp) p.bp) b.bp) (p.sz + b.sz + n.sz)
    (PUT (remove_block (remove_block (remove_block s n.bp) p.bp) b.bp)
      (HDRP p.bp) (PACK (p.sz + b.sz + n.sz) 0))
    (PUT (PUT (remove_block (remove_block (remove_block s n.bp) p.bp) b.bp)
      (HDRP p.bp) (PACK (p.sz + b.sz + n.sz) 0)) (n.bp + n.sz - 16)
      (PACK (p.sz + b.sz + n.sz) 0))
    p.bp hprev hnext (by rw [r1]) (by rw [r2]) rfl (by rw [r3, r4, r5, r6, r7, r8, hsum])
    (by rw [r4]) (by rw [r9, r10]) (by rw [r11])
  rw [hco]
  have hpre : pre ≠ [] := hl.pre_ne_nil hp
  have a1 : Heap s (pre ++ [p, b, n] ++ post) L := by simpa using h
  have a2 : Linked (remove_block (remove_block (remove_block s n.bp) p.bp) b.bp)
      (pre ++ [p, b, n] ++ post) (fun k => (((L k).erase n.bp).erase p.bp).erase b.bp) := by
    simpa using h3
  have a3 : ∀ k, k < 15 → ∀ x, x ∈ (fun k => (((L k).erase n.bp).erase p.bp).erase b.bp) k ↔
      x ∈ L k ∧ ∀ c ∈ [p, b, n], x ≠ c.bp := by
    intro k hk x
    show x ∈ (((L k).erase n.bp).erase p.bp).erase b.bp ↔ _
    rw [mem_erase_erase_erase (hl.nodup k hk)]
    simp only [List.mem_cons, List.mem_singleton, forall_eq_or_imp, forall_eq, List.not_mem_nil,
      false_implies, implies_true, and_true]
    tauto
  have a4 : ∀ w, (PUT (PUT (remove_block (remove_block (remove_block s n.bp) p.bp) b.bp)
      (HDRP p.bp) (PACK (p.sz + b.sz + n.sz) 0)) (n.bp + n.sz - 16)
      (PACK (p.sz + b.sz + n.sz) 0)).mem w =
      if w = p.bp - 8 ∨ w = p.bp + (p.sz + b.sz + n.sz) - 16 then tag (p.sz + b.sz + n.sz) false
      else (remove_block (remove_block (remove_block s n.bp) p.bp) b.bp).mem w := by
    intro w
    have e : n.bp + n.sz - 16 = p.bp + (p.sz + b.sz + n.sz) - 16 := by omega
    rw [e, put_put_mem]
    rfl
  have a5 : (p.sz + b.sz + n.sz) = ([p, b, n].map (fun c => c.sz)).sum := by
    simp only [List.map_cons, List.map_nil, List.sum_cons, List.sum_nil]
    omega
  have hm := merge_spec (M := ⟨p.bp, p.sz + b.sz + n.sz, false⟩)
    (PUT (PUT (remove_block (remove_block (remove_block s n.bp) p.bp) b.bp)
      (HDRP p.bp) (PACK (p.sz + b.sz + n.sz) 0)) (n.bp + n.sz - 16)
      (PACK (p.sz + b.sz + n.sz) 0)) a1 a2 a3 hpre
    (List.cons_ne_nil _ _) rfl a5 rfl rfl rfl a4
  exact ⟨_, hm, rfl, by simp⟩

/-- `mm_free` on an allocated block of a well-formed heap: the heap is well formed
again, its chain is the old one with the block and its free neighbours replaced
by one free block, and that block is a node of the bucket of its size. -/
theorem mm_free_heap {s : State} {pre : List Blk} {p : Blk} {bp sz : Nat} {post : List Blk}
    {L : Nat → List Nat} (h : Heap s (pre ++ p :: ⟨bp, sz, true⟩ :: post) L) :
    ∃ L1, Heap (mm_free s bp) (free_chain pre p ⟨bp, sz, true⟩ post) L1 ∧
      free_start p ⟨bp, sz, true⟩ ∈
        L1 (calc_size (free_size p ⟨bp, sz, true⟩ post % UINT_MOD)) := by
  have hb0 : (⟨bp, sz, true⟩ : Blk) ∈ pre ++ p :: ⟨bp, sz, true⟩ :: post := by simp
  have hbb := h.linked.block hb0
  have hlow := h.linked.low
  have hbp : bp ≠ 0 := by simp only at hbb; omega
  have h3 := free_mark h
  have hfree : mm_free s bp = (coalesce (insert_block (PUT (PUT s (HDRP bp)
      (PACK (GET_SIZE s (HDRP bp)) 0)) (FTRP (PUT s (HDRP bp) (PACK (GET_SIZE s (HDRP bp)) 0)) bp)
      (PACK (GET_SIZE s (HDRP bp)) 0)) bp (GET_SIZE s (HDRP bp))) bp).2 := by
    simp only [mm_free, if_neg hbp]
  rw [hfree]
  generalize insert_block (PUT (PUT s (HDRP bp)
      (PACK (GET_SIZE s (HDRP bp)) 0)) (FTRP (PUT s (HDRP bp) (PACK (GET_SIZE s (HDRP bp)) 0)) bp)
      (PACK (GET_SIZE s (HDRP bp)) 0)) bp (GET_SIZE s (HDRP bp)) = t at h3
  have hin : bp ∈ (fun k => if k = calc_size (sz % UINT_MOD) then bp :: L k else L k)
      (calc_size (sz % UINT_MOD)) := by simp
  generalize (fun k => if k = calc_size (sz % UINT_MOD) then bp :: L k else L k) = L0 at h3 hin
  have hl3 := h3.linked
  have hl3' : Linked t ((pre ++ [p]) ++ ⟨bp, sz, false⟩ :: post) L0 := by simpa using hl3
  have hnext := hl3'.next_alloc
  have hprev := hl3.prev_alloc
  simp only at hnext hprev
  cases hp : p.al with
  | true =>
    simp only [hp, if_true] at hprev
    cases post with
    | nil =>
      simp only at hnext
      have hco := coalesce_eq_none t bp (by rw [hprev]; decide) (by rw [hnext]; decide)
      refine ⟨L0, ?_, ?_⟩
      · rw [hco]
        simpa [free_chain, free_start, free_size, next_free_size, after_next, hp] using h3
      · simpa [free_start, free_size, next_free_size, hp] using hin
    | cons n post =>
      cases hn : n.al with
      | true =>
        simp only [hn, if_true] at hnext
        have hco := coalesce_eq_none t bp (by rw [hprev]; decide) (by rw [hnext]; decide)
        refine ⟨L0, ?_, ?_⟩
        · rw [hco]
          simpa [free_chain, free_start, free_size, next_free_size, after_next, hp, hn] using h3
        · simpa [free_start, free_size, next_free_size, hp, hn] using hin
      | false =>
        obtain ⟨L1, g1, _, g3⟩ := coalesce_next (b := ⟨bp, sz, false⟩) h3 hp rfl hn
        refine ⟨L1, ?_, ?_⟩
        · simpa [free_chain, free_start, free_size, next_free_size, after_next, hp, hn] using g1
        · simpa [free_start, free_size, next_free_size, hp, hn] using g3
  | false =>
    cases post with
    | nil =>
      simp only at hnext
      obtain ⟨L1, g1, _, g3⟩ := coalesce_prev (b := ⟨bp, sz, false⟩) h3 hp rfl
        (by rw [hnext]; decide)
      refine ⟨L1, ?_, ?_⟩
      · simpa [free_chain, free_start, free_size, next_free_size, after_next, hp] using g1
      · simpa [free_start, free_size, next_free_size, hp] using g3
    | cons n post =>
      cases hn : n.al with
      | true =>
        simp only [hn, if_true] at hnext
        obtain ⟨L1, g1, _, g3⟩ := coalesce_prev (b := ⟨bp, sz, false⟩) h3 hp rfl
          (by rw [hnext]; decide)
        refine ⟨L1, ?_, ?_⟩
        · simpa [free_chain, free_start, free_size, next_free_size, after_next, hp, hn] using g1
        · simpa [free_start, free_size, next_free_size, hp, hn] using g3
      | false =>
        obtain ⟨L1, g1, _, g3⟩ := coalesce_both (b := ⟨bp, sz, false⟩) h3 hp rfl hn
        refine ⟨L1, ?_, ?_⟩
        · simpa [free_chain, free_start, free_size, next_free_size, after_next, hp, hn] using g1
        · simpa [free_start, free_size, next_free_size, hp, hn] using g3

/-- Walking a well-formed list with enough fuel returns its nodes. -/
theorem DLL.list_from {s : State} {xs : List Nat} : ∀ {a fuel : Nat},
    DLL s.mem a xs → xs.length < fuel → list_from s fuel (s.mem a) = some xs := by
  induction xs with
  | nil =>
    intro a fuel h hf
    simp only [DLL] at h
    cases fuel with
    | zero => simp at hf
    | succ f => simp [MM.list_from, h]
  | cons x xs ih =>
    intro a fuel h hf
    obtain ⟨h1, h2, _, h4⟩ := h
    cases fuel with
    | zero => simp at hf
    | succ f =>
      have := ih h4 (by simpa using hf)
      simp [MM.list_from, h1, h2, GET_NEXT, GET, this]

/-- A list without repetition of numbers below `n` has at most `n` elements. -/
theorem length_le_of_nodup_lt {l : List Nat} {n : Nat} (hnd : l.Nodup) (hlt : ∀ x ∈ l, x < n) :
    l.length ≤ n := by
  have hsub : l ⊆ List.range n := fun x hx => List.mem_range.2 (hlt x hx)
  have := (List.subperm_of_subset hnd hsub).length_le
  simpa using this

/-- In a linked heap the walk of bucket `k` returns the list `L k`. -/
theorem Linked.bucket {s : State} {bs : List Blk} {L : Nat → List Nat} (h : Linked s bs L)
    {k : Nat} (hk : k < 15) : bucket s k = some (L k) := by
  have hlen : (L k).length ≤ s.brk := by
    apply length_le_of_nodup_lt (h.nodup k hk)
    intro x hx
    obtain ⟨b, _, _, _, _, e4, e5⟩ := h.node hk hx
    omega
  have : list_from s (s.brk + 1) (s.mem (s.heap_listp + k * 8)) = some (L k) :=
    DLL.list_from (h.links k hk) (by omega)
  simpa only [MM.bucket, GET, WSIZE] using this

/-- The merged addresses lie inside the free block produced by `mm_free`. -/
theorem merged_addrs_range {s : State} {pre : List Blk} {p b : Blk} {post : List Blk}
    {L : Nat → List Nat} (h : Linked s (pre ++ p :: b :: post) L) :
    ∀ x ∈ merged_addrs p b post,
      free_start p b ≤ x ∧ x < free_start p b + free_size p b post := by
  have hpm : p ∈ pre ++ p :: b :: post := by simp
  have hbm : b ∈ pre ++ p :: b :: post := by simp
  have hpb := h.block hpm
  have hbb := h.block hbm
  have hadj : b.bp = p.bp + p.sz := Chain.adjacent h.chain
  intro x hx
  cases post with
  | nil =>
    cases hp : p.al <;>
      simp only [merged_addrs, hp, if_true, if_false, List.nil_append, List.cons_append,
        List.mem_cons, List.mem_singleton, List.not_mem_nil, or_false, Bool.false_eq_true] at hx <;>
      simp only [free_start, free_size, next_free_size, hp, if_true, if_false,
        Bool.false_eq_true] <;> omega
  | cons n post =>
    have hnm : n ∈ pre ++ p :: b :: n :: post := by simp
    have hnb := h.block hnm
    have h' : Linked s ((pre ++ [p]) ++ b :: n :: post) L := by simpa using h
    have hadj2 : n.bp = b.bp + b.sz := Chain.adjacent h'.chain
    cases hp : p.al <;> cases hn : n.al <;>
      simp only [merged_addrs, hp, hn, if_true, if_false, List.nil_append, List.cons_append,
        List.mem_cons, List.mem_singleton, List.not_mem_nil, or_false, Bool.false_eq_true] at hx <;>
      simp only [free_start, free_size, next_free_size, hp, hn, if_true, if_false,
        Bool.false_eq_true] <;> omega

/-- A list node of the heap after `mm_free` is not strictly inside the new free
block. -/
theorem free_chain_node {s1 : State} {pre : List Blk} {p b : Blk} {post : List Blk}
    {L1 : Nat → List Nat} (h : Linked s1 (free_chain pre p b post) L1) {k x : Nat} (hk : k < 15)
    (hx : x ∈ L1 k) (h1 : free_start p b < x) (h2 : x < free_start p b + free_size p b post) :
    False := by
  obtain ⟨c, hc, e1, _⟩ := h.listed k hk x hx
  have hch := h.chain
  unfold free_chain at hch hc
  rw [show (if p.al = true then pre ++ [p] else pre) ++
      ⟨free_start p b, free_size p b post, false⟩ :: after_next post =
      (if p.al = true then pre ++ [p] else pre) ++
      [⟨free_start p b, free_size p b post, false⟩] ++ after_next post by simp] at hch hc
  obtain ⟨c0, d0, _, hmid, _, hpre, _, hpost⟩ := Chain.split3 hch
  obtain ⟨g1, _, _, _, _, g6⟩ := hmid
  simp only [Chain] at g6 g1
  simp only [List.mem_append, List.mem_singleton] at hc
  rcases hc with (hc | hc) | hc
  · have := hpre c hc
    omega
  · subst hc
    simp only at e1
    omega
  · have := hpost c hc
    omega

/-- The observable outcome of `mm_free` on an allocated block of a well-formed
heap. -/
theorem mm_free_observed {s : State} {pre : List Blk} {p : Blk} {bp sz : Nat} {post : List Blk}
    {L : Nat → List Nat} (h : Heap s (pre ++ p :: ⟨bp, sz, true⟩ :: post) L) :
    GET (mm_free s bp) (HDRP (free_start p ⟨bp, sz, true⟩)) =
        PACK (free_size p ⟨bp, sz, true⟩ post) 0 ∧
      GET (mm_free s bp) (FTRP (mm_free s bp) (free_start p ⟨bp, sz, true⟩)) =
        PACK (free_size p ⟨bp, sz, true⟩ post) 0 ∧
      (∀ k, k < 15 → ∃ xs, bucket (mm_free s bp) k = some xs ∧
        xs.count (free_start p ⟨bp, sz, true⟩) =
          (if k = calc_size (free_size p ⟨bp, sz, true⟩ post % UINT_MOD) then 1 else 0) ∧
        ∀ x ∈ merged_addrs p ⟨bp, sz, true⟩ post, x ≠ free_start p ⟨bp, sz, true⟩ → x ∉ xs) := by
  obtain ⟨L1, hH, hin⟩ := mm_free_heap h
  have hl1 := hH.linked
  have hM : (⟨free_start p ⟨bp, sz, true⟩, free_size p ⟨bp, sz, true⟩ post, false⟩ : Blk) ∈
      free_chain pre p ⟨bp, sz, true⟩ post := by simp [free_chain]
  have hMb := hl1.block hM
  have hf := hl1.ftrp hM
  simp only at hMb hf
  refine ⟨?_, ?_, ?_⟩
  · simp only [GET, HDRP, WSIZE]
    rw [hMb.2.2.2.2.1, tag_false]
  · rw [hf]
    simp only [GET]
    rw [hMb.2.2.2.2.2, tag_false]
  · intro k hk
    refine ⟨L1 k, hl1.bucket hk, ?_, ?_⟩
    · rw [List.count_eq_of_nodup (hl1.nodup k hk)]
      by_cases hkk : k = calc_size (free_size p ⟨bp, sz, true⟩ post % UINT_MOD)
      · rw [if_pos hkk, if_pos (hkk ▸ hin)]
      · rw [if_neg hkk, if_neg]
        intro hm
        exact hl1.disjoint k hk _ (calc_size_lt _) hkk _ hm hin
    · intro x hx hne hxk
      have := merged_addrs_range h.linked x hx
      exact free_chain_node hl1 hk hxk (by omega) this.2

/-- Bucket lists are pairwise disjoint when every common node forces equal
bucket numbers. -/
theorem disjoint_of (L : Nat → List Nat)
    (h : ∀ j < 15, ∀ k < 15, ∀ x ∈ L j, x ∉ L k ∨ j = k) :
    ∀ j, j < 15 → ∀ k, k < 15 → j ≠ k → ∀ x ∈ L j, x ∉ L k := by
  intro j hj k hk hjk x hx hx2
  rcases h j hj k hk x hx with e | e
  · exact e hx2
  · exact hjk e

/-- The heap after `mm_init` and three `mm_malloc(1)` is well formed. -/
theorem heap3_well_formed : Heap heap3 chain3 index3 :=
  ⟨⟨by decide, by decide, by decide, by decide, by decide, by decide, by decide,
    disjoint_of _ (by decide), by decide⟩, by decide⟩

/-- C7: `mm_free(bp)` on an allocated block of a well-formed heap, whose chain is
`pre ++ p :: (bp, sz) :: post`.  The free block containing `bp` starts at the
predecessor `p` if `p` was free and at `bp` otherwise; its size is `sz` plus the
sizes of the free neighbours; header and footer both hold `PACK(size, 0)`; it
occurs exactly once in the index, in the bucket that `calc_size` gives for the
size as an `unsigned int`, that is, modulo `2 ^ 32`; the other merged addresses
occur in no bucket list; the heap is well formed again.  In
particular, for adjacent allocated blocks `a`, `b`, `c` whose predecessor `p` is
allocated, `mm_free(b); mm_free(a)` leaves the chain with `a` and `b` replaced
by one free block at `a` of size `a.sz + b.sz`. -/
theorem free_coalesces_neighbours :
    (∀ (s : State) (pre : List Blk) (p : Blk) (bp sz : Nat) (post : List Blk)
        (L : Nat → List Nat), Heap s (pre ++ p :: ⟨bp, sz, true⟩ :: post) L →
      free_start p ⟨bp, sz, true⟩ = (if p.al then bp else p.bp) ∧
      free_size p ⟨bp, sz, true⟩ post =
        (if p.al then 0 else p.sz) + sz + next_free_size post ∧
      GET (mm_free s bp) (HDRP (free_start p ⟨bp, sz, true⟩)) =
        PACK (free_size p ⟨bp, sz, true⟩ post) 0 ∧
      GET (mm_free s bp) (FTRP (mm_free s bp) (free_start p ⟨bp, sz, true⟩)) =
        PACK (free_size p ⟨bp, sz, true⟩ post) 0 ∧
      (∀ k, k < 15 → ∃ xs, bucket (mm_free s bp) k = some xs ∧
        xs.count (free_start p ⟨bp, sz, true⟩) =
          (if k = calc_size (free_size p ⟨bp, sz, true⟩ post % UINT_MOD) then 1 else 0) ∧
        ∀ x ∈ merged_addrs p ⟨bp, sz, true⟩ post,
          x ≠ free_start p ⟨bp, sz, true⟩ → x ∉ xs) ∧
      ∃ L1, Heap (mm_free s bp) (free_chain pre p ⟨bp, sz, true⟩ post) L1) ∧
    (∀ (s : State) (pre : List Blk) (p a b c : Blk) (post : List Blk) (L : Nat → List Nat),
      Heap s (pre ++ p :: a :: b :: c :: post) L →
      p.al = true → a.al = true → b.al = true → c.al = true →
      ∃ L2, Heap (mm_free (mm_free s b.bp) a.bp)
        (pre ++ p :: ⟨a.bp, a.sz + b.sz, false⟩ :: c :: post) L2) := by
  constructor
  · intro s pre p bp sz post L h
    obtain ⟨L1, hH, _⟩ := mm_free_heap h
    obtain ⟨o1, o2, o3⟩ := mm_free_observed h
    exact ⟨rfl, rfl, o1, o2, o3, L1, hH⟩
  · intro s pre p a b c post L h hp ha hb hc
    obtain ⟨abp, asz, aal⟩ := a
    obtain ⟨bbp, bsz, bal⟩ := b
    simp only at ha hb
    subst ha hb
    have h1 : Heap s ((pre ++ [p]) ++ ⟨abp, asz, true⟩ :: ⟨bbp, bsz, true⟩ :: c :: post) L := by
      simpa using h
    obtain ⟨L1, hH1, _⟩ := mm_free_heap h1
    have hH1a : Heap (mm_free s bbp)
        (pre ++ p :: ⟨abp, asz, true⟩ :: ⟨bbp, bsz, false⟩ :: c :: post) L1 := by
      simpa [free_chain, free_start, free_size, next_free_size, after_next, hc] using hH1
    obtain ⟨L2, hH2, _⟩ := mm_free_heap hH1a
    refine ⟨L2, ?_⟩
    simpa [free_chain, free_start, free_size, next_free_size, after_next, hp] using hH2

/-- C7, at a concrete heap: in `heap3` the blocks `4248`, `4280`, `4312` are
adjacent and allocated behind the allocated prologue; freeing the middle one
leaves a free block of size 32 at `4280`, and freeing `4280` then `4248` leaves
one free block of size 64 at `4248`. -/
theorem free_coalesces_neighbours_witness :
    Heap heap3 ([⟨4112, 136, true⟩] ++ ⟨4248, 32, true⟩ :: ⟨4280, 32, true⟩ ::
      [⟨4312, 32, true⟩, ⟨4344, 48, false⟩]) index3 ∧
    GET (mm_free heap3 4280) (HDRP 4280) = PACK 32 0 ∧
    ∃ L2, Heap (mm_free (mm_free heap3 4280) 4248)
      ([] ++ ⟨4112, 136, true⟩ :: ⟨4248, 32 + 32, false⟩ :: ⟨4312, 32, true⟩ ::
        [⟨4344, 48, false⟩]) L2 :=
  ⟨heap3_well_formed,
    (free_coalesces_neighbours.1 heap3 [⟨4112, 136, true⟩] ⟨4248, 32, true⟩ 4280 32
      [⟨4312, 32, true⟩, ⟨4344, 48, false⟩] index3 heap3_well_formed).2.2.1,
    free_coalesces_neighbours.2 heap3 [] ⟨4112, 136, true⟩ ⟨4248, 32, true⟩ ⟨4280, 32, true⟩
      ⟨4312, 32, true⟩ [⟨4344, 48, false⟩] index3 heap3_well_formed rfl rfl rfl rfl⟩

/-- C7, as first stated, fails in two ways.  The clause on three adjacent blocks
fails when the predecessor of the first block is free: in `heap4` the blocks
`a = 4280`, `b = 4312`, `c = 4344` are adjacent and allocated (sizes 32, 32, 48)
and the block `4248` before them is free; after `mm_free(b); mm_free(a)` the
chain holds no block at `a`: the free block starts at `4248` and has size 96,
not 64.  And the bucket is not `calc_size(size)` for a block of `2 ^ 32` bytes:
`heap_big_alloc` is well formed, and after `mm_free(4392)` the free block `4392`
of size `2 ^ 32` is the only node of bucket 0, while `calc_size(2 ^ 32) = 14`
and bucket 14 is empty. -/
theorem free_predecessor_free_or_huge_block :
    (Heap heap4 ([⟨4112, 136, true⟩] ++ ⟨4248, 32, false⟩ :: ⟨4280, 32, true⟩ ::
      ⟨4312, 32, true⟩ :: ⟨4344, 48, true⟩ :: []) (fun k => if k = 4 then [4248] else []) ∧
    (¬ ∃ L2, Heap (mm_free (mm_free heap4 4312) 4280)
      ([⟨4112, 136, true⟩] ++ ⟨4248, 32, false⟩ :: ⟨4280, 32 + 32, false⟩ ::
        ⟨4344, 48, true⟩ :: []) L2) ∧
    chain heap4 = some [4112, 4248, 4280, 4312, 4344] ∧
    [4248, 4280, 4312, 4344].map (fun bp => (GET_SIZE heap4 (HDRP bp), GET_ALLOC heap4 (HDRP bp))) =
      [(32, 0), (32, 1), (32, 1), (48, 1)] ∧
    chain (mm_free (mm_free heap4 4312) 4280) = some [4112, 4248, 4344] ∧
    GET (mm_free (mm_free heap4 4312) 4280) (HDRP 4248) = PACK 96 0 ∧
    GET (mm_free (mm_free heap4 4312) 4280) (HDRP 4280) ≠ PACK 64 0) ∧
    (Heap heap_big_alloc ([⟨4112, 136, true⟩] ++ ⟨4248, 144, true⟩ ::
      ⟨4392, 4294967296, true⟩ :: []) (fun _ => []) ∧
    GET (mm_free heap_big_alloc 4392) (HDRP 4392) = PACK 4294967296 0 ∧
    calc_size 4294967296 = 14 ∧
    bucket (mm_free heap_big_alloc 4392) 14 = some [] ∧
    bucket (mm_free heap_big_alloc 4392) 0 = some [4392]) := by
  refine ⟨⟨⟨⟨by decide, by decide, by decide, by decide, by decide, by decide, by decide,
    disjoint_of _ (by decide), by decide⟩, by decide⟩, ?_, by decide, by decide, by decide,
    by decide, by decide⟩,
    ⟨⟨by decide, by decide, by decide, by decide, by decide, by decide, by decide,
      disjoint_of _ (by decide), by decide⟩, by decide⟩, by decide, by decide, by decide,
    by decide⟩
  rintro ⟨L2, h⟩
  have hb := h.linked.block (b := ⟨4280, 32 + 32, false⟩) (by simp)
  exact absurd hb.2.2.2.2.1 (by decide)

theorem list_from_find (s : State) (asize : Nat) : ∀ {fuel p : Nat} {xs : List Nat},
    list_from s fuel p = some xs →
    (∀ x ∈ xs, x ≠ 0) ∧ find_in_list s asize fuel p =
      some ((xs.find? fun bp => decide (asize ≤ GET_SIZE s (HDRP bp))).getD 0) := by
  intro fuel
  induction fuel with
  | zero => intro p xs h; simp [list_from] at h
  | succ f ih =>
    intro p xs h
    by_cases hp : p = 0
    · subst hp
      simp only [list_from, if_true, Option.some.injEq] at h
      subst h
      simp [find_in_list]
    · simp only [list_from, if_neg hp, Option.map_eq_some'] at h
      obtain ⟨ys, hys, rfl⟩ := h
      obtain ⟨g1, g2⟩ := ih hys
      constructor
      · intro x hx
        rcases List.mem_cons.1 hx with e | e
        · rw [e]; exact hp
        · exact g1 x e
      · by_cases hfit : asize ≤ GET_SIZE s (HDRP p)
        · simp [find_in_list, hp, hfit]
        · simp [find_in_list, hp, hfit, g2]

theorem find_fit_from_scan (s : State) (asize : Nat) : ∀ (count range : Nat),
    (∀ k, range ≤ k → k < range + count → (bucket s k).isSome) →
    find_fit_from s asize count range =
      some (((scan_from s count range).find? fun bp =>
        decide (asize ≤ GET_SIZE s (HDRP bp))).getD 0) ∧
    ∀ x ∈ scan_from s count range, x ≠ 0 := by
  intro count
  induction count with
  | zero => intro range _; simp [find_fit_from, scan_from]
  | succ c ih =>
    intro range h
    have hb := h range (le_refl _) (by omega)
    obtain ⟨xs, hxs⟩ := Option.isSome_iff_exists.1 hb
    have hxs1 : list_from s (s.brk + 1) (GET s (s.heap_listp + range * WSIZE)) = some xs := hxs
    obtain ⟨g1, g2⟩ := list_from_find s asize hxs1
    obtain ⟨i1, i2⟩ := ih (range + 1) (fun k hk1 hk2 => h k (by omega) (by omega))
    constructor
    · simp only [find_fit_from, GET_NEXT, g2, scan_from, hxs, Option.getD_some, List.find?_append]
      cases hf : xs.find? fun bp => decide (asize ≤ GET_SIZE s (HDRP bp)) with
      | none => simpa using i1
      | some v =>
        have hv : v ≠ 0 := g1 v (List.mem_of_find?_eq_some hf)
        obtain ⟨w, rfl⟩ : ∃ w, v = w + 1 := ⟨v - 1, by omega⟩
        simp
    · intro x hx
      simp only [scan_from, hxs, Option.getD_some, List.mem_append] at hx
      rcases hx with e | e
      · exact g1 x e
      · exact i2 x e

theorem mem_scan_from {s : State} : ∀ {count range k : Nat} {x : Nat},
    range ≤ k → k < range + count → x ∈ (bucket s k).getD [] → x ∈ scan_from s count range := by
  intro count
  induction count with
  | zero => intro range k x h1 h2; omega
  | succ c ih =>
    intro range k x h1 h2 hx
    simp only [scan_from, List.mem_append]
    by_cases e : k = range
    · subst e; exact Or.inl hx
    · exact Or.inr (ih (by omega) (by omega) hx)

/-- One level of the breakpoint chain keeps the function monotone and bounded
below. -/
theorem step_mono (T v : Nat) (f : Nat → Nat)
    (h : (∀ a b, a ≤ b → f a ≤ f b) ∧ ∀ y, v + 1 ≤ f y) :
    (∀ a b, a ≤ b → (if a ≤ T then v else f a) ≤ (if b ≤ T then v else f b)) ∧
      ∀ y, v ≤ (if y ≤ T then v else f y) := by
  constructor
  · intro a b hab
    by_cases ha : a ≤ T <;> by_cases hb : b ≤ T
    · simp [ha, hb]
    · simp only [ha, hb, if_true, if_false]
      have := h.2 b
      omega
    · omega
    · simp only [ha, hb, if_false]
      exact h.1 a b hab
  · intro y
    by_cases hy : y ≤ T
    · simp [hy]
    · simp only [hy, if_false]
      have := h.2 y
      omega

theorem calc_size_mono (a b : Nat) (h : a ≤ b) : calc_size a ≤ calc_size b :=
  (step_mono 2 0 _ (step_mono 4 1 _ (step_mono 8 2 _ (step_mono 16 3 _ (step_mono 32 4 _
    (step_mono 64 5 _ (step_mono 144 6 _ (step_mono 256 7 _ (step_mono 512 8 _
    (step_mono 1024 9 _ (step_mono 2058 10 _ (step_mono 4096 11 _ (step_mono 8192 12 _
    (step_mono 16384 13 (fun _ => 14)
      ⟨fun _ _ _ => le_refl _, fun _ => le_refl _⟩)))))))))))))).1 a b h

@[simp] theorem place_brk (s : State) (bp asize : Nat) : (place s bp asize).brk = s.brk := by
  simp only [place]
  split <;> simp

/-- Scanning `a + b` buckets is scanning `a` buckets and then `b` buckets. -/
theorem scan_from_split (s : State) : ∀ (a b range : Nat),
    scan_from s (a + b) range = scan_from s a range ++ scan_from s b (range + a) := by
  intro a
  induction a with
  | zero => intro b range; simp [scan_from]
  | succ a ih =>
    intro b range
    rw [show a + 1 + b = (a + b) + 1 by omega]
    simp only [scan_from, ih b (range + 1), List.append_assoc]
    rw [show range + 1 + a = range + (a + 1) by omega]

/-- A node met by the scan sits in one of the buckets scanned. -/
theorem scan_from_mem {s : State} : ∀ {count range : Nat} {x : Nat},
    x ∈ scan_from s count range →
    ∃ k, range ≤ k ∧ k < range + count ∧ x ∈ (bucket s k).getD [] := by
  intro count
  induction count with
  | zero => intro range x hx; simp [scan_from] at hx
  | succ c ih =>
    intro range x hx
    simp only [scan_from, List.mem_append] at hx
    rcases hx with e | e
    · exact ⟨range, le_refl _, by omega, e⟩
    · obtain ⟨k, h1, h2, h3⟩ := ih e
      exact ⟨k, by omega, by omega, h3⟩

/-- When every node sits in the bucket of its size, the scan that `find_fit`
starts at bucket `calc_size((unsigned) asize)` meets the same first fit as the
scan of buckets `calc_size(asize) .. 14`. -/
theorem first_fit_eq_spec (s : State) (asize : Nat)
    (hclass : ∀ k, k < 15 → ∀ x ∈ (bucket s k).getD [], calc_size (GET_SIZE s (HDRP x)) = k) :
    first_fit s asize = first_fit_spec s asize := by
  have hc : calc_size (asize % UINT_MOD) ≤ calc_size asize :=
    calc_size_mono _ _ (Nat.mod_le _ _)
  have h15 := calc_size_lt asize
  have hsplit := scan_from_split s (calc_size asize - calc_size (asize % UINT_MOD))
    (15 - calc_size asize) (calc_size (asize % UINT_MOD))
  rw [show calc_size asize - calc_size (asize % UINT_MOD) + (15 - calc_size asize) =
      15 - calc_size (asize % UINT_MOD) by omega,
    show calc_size (asize % UINT_MOD) + (calc_size asize - calc_size (asize % UINT_MOD)) =
      calc_size asize by omega] at hsplit
  simp only [first_fit, scan_order, first_fit_spec, hsplit, List.find?_append]
  have hnone : (scan_from s (calc_size asize - calc_size (asize % UINT_MOD))
      (calc_size (asize % UINT_MOD))).find?
      (fun bp => decide (asize ≤ GET_SIZE s (HDRP bp))) = none := by
    rw [List.find?_eq_none]
    intro y hy
    obtain ⟨j, hj1, hj2, hj3⟩ := scan_from_mem hy
    have hcl := hclass j (by omega) y hj3
    simp only [decide_eq_true_eq]
    intro hfit
    have := calc_size_mono _ _ hfit
    omega
  rw [hnone]
  rfl

/-- C6: if every bucket list ends, every list node sits in bucket `calc_size` of its
size, and some node has size at least the adjusted size of the request `n > 0`,
then `mm_malloc(n)` returns the first such node met when scanning buckets
`calc_size(asize) .. 14` in ascending order, each list head to tail, without
calling the growth primitive: the result is that of the placement branch and the
break is unchanged.  In particular after `mm_init; p1 = mm_malloc(100);
p2 = mm_malloc(200); mm_free(p1)`, `mm_malloc(50)` returns `p1 = 4248` and leaves
the break where it was. -/
theorem malloc_first_fit :
    (∀ (s : State) (n : Nat),
      (∀ k, k < 15 → (bucket s k).isSome) →
      (∀ k, k < 15 → ∀ x ∈ (bucket s k).getD [], calc_size (GET_SIZE s (HDRP x)) = k) →
      n ≠ 0 →
      (∃ k, k < 15 ∧ ∃ x ∈ (bucket s k).getD [], malloc_asize n ≤ GET_SIZE s (HDRP x)) →
      ∃ bp, first_fit_spec s (malloc_asize n) = some bp ∧
        mm_malloc s n = some (bp, place (remove_block s bp) bp (malloc_asize n)) ∧
        (place (remove_block s bp) bp (malloc_asize n)).brk = s.brk) ∧
    (run_reuse.bind fun r => (mm_malloc r.2 50).map fun q => (r.1, q.1, r.2.brk, q.2.brk)) =
      some (4248, 4248, 4608, 4608) := by
  refine ⟨?_, by decide⟩
  intro s n hlists hclass hn hfit
  obtain ⟨k, hk, x, hx, hxfit⟩ := hfit
  have hcl := hclass k hk x hx
  have hr : calc_size (malloc_asize n) ≤ k := by
    rw [← hcl]
    exact calc_size_mono _ _ hxfit
  have hr15 := calc_size_lt (malloc_asize n % UINT_MOD)
  obtain ⟨hff, hnz⟩ := find_fit_from_scan s (malloc_asize n)
    (15 - calc_size (malloc_asize n % UINT_MOD))
    (calc_size (malloc_asize n % UINT_MOD)) (fun j _ hj2 => hlists j (by omega))
  have heq := first_fit_eq_spec s (malloc_asize n) hclass
  have hmem : x ∈ scan_from s (15 - calc_size (malloc_asize n)) (calc_size (malloc_asize n)) :=
    mem_scan_from hr (by omega) hx
  cases hf : first_fit_spec s (malloc_asize n) with
  | none =>
    simp only [first_fit_spec, List.find?_eq_none] at hf
    have := hf x hmem
    simp [hxfit] at this
  | some bp =>
    rw [hf] at heq
    have hbp : bp ≠ 0 := hnz bp (List.mem_of_find?_eq_some heq)
    have hff2 : find_fit s (malloc_asize n) = some bp := by
      have : (scan_from s (15 - calc_size (malloc_asize n % UINT_MOD))
          (calc_size (malloc_asize n % UINT_MOD))).find?
          (fun bp => decide (malloc_asize n ≤ GET_SIZE s (HDRP bp))) = some bp := heq
      simp only [find_fit, hff, this, Option.getD_some]
    refine ⟨bp, rfl, ?_, by simp⟩
    simp only [mm_malloc, if_neg hn, hff2]
    simp [hbp]

/-- C10: resource exhaustion is atomic.  If `mm_malloc(n)` finds no fit and the
growth primitive refuses its request, `mm_malloc` returns `NULL` in the unchanged
state.  If `mm_realloc(p, n)` reaches its extension path and the growth
primitive refuses, or reaches its fallback `mm_malloc(n)` which finds no fit and
is refused, `mm_realloc` returns `NULL` in the unchanged state (so `p` keeps its
tags and its payload). -/
theorem exhaustion_is_atomic (s : State) (p n : Nat) :
    (n ≠ 0 → find_fit s (malloc_asize n) = some 0 → mem_sbrk s (malloc_growth n) = none →
      mm_malloc s n = some (0, s)) ∧
    (p ≠ 0 → n ≠ 0 → realloc_asize n ≠ GET_SIZE s (HDRP p) → ¬ realloc_absorbs s p n →
      realloc_extends s p → mem_sbrk s (realloc_growth s p n) = none →
      mm_realloc s p n = some (0, s)) ∧
    (p ≠ 0 → n ≠ 0 → realloc_asize n ≠ GET_SIZE s (HDRP p) → ¬ realloc_absorbs s p n →
      ¬ realloc_extends s p → find_fit s (malloc_asize n) = some 0 →
      mem_sbrk s (malloc_growth n) = none → mm_realloc s p n = some (0, s)) := by
  have hm : n ≠ 0 → find_fit s (malloc_asize n) = some 0 → mem_sbrk s (malloc_growth n) = none →
      mm_malloc s n = some (0, s) := by
    intro hn hf hg
    simp only [malloc_growth] at hg
    simp [mm_malloc, hn, hf, extend_heap, hg]
  refine ⟨hm, ?_, ?_⟩
  · intro hp hn ha hab hex hg
    simp only [realloc_growth] at hg
    simp only [realloc_absorbs] at hab
    simp only [realloc_extends] at hex
    simp only [mm_realloc, if_neg hp, if_neg hn, if_neg ha, if_neg hab, if_pos hex, hg]
  · intro hp hn ha hab hex hf hg
    simp only [realloc_absorbs] at hab
    simp only [realloc_extends] at hex
    simp only [mm_realloc, if_neg hp, if_neg hn, if_neg ha, if_neg hab, if_neg hex,
      hm hn hf hg]

/-- C10 at concrete heaps whose growth primitive is exhausted: `mm_malloc(200)`
on `heap_tight`, `mm_realloc(4248, 200)` on its extension path and
`mm_realloc(4248, 100)` on its fallback path all return `NULL` and leave the
state as it was. -/
theorem exhaustion_is_atomic_witness :
    mm_malloc heap_tight 200 = some (0, heap_tight) ∧
    mm_realloc heap_tight_full 4248 200 = some (0, heap_tight_full) ∧
    mm_realloc heap_tight_two 4248 100 = some (0, heap_tight_two) :=
  ⟨(exhaustion_is_atomic heap_tight 0 200).1 (by decide) (by decide) rfl,
    (exhaustion_is_atomic heap_tight_full 4248 200).2.1 (by decide) (by decide) (by decide)
      (by decide) (by decide) rfl,
    (exhaustion_is_atomic heap_tight_two 4248 100).2.2 (by decide) (by decide) (by decide)
      (by decide) (by decide) (by decide) rfl⟩

/-- C6 at a concrete heap: in `heap_reuse` the freed block `4248` of size 144 sits
in bucket 6, and `mm_malloc(50)` is answered from the index. -/
theorem malloc_first_fit_witness :
    bucket heap_reuse 6 = some [4248] ∧
    ∃ bp, first_fit_spec heap_reuse (malloc_asize 50) = some bp ∧
      mm_malloc heap_reuse 50 =
        some (bp, place (remove_block heap_reuse bp) bp (malloc_asize 50)) ∧
      (place (remove_block heap_reuse bp) bp (malloc_asize 50)).brk = heap_reuse.brk :=
  ⟨by decide, malloc_first_fit.1 heap_reuse 50 (by decide) (by decide) (by decide)
    ⟨6, by decide, 4248, by decide, by decide⟩⟩

theorem heap0_well_formed : Heap heap0 chain0 index0 :=
  ⟨⟨by decide, by decide, by decide, by decide, by decide, by decide, by decide,
    disjoint_of _ (by decide), by decide⟩, by decide⟩

theorem heap1_well_formed : Heap heap1 chain1 index1 :=
  ⟨⟨by decide, by decide, by decide, by decide, by decide, by decide, by decide,
    disjoint_of _ (by decide), by decide⟩, by decide⟩

theorem heap_large_well_formed : Heap heap_large chain_large index_large :=
  ⟨⟨by decide, by decide, by decide, by decide, by decide, by decide, by decide,
    disjoint_of _ (by decide), by decide⟩, by decide⟩

theorem heap_tight_full_well_formed : Heap heap_tight_full chain_tight_full (fun _ => []) :=
  ⟨⟨by decide, by decide, by decide, by decide, by decide, by decide, by decide,
    disjoint_of _ (by decide), by decide⟩, by decide⟩

/-- C12: `heap1` is well formed, `p = 4248` is allocated with size 32, its successor
`4280` is free with size 112, and `mm_realloc(p, 40)` has adjusted size 56, which
is not 32 and at most 32 + 112.  The call returns `p`, but the header of `p` holds
`PACK(144, 0)`, allocated bit clear, and the footer of `p` holds `PACK(32, 0)`:
header and footer differ and the block is marked free. -/
theorem realloc_absorb_marks_block_free :
    Heap heap1 chain1 index1 ∧
    (realloc_asize 40 = 56 ∧ 56 ≠ 32 ∧ 56 ≤ 32 + 112) ∧
    (mm_realloc heap1 4248 40).map (fun q =>
      (q.1, GET q.2 (HDRP 4248), FTRP q.2 4248, GET q.2 (FTRP q.2 4248),
        GET_ALLOC q.2 (HDRP 4248))) = some (4248, PACK 144 0, 4376, PACK 32 0, 0) ∧
    PACK 144 0 ≠ PACK 32 0 :=
  ⟨heap1_well_formed, by decide, by decide, by decide⟩

/-- C13: `heap1` is well formed, `p = 4248` has size 32 and a free successor `4280`
of size 112 that ends the heap at `4392`; `mm_realloc(p, 200)` has adjusted size
216 > 32 + 112 and takes the heap-extension path.  It returns `p` with header and
footer `PACK(216, 1)`, but the break is now `4576` while the epilogue was written
at `4456`: the last word of the heap (at `4568`) is not `PACK(0, 1)`, the chain
walk ends at `4464`, before the heap's end, and `4280`, which lies inside `p`'s
block, is still a node of bucket 6. -/
theorem realloc_extension_misplaces_epilogue :
    Heap heap1 chain1 index1 ∧
    (realloc_asize 200 = 216 ∧ ¬ realloc_absorbs heap1 4248 200 ∧ realloc_extends heap1 4248 ∧
      heap1.brk = 4392) ∧
    (mm_realloc heap1 4248 200).map (fun q =>
      (q.1, GET q.2 (HDRP 4248), GET q.2 (FTRP q.2 4248), NEXT_BLKP q.2 4248,
        GET q.2 (HDRP (NEXT_BLKP q.2 4248)))) = some (4248, PACK 216 1, PACK 216 1, 4464, PACK 0 1) ∧
    (mm_realloc heap1 4248 200).map (fun q =>
      (q.2.brk, GET q.2 (q.2.brk - WSIZE), chain q.2, bucket q.2 6)) =
      some (4576, 0, some [4112, 4248], some [4280]) ∧
    (4248 ≤ 4280 ∧ 4280 < 4248 + 216 ∧ 4464 < 4576 ∧ PACK 0 1 ≠ 0) :=
  ⟨heap1_well_formed, by decide, by decide, by decide, by decide⟩

/-- C14: for the request `n = 2 ^ 64 - 1` the sum `n + DSIZE + (WSIZE - 1)` wraps
around and `mm_malloc` computes the adjusted size 16, which is below `4 * WSIZE`
(and below `n + 2 * WSIZE`). -/
theorem malloc_asize_wraps :
    0 < SIZE_MOD - 1 ∧ SIZE_MOD - 1 < SIZE_MOD ∧ malloc_asize (SIZE_MOD - 1) = 16 ∧
    16 < 4 * WSIZE ∧ 16 < (SIZE_MOD - 1) + 2 * WSIZE := by
  decide

/-- The adjusted size of `mm_malloc` when the sum does not wrap around: a multiple
of the word size, at least four words, at least `n + 2 * WSIZE`, and the least
such number. -/
theorem malloc_asize_spec (n : Nat) (hn : n + 23 < SIZE_MOD) :
    malloc_asize n % WSIZE = 0 ∧ 4 * WSIZE ≤ malloc_asize n ∧ n + 2 * WSIZE ≤ malloc_asize n ∧
    ∀ m, m % WSIZE = 0 → 4 * WSIZE ≤ m → n + 2 * WSIZE ≤ m → malloc_asize n ≤ m := by
  unfold malloc_asize
  simp only [WSIZE, DSIZE, SIZE_MOD] at *
  have e : (n + 2 * 8 + (8 - 1)) % 18446744073709551616 = n + 23 := Nat.mod_eq_of_lt (by omega)
  rw [e]
  split_ifs with h
  · refine ⟨by omega, by omega, by omega, fun m _ h2 _ => by omega⟩
  · refine ⟨by omega, by omega, by omega, fun m h1 _ h3 => by omega⟩

/-- C18: `checkheap(false)` on the heap produced by a successful `mm_init` prints
"Bad prologue header" (and a misalignment error); on the well-formed heap
`heap_large`, whose only free block has 20160 bytes and sits in bucket 14, it
also prints "Not all of the free blocks are on the free list". -/
theorem checkheap_reports_good_heaps :
    (mm_init (boot 4096 1048576)).1 = 0 ∧ Heap heap0 chain0 index0 ∧
    checkheap heap0 false = some [Finding.bad_prologue, Finding.misaligned 4248] ∧
    Heap heap_large chain_large index_large ∧
    (bucket heap_large 14 = some [4248] ∧ GET heap_large (HDRP 4248) = PACK 20160 0 ∧
      calc_size 20160 = 14) ∧
    checkheap heap_large false =
      some [Finding.bad_prologue, Finding.misaligned 4248, Finding.free_count_mismatch] :=
  ⟨by decide, heap0_well_formed, by decide, heap_large_well_formed, by decide, by decide⟩

theorem heap0_wf : WF heap0 chain0 index0 :=
  ⟨heap0_well_formed, by decide, by simp [chain0]⟩

/-- C19: the heap after `mm_init` satisfies `WF`, but after `mm_malloc(2 ^ 64 - 1)`,
which returns `4248`, the header of the block `4248` holds `PACK(16, 1)`, a size
below four words, and no chain of blocks and no bucket lists describe the
resulting heap as well formed. -/
theorem malloc_wrap_breaks_well_formedness :
    WF heap0 chain0 index0 ∧
    (mm_malloc heap0 (SIZE_MOD - 1)).map (fun r => (r.1, GET r.2 (HDRP 4248))) =
      some (4248, PACK 16 1) ∧
    16 < 4 * WSIZE ∧
    ¬ ∃ bs L, WF heap_wrapped bs L := by
  refine ⟨heap0_wf, by decide, by decide, ?_⟩
  rintro ⟨bs, L, h⟩
  have hl := h.heap.linked
  have hp := hl.prologue
  have hc := hl.chain
  have e1 : heap_wrapped.heap_listp = 4112 := by decide
  have e2 : heap_wrapped.brk = 4392 := by decide
  have e3 : heap_wrapped.mem 4240 = 17 := by decide
  rw [e1, e2] at hc
  rw [e1] at hp
  match bs, hp, hc with
  | [_], hp, hc =>
    simp only [List.head?_cons, Option.some.injEq] at hp
    subst hp
    simp only [Chain] at hc
    omega
  | _ :: b :: rest, hp, hc =>
    simp only [List.head?_cons, Option.some.injEq] at hp
    subst hp
    obtain ⟨_, _, _, _, _, _, h32, h8, ht, _⟩ := hc
    simp only [] at ht
    rw [show 4112 + 136 - 8 = 4240 from rfl, e3, tag_eq _ _ h8] at ht
    cases hb : b.al <;> simp [hb] at ht <;> omega

/-- The extension path of `mm_realloc`: when `realloc_sbrk_request` gives an
amount, `mm_realloc` passes that amount to `mem_sbrk` and returns `NULL`
without effect if the request is refused. -/
theorem mm_realloc_request (s : State) (ptr size a : Nat)
    (h : realloc_sbrk_request s ptr size = some a) :
    a = realloc_growth s ptr size ∧
    (mem_sbrk s a = none → mm_realloc s ptr size = some (0, s)) ∧
    (∀ r, mem_sbrk s a = some r → (mm_realloc s ptr size).map (fun q => (q.1, q.2.brk)) =
      some (ptr, r.2.brk)) := by
  unfold realloc_sbrk_request at h
  split_ifs at h with h1 h2 h3 h4 h5
  simp only [Option.some.injEq] at h
  subst h
  refine ⟨rfl, fun hm => ?_, fun r hm => ?_⟩
  · unfold realloc_absorbs at h4
    unfold realloc_extends at h5
    unfold realloc_growth at hm
    simp only [mm_realloc, if_neg h1, if_neg h2, if_neg h3, if_neg h4, if_pos h5, hm]
  · unfold realloc_absorbs at h4
    unfold realloc_extends at h5
    unfold realloc_growth at hm
    simp only [mm_realloc, if_neg h1, if_neg h2, if_neg h3, if_neg h4, if_pos h5, hm]
    simp

/-- C20: `heap_tight_full` is well formed and `p = 4248` is its last block, allocated
with size 144 (`p = mm_malloc(100)` right after `mm_init`).  `mm_realloc(p, 50)` has
adjusted size 72 < 144, yet control reaches the `mem_sbrk` call, with the
wrapped amount `2 ^ 64 - 72`; the request is refused and `mm_realloc` returns
`NULL`.  The same call after a plain `mm_init; p = mm_malloc(100)` reaches
`mem_sbrk` with the same amount. -/
theorem realloc_shrink_reaches_sbrk :
    Heap heap_tight_full chain_tight_full (fun _ => []) ∧
    ((mm_malloc heap_tight 100).map Prod.fst = some 4248 ∧
      GET_SIZE heap_tight_full (HDRP 4248) = 144 ∧ realloc_asize 50 = 72 ∧ 72 < 144) ∧
    realloc_sbrk_request heap_tight_full 4248 50 = some (SIZE_MOD - 72) ∧
    (mm_realloc heap_tight_full 4248 50).map Prod.fst = some 0 ∧
    ((mm_malloc heap0 100).bind fun r =>
      (realloc_sbrk_request r.2 r.1 50).map fun a => (r.1, GET_SIZE r.2 (HDRP r.1), a)) =
      some (4248, 144, SIZE_MOD - 72) :=
  ⟨heap_tight_full_well_formed, by decide, by decide, by decide, by decide⟩

/-- C17: `calc_size` is a total function with values in `0 .. 14`; it follows the
breakpoint table 2, 4, 8, 16, 32, 64, 144, 256, 512, 1024, 2058, 4096, 8192, 16384
(an argument up to the `i`-th breakpoint and above the one before gives `i`,
an argument above the last gives 14); and it is monotone. -/
theorem calc_size_table_monotone :
    (∀ a, calc_size a ≤ 14) ∧
    (∀ a, (a ≤ 2 → calc_size a = 0) ∧
      (2 < a → a ≤ 4 → calc_size a = 1) ∧
      (4 < a → a ≤ 8 → calc_size a = 2) ∧
      (8 < a → a ≤ 16 → calc_size a = 3) ∧
      (16 < a → a ≤ 32 → calc_size a = 4) ∧
      (32 < a → a ≤ 64 → calc_size a = 5) ∧
      (64 < a → a ≤ 144 → calc_size a = 6) ∧
      (144 < a → a ≤ 256 → calc_size a = 7) ∧
      (256 < a → a ≤ 512 → calc_size a = 8) ∧
      (512 < a → a ≤ 1024 → calc_size a = 9) ∧
      (1024 < a → a ≤ 2058 → calc_size a = 10) ∧
      (2058 < a → a ≤ 4096 → calc_size a = 11) ∧
      (4096 < a → a ≤ 8192 → calc_size a = 12) ∧
      (8192 < a → a ≤ 16384 → calc_size a = 13) ∧
      (16384 < a → calc_size a = 14)) ∧
    (∀ a b, a ≤ b → calc_size a ≤ calc_size b) := by
  refine ⟨fun a => ?_, fun a => ?_, fun a b h => calc_size_mono a b h⟩
  · have := calc_size_lt a
    omega
  refine ⟨?_, ?_, ?_, ?_, ?_, ?_, ?_, ?_, ?_, ?_, ?_, ?_, ?_, ?_, ?_⟩
  · intro h2
    unfold calc_size
    rw [if_pos h2]
  · intro h1 h2
    unfold calc_size
    rw [if_neg (by omega : ¬ a ≤ 2),
      if_pos h2]
  · intro h1 h2
    unfold calc_size
    rw [if_neg (by omega : ¬ a ≤ 2), if_neg (by omega : ¬ a ≤ 4),
      if_pos h2]
  · intro h1 h2
    unfold calc_size
    rw [if_neg (by omega : ¬ a ≤ 2), if_neg (by omega : ¬ a ≤ 4), if_neg (by omega : ¬ a ≤ 8),
      if_pos h2]
  · intro h1 h2
    unfold calc_size
    rw [if_neg (by omega : ¬ a ≤ 2), if_neg (by omega : ¬ a ≤ 4), if_neg (by omega : ¬ a ≤ 8),
      if_neg (by omega : ¬ a ≤ 16),
      if_pos h2]
  · intro h1 h2
    unfold calc_size
    rw [if_neg (by omega : ¬ a ≤ 2), if_neg (by omega : ¬ a ≤ 4), if_neg (by omega : ¬ a ≤ 8),
      if_neg (by omega : ¬ a ≤ 16), if_neg (by omega : ¬ a ≤ 32),
      if_pos h2]
  · intro h1 h2
    unfold calc_size
    rw [if_neg (by omega : ¬ a ≤ 2), if_neg (by omega : ¬ a ≤ 4), if_neg (by omega : ¬ a ≤ 8),
      if_neg (by omega : ¬ a ≤ 16), if_neg (by omega : ¬ a ≤ 32), if_neg (by omega : ¬ a ≤ 64),
      if_pos h2]
  · intro h1 h2
    unfold calc_size
    rw [if_neg (by omega : ¬ a ≤ 2), if_neg (by omega : ¬ a ≤ 4), if_neg (by omega : ¬ a ≤ 8),
      if_neg (by omega : ¬ a ≤ 16), if_neg (by omega : ¬ a ≤ 32), if_neg (by omega : ¬ a ≤ 64),
      if_neg (by omega : ¬ a ≤ 144),
      if_pos h2]
  · intro h1 h2
    unfold calc_size
    rw [if_neg (by omega : ¬ a ≤ 2), if_neg (by omega : ¬ a ≤ 4), if_neg (by omega : ¬ a ≤ 8),
      if_neg (by omega : ¬ a ≤ 16), if_neg (by omega : ¬ a ≤ 32), if_neg (by omega : ¬ a ≤ 64),
      if_neg (by omega : ¬ a ≤ 144), if_neg (by omega : ¬ a ≤ 256),
      if_pos h2]
  · intro h1 h2
    unfold calc_size
    rw [if_neg (by omega : ¬ a ≤ 2), if_neg (by omega : ¬ a ≤ 4), if_neg (by omega : ¬ a ≤ 8),
      if_neg (by omega : ¬ a ≤ 16), if_neg (by omega : ¬ a ≤ 32), if_neg (by omega : ¬ a ≤ 64),
      if_neg (by omega : ¬ a ≤ 144), if_neg (by omega : ¬ a ≤ 256),
      if_neg (by omega : ¬ a ≤ 512),
      if_pos h2]
  · intro h1 h2
    unfold calc_size
    rw [if_neg (by omega : ¬ a ≤ 2), if_neg (by omega : ¬ a ≤ 4), if_neg (by omega : ¬ a ≤ 8),
      if_neg (by omega : ¬ a ≤ 16), if_neg (by omega : ¬ a ≤ 32), if_neg (by omega : ¬ a ≤ 64),
      if_neg (by omega : ¬ a ≤ 144), if_neg (by omega : ¬ a ≤ 256),
      if_neg (by omega : ¬ a ≤ 512), if_neg (by omega : ¬ a ≤ 1024),
      if_pos h2]
  · intro h1 h2
    unfold calc_size
    rw [if_neg (by omega : ¬ a ≤ 2), if_neg (by omega : ¬ a ≤ 4), if_neg (by omega : ¬ a ≤ 8),
      if_neg (by omega : ¬ a ≤ 16), if_neg (by omega : ¬ a ≤ 32), if_neg (by omega : ¬ a ≤ 64),
      if_neg (by omega : ¬ a ≤ 144), if_neg (by omega : ¬ a ≤ 256),
      if_neg (by omega : ¬ a ≤ 512), if_neg (by omega : ¬ a ≤ 1024),
      if_neg (by omega : ¬ a ≤ 2058),
      if_pos h2]
  · intro h1 h2
    unfold calc_size
    rw [if_neg (by omega : ¬ a ≤ 2), if_neg (by omega : ¬ a ≤ 4), if_neg (by omega : ¬ a ≤ 8),
      if_neg (by omega : ¬ a ≤ 16), if_neg (by omega : ¬ a ≤ 32), if_neg (by omega : ¬ a ≤ 64),
      if_neg (by omega : ¬ a ≤ 144), if_neg (by omega : ¬ a ≤ 256),
      if_neg (by omega : ¬ a ≤ 512), if_neg (by omega : ¬ a ≤ 1024),
      if_neg (by omega : ¬ a ≤ 2058), if_neg (by omega : ¬ a ≤ 4096),
      if_pos h2]
  · intro h1 h2
    unfold calc_size
    rw [if_neg (by omega : ¬ a ≤ 2), if_neg (by omega : ¬ a ≤ 4), if_neg (by omega : ¬ a ≤ 8),
      if_neg (by omega : ¬ a ≤ 16), if_neg (by omega : ¬ a ≤ 32), if_neg (by omega : ¬ a ≤ 64),
      if_neg (by omega : ¬ a ≤ 144), if_neg (by omega : ¬ a ≤ 256),
      if_neg (by omega : ¬ a ≤ 512), if_neg (by omega : ¬ a ≤ 1024),
      if_neg (by omega : ¬ a ≤ 2058), if_neg (by omega : ¬ a ≤ 4096),
      if_neg (by omega : ¬ a ≤ 8192),
      if_pos h2]
  · intro h1
    unfold calc_size
    rw [if_neg (by omega : ¬ a ≤ 2), if_neg (by omega : ¬ a ≤ 4), if_neg (by omega : ¬ a ≤ 8),
      if_neg (by omega : ¬ a ≤ 16), if_neg (by omega : ¬ a ≤ 32), if_neg (by omega : ¬ a ≤ 64),
      if_neg (by omega : ¬ a ≤ 144), if_neg (by omega : ¬ a ≤ 256),
      if_neg (by omega : ¬ a ≤ 512), if_neg (by omega : ¬ a ≤ 1024),
      if_neg (by omega : ¬ a ≤ 2058), if_neg (by omega : ¬ a ≤ 4096),
      if_neg (by omega : ¬ a ≤ 8192), if_neg (by omega : ¬ a ≤ 16384)]

/-- C17 at concrete sizes: the default chunk of 144 bytes is in bucket 6, 2058 is
still in bucket 10, and `calc_size 100 ≤ calc_size 200`. -/
theorem calc_size_table_monotone_witness :
    calc_size 144 = 6 ∧ calc_size 2058 = 10 ∧ calc_size 100 ≤ calc_size 200 :=
  ⟨(calc_size_table_monotone.2.1 144).2.2.2.2.2.2.1 (by decide) (by decide),
    (calc_size_table_monotone.2.1 2058).2.2.2.2.2.2.2.2.2.2.1 (by decide) (by decide),
    calc_size_table_monotone.2.2 100 200 (by decide)⟩

/-- The index of a linked heap is well formed. -/
theorem Linked.index {s : State} {bs : List Blk} {L : Nat → List Nat} (h : Linked s bs L) :
    Index s L := by
  have hl := h.low
  refine ⟨by omega, h.links, h.nodup, h.disjoint, ?_, ?_⟩
  · intro k hk x hx
    obtain ⟨b, _, _, _, e3, e4, e5⟩ := h.node hk hx
    omega
  · intro j hj k hk u hu v hv
    have := h.spaced hj hu hk hv
    omega

/-- The links stored in a node of a well-formed index. -/
theorem Index.links_at {s : State} {L : Nat → List Nat} (h : Index s L)
    {k x : Nat} (hk : k < 15) (hx : x ∈ L k) :
    (s.mem (x + 8) = s.heap_listp + k * 8 ∨ s.mem (x + 8) ∈ L k) ∧
      (s.mem x = 0 ∨ s.mem x ∈ L k) := by
  obtain ⟨l1, l2, e⟩ := List.append_of_mem hx
  have hd := h.links k hk
  rw [e] at hd
  have := DLL.at_node hd
  constructor
  · rcases this.1 with h1 | h1
    · exact Or.inl h1.1
    · right; rw [e]; simp [h1]
  · rcases this.2 with h1 | h1
    · exact Or.inl h1.1
    · right; rw [e]; simp [h1]

/-- A store that agrees on the slots and on the link words of the nodes holds
the same index. -/
theorem Index.congr_store {s s1 : State} {L : Nat → List Nat} (h : Index s L)
    (hbrk : s.brk ≤ s1.brk) (hhl : s1.heap_listp = s.heap_listp)
    (hslot : ∀ k, k < 15 → s1.mem (s.heap_listp + k * 8) = s.mem (s.heap_listp + k * 8))
    (hnode : ∀ k, k < 15 → ∀ x ∈ L k, s1.mem x = s.mem x ∧ s1.mem (x + 8) = s.mem (x + 8)) :
    Index s1 L := by
  refine ⟨by rw [hhl]; exact h.low, ?_, h.nodup, h.disjoint, ?_, h.apart⟩
  · intro k hk
    rw [hhl]
    exact DLL.congr_links (hslot k hk) (hnode k hk) (h.links k hk)
  · intro k hk x hx
    have := h.above k hk x hx
    rw [hhl]
    omega

/-- In a well-formed index the walk of bucket `k` returns the list `L k`. -/
theorem Index.bucket_walk {s : State} {L : Nat → List Nat} (h : Index s L)
    {k : Nat} (hk : k < 15) : bucket s k = some (L k) := by
  have hlen : (L k).length ≤ s.brk := by
    apply length_le_of_nodup_lt (h.nodup k hk)
    intro x hx
    exact (h.above k hk x hx).2
  have : list_from s (s.brk + 1) (s.mem (s.heap_listp + k * 8)) = some (L k) :=
    DLL.list_from (h.links k hk) (by omega)
  simpa only [MM.bucket, GET, WSIZE] using this

/-- Unlinking a node keeps the index well formed; every bucket list loses the node. -/
theorem Index.unlink {s : State} {L : Nat → List Nat} (h : Index s L)
    {k0 x : Nat} (hk0 : k0 < 15) (hx : x ∈ L k0) :
    Index (remove_block s x) (fun k => (L k).erase x) := by
  have hl := h.low
  have hlinks := h.links_at hk0 hx
  have hprev : s.mem (x + 8) = s.heap_listp + k0 * 8 ∨ s.mem (x + 8) ∈ L k0 := hlinks.1
  have hnext : s.mem x = 0 ∨ s.mem x ∈ L k0 := hlinks.2
  have keep : ∀ w, (w ≠ s.heap_listp + k0 * 8) → (∀ u ∈ L k0, w ≠ u ∧ w ≠ u + 8) →
      (remove_block s x).mem w = s.mem w := by
    intro w h1 h2
    apply remove_block_mem
    · rcases hprev with e | e
      · rw [e]; exact h1
      · exact (h2 _ e).1
    · rcases hnext with e | e
      · exact Or.inl e
      · exact Or.inr (h2 _ e).2
  refine ⟨by simpa using hl, ?_, ?_, ?_, ?_, ?_⟩
  · intro k hk
    simp only [remove_block_heap_listp]
    by_cases hkk : k = k0
    · subst hkk
      obtain ⟨l1, l2, e⟩ := List.append_of_mem hx
      have hnd := h.nodup k hk
      have hd := h.links k hk
      rw [e] at hnd hd
      have hx1 : x ∉ l1 := by
        intro hm
        have := List.nodup_append.1 hnd
        exact this.2.2 hm (List.mem_cons_self _ _)
      have herase : (L k).erase x = l1 ++ l2 := by
        rw [e, List.erase_append_right _ hx1, List.erase_cons_head]
      rw [herase]
      apply DLL.remove_node s hd (by omega)
      · intro u hu
        rw [← e] at hu
        have := h.above k hk u hu
        omega
      · exact hnd
      · intro u hu v hv
        rw [← e] at hu hv
        exact h.apart k hk k hk u hu v hv
    · have hxk : x ∉ L k := fun hm => h.disjoint k hk k0 hk0 hkk x hm hx
      rw [List.erase_of_not_mem hxk]
      apply DLL.congr_links _ _ (h.links k hk)
      · apply keep
        · omega
        · intro u hu
          have := h.above k0 hk0 u hu
          omega
      · intro u hu
        have hu3 := h.above k hk u hu
        constructor
        · apply keep
          · omega
          · intro v hv
            have := h.apart k hk k0 hk0 u hu v hv
            have : u ≠ v := fun e => h.disjoint k hk k0 hk0 hkk u hu (e ▸ hv)
            omega
        · apply keep
          · omega
          · intro v hv
            have := h.apart k hk k0 hk0 u hu v hv
            have : u ≠ v := fun e => h.disjoint k hk k0 hk0 hkk u hu (e ▸ hv)
            omega
  · intro k hk
    exact (h.nodup k hk).erase x
  · intro j hj k hk hjk u hu hu2
    exact h.disjoint j hj k hk hjk u (List.mem_of_mem_erase hu) (List.mem_of_mem_erase hu2)
  · intro k hk u hu
    simpa using h.above k hk u (List.mem_of_mem_erase hu)
  · intro j hj k hk u hu v hv
    exact h.apart j hj k hk u (List.mem_of_mem_erase hu) v (List.mem_of_mem_erase hv)

/-- Linking an address that is in no list, lies above the slot table and is at
least two words away from every node keeps the index well formed; the address
becomes the head of the bucket of the given size. -/
theorem Index.link_head {s : State} {L : Nat → List Nat} (h : Index s L) {x : Nat}
    (hlo : s.heap_listp + 120 ≤ x) (hhi : x < s.brk)
    (hfar : ∀ k, k < 15 → ∀ u ∈ L k, x + 16 ≤ u ∨ u + 16 ≤ x) (n : Nat) :
    Index (insert_block s x n)
      (fun k => if k = calc_size (n % UINT_MOD) then x :: L k else L k) := by
  have hl := h.low
  have hk0 := calc_size_lt (n % UINT_MOD)
  have hnl : ∀ k, k < 15 → x ∉ L k := by
    intro k hk hm
    have := hfar k hk x hm
    omega
  have hhead : s.mem (s.heap_listp + (calc_size (n % UINT_MOD)) * 8) = 0 ∨
      s.mem (s.heap_listp + (calc_size (n % UINT_MOD)) * 8) ∈ L (calc_size (n % UINT_MOD)) := by
    have hd := h.links (calc_size (n % UINT_MOD)) hk0
    cases hL : L (calc_size (n % UINT_MOD)) with
    | nil => rw [hL] at hd; exact Or.inl hd
    | cons y ys => rw [hL] at hd; right; rw [hd.1]; exact List.mem_cons_self _ _
  have keep : ∀ w, (w ≠ s.heap_listp + (calc_size (n % UINT_MOD)) * 8) →
      (∀ u ∈ L (calc_size (n % UINT_MOD)), w ≠ u + 8) →
      w ≠ x + 8 → w ≠ x → (insert_block s x n).mem w = s.mem w := by
    intro w h1 h2 h3 h4
    rw [insert_block_mem]
    rw [if_neg (by simpa using h1), if_neg, if_neg h3, if_neg h4]
    rintro ⟨e1, e2⟩
    rcases hhead with e | e
    · exact e1 (by simpa using e)
    · exact h2 _ e (by simpa using e2)
  refine ⟨by simpa using hl, ?_, ?_, ?_, ?_, ?_⟩
  · intro k hk
    simp only [insert_block_heap_listp]
    by_cases hkk : k = (calc_size (n % UINT_MOD))
    · subst hkk
      rw [if_pos rfl]
      apply DLL.insert_head s x n (L _) (h.links _ hk) (by omega)
      · intro u hu
        rcases List.mem_cons.1 hu with e | hu1
        · subst e; omega
        · have := h.above _ hk u hu1
          omega
      · exact List.nodup_cons.2 ⟨hnl _ hk, h.nodup _ hk⟩
      · intro u hu v hv
        rcases List.mem_cons.1 hu with e | hu1 <;> rcases List.mem_cons.1 hv with f | hv1
        · left; rw [e, f]
        · subst e
          have := hfar _ hk v hv1
          omega
        · subst f
          have := hfar _ hk u hu1
          omega
        · exact h.apart _ hk _ hk u hu1 v hv1
    · rw [if_neg hkk]
      apply DLL.congr_links _ _ (h.links k hk)
      · apply keep
        · omega
        · intro u hu
          have := h.above _ hk0 u hu
          omega
        · omega
        · omega
      · intro u hu
        have hu3 := h.above k hk u hu
        have hbu := hfar k hk u hu
        constructor
        · apply keep
          · omega
          · intro v hv
            have := h.apart k hk _ hk0 u hu v hv
            have : u ≠ v :=
              fun e => h.disjoint k hk (calc_size (n % UINT_MOD)) hk0 hkk u hu (e ▸ hv)
            omega
          · omega
          · omega
        · apply keep
          · omega
          · intro v hv
            have : u ≠ v :=
              fun e => h.disjoint k hk (calc_size (n % UINT_MOD)) hk0 hkk u hu (e ▸ hv)
            omega
          · omega
          · omega
  · intro k hk
    by_cases hkk : k = (calc_size (n % UINT_MOD))
    · subst hkk
      simp only [if_true]
      exact List.nodup_cons.2 ⟨hnl _ hk, h.nodup _ hk⟩
    · simp only [if_neg hkk]
      exact h.nodup k hk
  · intro j hj k hk hjk u hu hu2
    by_cases hj1 : j = calc_size (n % UINT_MOD) <;> by_cases hk1 : k = calc_size (n % UINT_MOD)
    · omega
    · simp only [if_pos hj1, if_neg hk1] at hu hu2
      rcases List.mem_cons.1 hu with e | hu1
      · subst e; exact hnl k hk hu2
      · exact h.disjoint j hj k hk hjk u hu1 hu2
    · simp only [if_neg hj1, if_pos hk1] at hu hu2
      rcases List.mem_cons.1 hu2 with e | hu1
      · subst e; exact hnl j hj hu
      · exact h.disjoint j hj k hk hjk u hu hu1
    · simp only [if_neg hj1, if_neg hk1] at hu hu2
      exact h.disjoint j hj k hk hjk u hu hu2
  · intro k hk u hu
    simp only [insert_block_heap_listp, insert_block_brk]
    by_cases hk1 : k = calc_size (n % UINT_MOD)
    · simp only [if_pos hk1] at hu
      rcases List.mem_cons.1 hu with e | hu1
      · subst e; omega
      · exact h.above k hk u hu1
    · simp only [if_neg hk1] at hu
      exact h.above k hk u hu
  · intro j hj k hk u hu v hv
    have hu1 : u = x ∨ u ∈ L j := by
      by_cases hj1 : j = calc_size (n % UINT_MOD)
      · simp only [if_pos hj1] at hu; exact List.mem_cons.1 hu
      · simp only [if_neg hj1] at hu; exact Or.inr hu
    have hv1 : v = x ∨ v ∈ L k := by
      by_cases hk1 : k = calc_size (n % UINT_MOD)
      · simp only [if_pos hk1] at hv; exact List.mem_cons.1 hv
      · simp only [if_neg hk1] at hv; exact Or.inr hv
    rcases hu1 with e | hu2 <;> rcases hv1 with f | hv2
    · left; rw [e, f]
    · subst e
      have := hfar k hk v hv2
      omega
    · subst f
      have := hfar j hj u hu2
      omega
    · exact h.apart j hj k hk u hu2 v hv2

/-- C16: in a well-formed index, `remove_block(b)` for a node `b` of bucket `k`
leaves a well-formed index (all `prev` links consistent) in which bucket `k`,
read from its slot, is the old list with `b` erased, the other nodes in their
old order, and every other bucket reads as before.  Consequently, for an
address `b` that is in no list, `insert_block(b, size)` makes `b` the head of
bucket `calc_size(size)` and a following `remove_block(b)` restores every bucket
list. -/
theorem remove_block_erases_node :
    (∀ (s : State) (L : Nat → List Nat) (k b : Nat), Index s L → k < 15 → b ∈ L k →
      Index (remove_block s b) (fun j => (L j).erase b) ∧
      bucket s k = some (L k) ∧
      bucket (remove_block s b) k = some ((L k).erase b) ∧
      (L k).erase b = (L k).filter (fun u => u != b) ∧
      ∀ j, j < 15 → j ≠ k → bucket (remove_block s b) j = bucket s j) ∧
    (∀ (s : State) (L : Nat → List Nat) (b size : Nat), Index s L →
      s.heap_listp + 120 ≤ b → b < s.brk →
      (∀ k, k < 15 → ∀ u ∈ L k, b + 16 ≤ u ∨ u + 16 ≤ b) →
      bucket (insert_block s b size) (calc_size (size % UINT_MOD)) =
        some (b :: L (calc_size (size % UINT_MOD))) ∧
      ∀ j, j < 15 → bucket (remove_block (insert_block s b size) b) j = bucket s j) := by
  constructor
  · intro s L k b h hk hb
    have hr := h.unlink hk hb
    refine ⟨hr, h.bucket_walk hk, hr.bucket_walk hk, (h.nodup k hk).erase_eq_filter b, ?_⟩
    intro j hj hjk
    rw [hr.bucket_walk hj, h.bucket_walk hj]
    have : b ∉ L j := fun hm => h.disjoint j hj k hk hjk b hm hb
    simp only [List.erase_of_not_mem this]
  · intro s L b size h hlo hhi hfar
    have hk0 := calc_size_lt (size % UINT_MOD)
    have hi := h.link_head hlo hhi hfar size
    have hmem : b ∈ (fun k => if k = calc_size (size % UINT_MOD) then b :: L k else L k)
        (calc_size (size % UINT_MOD)) := by simp
    have hr := hi.unlink hk0 hmem
    constructor
    · rw [hi.bucket_walk hk0]; simp
    · intro j hj
      rw [hr.bucket_walk hj, h.bucket_walk hj]
      have hnl : b ∉ L j := by
        intro hm
        have := hfar j hj b hm
        omega
      by_cases hjk : j = calc_size (size % UINT_MOD)
      · simp only [if_pos hjk, List.erase_cons_head]
      · simp only [if_neg hjk, List.erase_of_not_mem hnl]

/-- C16 at the heap after `mm_init; mm_malloc(1)`: unlinking the only node `4280`
of bucket 6 empties that bucket, and linking the block `4248` as a block of 32
bytes and unlinking it again leaves bucket 6 as it was. -/
theorem remove_block_erases_node_witness :
    bucket heap1 6 = some [4280] ∧ bucket (remove_block heap1 4280) 6 = some [] ∧
    bucket (insert_block heap1 4248 32) 4 = some [4248] ∧
    bucket (remove_block (insert_block heap1 4248 32) 4248) 6 = bucket heap1 6 :=
  have h := remove_block_erases_node.1 heap1 index1 6 4280
    heap1_well_formed.linked.index (by decide) (by decide)
  have g := remove_block_erases_node.2 heap1 index1 4248 32
    heap1_well_formed.linked.index (by decide) (by decide) (by decide)
  ⟨h.2.1, h.2.2.1, g.1, g.2 6 (by decide)⟩

theorem tag_true (sz : Nat) : tag sz true = PACK sz 1 := rfl

theorem pack_one_size (sz : Nat) (hs : sz % 8 = 0) (hlt : sz < SIZE_MOD) :
    PACK sz 1 &&& (SIZE_MOD - 1 - (WSIZE - 1)) = sz := by
  rw [← tag_true]; exact tag_size sz true hs hlt

/-- A size read from a header is below `2 ^ 64`. -/
theorem GET_SIZE_lt (s : State) (p : Nat) : GET_SIZE s p < SIZE_MOD := by
  have : GET_SIZE s p ≤ SIZE_MOD - 1 - (WSIZE - 1) := Nat.and_le_right
  have e : SIZE_MOD - 1 - (WSIZE - 1) < SIZE_MOD := by decide
  omega

/-- Words that `insert_block` leaves alone in a well-formed index: all but the
bucket slot, the `prev` field of the old head and the two link words of the new
node. -/
theorem Index.link_frame {s : State} {L : Nat → List Nat} (h : Index s L) (x n w : Nat)
    (h1 : w ≠ s.heap_listp + calc_size (n % UINT_MOD) * 8)
    (h2 : ∀ u, (L (calc_size (n % UINT_MOD))).head? = some u → w ≠ u + 8)
    (h3 : w ≠ x + 8) (h4 : w ≠ x) : (insert_block s x n).mem w = s.mem w := by
  have hd := h.links (calc_size (n % UINT_MOD)) (calc_size_lt _)
  rw [insert_block_mem, if_neg h1, if_neg, if_neg h3, if_neg h4]
  rintro ⟨e1, e2⟩
  cases hL : L (calc_size (n % UINT_MOD)) with
  | nil => rw [hL] at hd; exact e1 hd
  | cons y ys =>
    rw [hL] at hd
    exact h2 y (by rw [hL]; rfl) (by rw [e2, hd.1])

/-- The branch of `place` that splits the block, as a sequence of stores. -/
theorem place_split (s : State) (bp asize B : Nat) (hB : GET_SIZE s (HDRP bp) = B)
    (ha8 : asize % 8 = 0) (hB8 : B % 8 = 0) (hle : asize + 32 ≤ B) :
    place s bp asize = insert_block (PUT (PUT (PUT (PUT s (bp - 8) (PACK asize 1))
      (bp + asize - 16) (PACK asize 1)) (bp + asize - 8) (PACK (B - asize) 0))
      (bp + B - 16) (PACK (B - asize) 0)) (bp + asize) (B - asize) := by
  have hBlt : B < SIZE_MOD := hB ▸ GET_SIZE_lt s _
  have hrest : (B + SIZE_MOD - asize) % SIZE_MOD = B - asize := by
    unfold SIZE_MOD at *
    omega
  have e1 : PACK asize 1 &&& (SIZE_MOD - 1 - (WSIZE - 1)) = asize :=
    pack_one_size asize ha8 (by omega)
  have e2 : PACK (B - asize) 0 &&& (SIZE_MOD - 1 - (WSIZE - 1)) = B - asize :=
    pack_zero_size (B - asize) (by omega) (by omega)
  simp only [HDRP, WSIZE] at hB
  have hcond : (B + SIZE_MOD - asize) % SIZE_MOD ≥ 2 * DSIZE := by
    rw [hrest]; simp only [DSIZE, WSIZE]; omega
  simp only [place, HDRP, WSIZE, hB, if_pos hcond, hrest]
  have f1 : FTRP (PUT s (bp - 8) (PACK asize 1)) bp = bp + asize - 16 := by
    simp only [FTRP, HDRP, GET_SIZE, GET, PUT_mem, WSIZE, DSIZE, if_true]
    rw [show (8 : Nat) - 1 = WSIZE - 1 from rfl, e1]
  rw [f1]
  have f2 : NEXT_BLKP (PUT (PUT s (bp - 8) (PACK asize 1)) (bp + asize - 16) (PACK asize 1)) bp =
      bp + asize := by
    simp only [NEXT_BLKP, GET_SIZE, GET, PUT_mem, WSIZE, if_true]
    rw [show (8 : Nat) - 1 = WSIZE - 1 from rfl]
    split_ifs <;> rw [e1]
  rw [f2]
  have f3 : FTRP (PUT (PUT (PUT s (bp - 8) (PACK asize 1)) (bp + asize - 16) (PACK asize 1))
      (bp + asize - 8) (PACK (B - asize) 0)) (bp + asize) = bp + B - 16 := by
    simp only [FTRP, HDRP, GET_SIZE, GET, PUT_mem, WSIZE, DSIZE, if_true]
    rw [show (8 : Nat) - 1 = WSIZE - 1 from rfl, e2]
    omega
  rw [f3, if_pos (show B - asize ≥ 2 * DSIZE by simp only [DSIZE, WSIZE]; omega)]

/-- The branch of `place` that takes the whole block, as a sequence of stores. -/
theorem place_whole (s : State) (bp asize B : Nat) (hB : GET_SIZE s (HDRP bp) = B)
    (hB8 : B % 8 = 0) (hle : asize ≤ B) (hlt : B < asize + 32) :
    place s bp asize = PUT (PUT s (bp - 8) (PACK B 1)) (bp + B - 16) (PACK B 1) := by
  have hBlt : B < SIZE_MOD := hB ▸ GET_SIZE_lt s _
  have hrest : (B + SIZE_MOD - asize) % SIZE_MOD = B - asize := by
    unfold SIZE_MOD at *
    omega
  have e1 : PACK B 1 &&& (SIZE_MOD - 1 - (WSIZE - 1)) = B := pack_one_size B hB8 hBlt
  simp only [HDRP, WSIZE] at hB
  have hcond : ¬ (B + SIZE_MOD - asize) % SIZE_MOD ≥ 2 * DSIZE := by
    rw [hrest]; simp only [DSIZE, WSIZE]; omega
  simp only [place, HDRP, WSIZE, hB, if_neg hcond]
  have f1 : FTRP (PUT s (bp - 8) (PACK B 1)) bp = bp + B - 16 := by
    simp only [FTRP, HDRP, GET_SIZE, GET, PUT_mem, WSIZE, DSIZE, if_true]
    rw [show (8 : Nat) - 1 = WSIZE - 1 from rfl, e1]
  rw [f1]

/-- C15 (amended): `place(bp, asize)` on a block `bp` of size `B` whose words hold
no slot and no link word of a node of the well-formed index `L`, for
`0 < asize ≤ B`, both multiples of the word size.  If `B - asize` is at least
four words, the block at `bp` gets header and footer `PACK(asize, 1)`, the block
at `bp + asize` gets header and footer `PACK(B - asize, 0)` and becomes the head
of the bucket `calc_size` gives for `B - asize` as an `unsigned int`, the two
sizes add up to `B`, and outside the block only the slot of that bucket and the
`prev` field of its old head change.  Otherwise the block gets header and footer
`PACK(B, 1)`, every bucket list reads as before and no word outside the block
changes. -/
theorem place_splits_or_takes_all (s : State) (L : Nat → List Nat) (bp asize B : Nat)
    (h : Index s L) (hB : GET_SIZE s (HDRP bp) = B)
    (hpos : 0 < asize) (hle : asize ≤ B) (ha : asize % WSIZE = 0) (hb : B % WSIZE = 0)
    (hlo : s.heap_listp + 16 * WSIZE ≤ bp) (hhi : bp + B ≤ s.brk)
    (hfar : ∀ k, k < 15 → ∀ u ∈ L k, u + 3 * WSIZE ≤ bp ∨ bp + B ≤ u) :
    (4 * WSIZE ≤ B - asize →
      GET (place s bp asize) (HDRP bp) = PACK asize 1 ∧
      GET (place s bp asize) (FTRP (place s bp asize) bp) = PACK asize 1 ∧
      NEXT_BLKP (place s bp asize) bp = bp + asize ∧
      GET (place s bp asize) (HDRP (bp + asize)) = PACK (B - asize) 0 ∧
      GET (place s bp asize) (FTRP (place s bp asize) (bp + asize)) = PACK (B - asize) 0 ∧
      GET_SIZE (place s bp asize) (HDRP bp) +
        GET_SIZE (place s bp asize) (HDRP (bp + asize)) = B ∧
      Index (place s bp asize) (fun k =>
        if k = calc_size ((B - asize) % UINT_MOD) then (bp + asize) :: L k else L k) ∧
      bucket (place s bp asize) (calc_size ((B - asize) % UINT_MOD)) =
        some ((bp + asize) :: L (calc_size ((B - asize) % UINT_MOD))) ∧
      ∀ w, (w < HDRP bp ∨ bp + B - DSIZE < w) →
        w ≠ s.heap_listp + calc_size ((B - asize) % UINT_MOD) * WSIZE →
        (∀ u, (L (calc_size ((B - asize) % UINT_MOD))).head? = some u → w ≠ u + WSIZE) →
        GET (place s bp asize) w = GET s w) ∧
    (B - asize < 4 * WSIZE →
      GET (place s bp asize) (HDRP bp) = PACK B 1 ∧
      GET (place s bp asize) (FTRP (place s bp asize) bp) = PACK B 1 ∧
      GET_SIZE (place s bp asize) (HDRP bp) = B ∧
      Index (place s bp asize) L ∧
      (∀ k, k < 15 → bucket (place s bp asize) k = bucket s k) ∧
      ∀ w, (w < HDRP bp ∨ bp + B - DSIZE < w) → GET (place s bp asize) w = GET s w) := by
  have hBlt : B < SIZE_MOD := hB ▸ GET_SIZE_lt s _
  have hl := h.low
  simp only [WSIZE, DSIZE, HDRP] at hB ha hb hlo hfar ⊢
  have hBh : GET_SIZE s (HDRP bp) = B := hB
  constructor
  · intro hsplit
    have hk0 := calc_size_lt ((B - asize) % UINT_MOD)
    rw [place_split s bp asize B hBh ha hb (by omega)]
    have hs4 : ∀ w, (PUT (PUT (PUT (PUT s (bp - 8) (PACK asize 1)) (bp + asize - 16)
        (PACK asize 1)) (bp + asize - 8) (PACK (B - asize) 0)) (bp + B - 16)
        (PACK (B - asize) 0)).mem w =
        if w = bp + B - 16 then PACK (B - asize) 0
        else if w = bp + asize - 8 then PACK (B - asize) 0
        else if w = bp + asize - 16 then PACK asize 1
        else if w = bp - 8 then PACK asize 1
        else s.mem w := fun w => by simp only [PUT_mem]
    generalize hs4d : PUT (PUT (PUT (PUT s (bp - 8) (PACK asize 1)) (bp + asize - 16)
        (PACK asize 1)) (bp + asize - 8) (PACK (B - asize) 0)) (bp + B - 16)
        (PACK (B - asize) 0) = s4 at hs4
    have hbrk4 : s4.brk = s.brk := by rw [← hs4d]; rfl
    have hhl4 : s4.heap_listp = s.heap_listp := by rw [← hs4d]; rfl
    have keep4 : ∀ w, (w < bp - 8 ∨ bp + B - 16 < w) → s4.mem w = s.mem w := by
      intro w hw
      rw [hs4, if_neg (by omega), if_neg (by omega), if_neg (by omega), if_neg (by omega)]
    have hI4 : Index s4 L := by
      apply h.congr_store (by omega) hhl4
      · intro k hk
        exact keep4 _ (by omega)
      · intro k hk u hu
        have := hfar k hk u hu
        exact ⟨keep4 _ (by omega), keep4 _ (by omega)⟩
    have hfar4 : ∀ k, k < 15 → ∀ u ∈ L k, bp + asize + 16 ≤ u ∨ u + 16 ≤ bp + asize := by
      intro k hk u hu
      have := hfar k hk u hu
      omega
    have hIns := hI4.link_head (x := bp + asize) (by omega) (by omega) hfar4 (B - asize)
    have hhead : ∀ u, (L (calc_size ((B - asize) % UINT_MOD))).head? = some u →
        u + 24 ≤ bp ∨ bp + B ≤ u := by
      intro u hu
      exact hfar _ hk0 u (List.mem_of_mem_head? hu)
    have rd : ∀ w, bp - 8 ≤ w → w ≤ bp + B - 16 → w ≠ bp + asize → w ≠ bp + asize + 8 →
        (insert_block s4 (bp + asize) (B - asize)).mem w = s4.mem w := by
      intro w h1 h2 h3 h4
      apply hI4.link_frame
      · rw [hhl4]; omega
      · intro u hu
        have := hhead u hu
        omega
      · exact h4
      · exact h3
    have g1 : (insert_block s4 (bp + asize) (B - asize)).mem (bp - 8) = PACK asize 1 := by
      rw [rd _ (by omega) (by omega) (by omega) (by omega), hs4, if_neg (by omega),
        if_neg (by omega)]
      by_cases e : bp - 8 = bp + asize - 16
      · rw [if_pos e]
      · rw [if_neg e, if_pos rfl]
    have g2 : (insert_block s4 (bp + asize) (B - asize)).mem (bp + asize - 16) =
        PACK asize 1 := by
      rw [rd _ (by omega) (by omega) (by omega) (by omega), hs4, if_neg (by omega),
        if_neg (by omega), if_pos rfl]
    have g3 : (insert_block s4 (bp + asize) (B - asize)).mem (bp + asize - 8) =
        PACK (B - asize) 0 := by
      rw [rd _ (by omega) (by omega) (by omega) (by omega), hs4, if_neg (by omega), if_pos rfl]
    have g4 : (insert_block s4 (bp + asize) (B - asize)).mem (bp + B - 16) =
        PACK (B - asize) 0 := by
      rw [rd _ (by omega) (by omega) (by omega) (by omega), hs4, if_pos rfl]
    have z1 : GET_SIZE (insert_block s4 (bp + asize) (B - asize)) (bp - 8) = asize := by
      simp only [GET_SIZE, GET, g1]
      exact pack_one_size asize ha (by omega)
    have z2 : GET_SIZE (insert_block s4 (bp + asize) (B - asize)) (bp + asize - 8) =
        B - asize := by
      simp only [GET_SIZE, GET, g3]
      exact pack_zero_size (B - asize) (by omega) (by omega)
    refine ⟨g1, ?_, ?_, g3, ?_, ?_, hIns, by simpa using hIns.bucket_walk hk0, ?_⟩
    · simp only [FTRP, HDRP, WSIZE, DSIZE, z1, GET]
      exact g2
    · simp only [NEXT_BLKP, WSIZE, z1]
    · simp only [FTRP, HDRP, WSIZE, DSIZE, z2, GET]
      rw [show bp + asize + (B - asize) - 2 * 8 = bp + B - 16 by omega]
      exact g4
    · rw [z1, z2]; omega
    · intro w hw h1 h2
      simp only [GET]
      rw [hI4.link_frame _ _ _ (by rw [hhl4]; exact h1) h2 (by omega) (by omega)]
      exact keep4 w (by omega)
  · intro hwhole
    rw [place_whole s bp asize B hBh hb hle (by omega)]
    have hs2 : ∀ w, (PUT (PUT s (bp - 8) (PACK B 1)) (bp + B - 16) (PACK B 1)).mem w =
        if w = bp + B - 16 then PACK B 1 else if w = bp - 8 then PACK B 1 else s.mem w :=
      fun w => by simp only [PUT_mem]
    generalize hs2d : PUT (PUT s (bp - 8) (PACK B 1)) (bp + B - 16) (PACK B 1) = s2 at hs2
    have hbrk2 : s2.brk = s.brk := by rw [← hs2d]; rfl
    have hhl2 : s2.heap_listp = s.heap_listp := by rw [← hs2d]; rfl
    have keep2 : ∀ w, (w < bp - 8 ∨ bp + B - 16 < w) → s2.mem w = s.mem w := by
      intro w hw
      rw [hs2, if_neg (by omega), if_neg (by omega)]
    have hI2 : Index s2 L := by
      apply h.congr_store (by omega) hhl2
      · intro k hk
        exact keep2 _ (by omega)
      · intro k hk u hu
        have := hfar k hk u hu
        exact ⟨keep2 _ (by omega), keep2 _ (by omega)⟩
    have g1 : s2.mem (bp - 8) = PACK B 1 := by
      rw [hs2]
      by_cases e : bp - 8 = bp + B - 16
      · rw [if_pos e]
      · rw [if_neg e, if_pos rfl]
    have z1 : GET_SIZE s2 (bp - 8) = B := by
      simp only [GET_SIZE, GET, g1]
      exact pack_one_size B hb hBlt
    refine ⟨g1, ?_, z1, hI2, fun k hk => by rw [hI2.bucket_walk hk, h.bucket_walk hk], ?_⟩
    · simp only [FTRP, HDRP, WSIZE, DSIZE, z1, GET]
      rw [hs2, if_pos rfl]
    · intro w hw
      exact keep2 w (by omega)

theorem heap0_unlinked_index : Index heap0_unlinked (fun _ => []) :=
  ⟨by decide, by decide, by decide, disjoint_of _ (by decide), by decide, by decide⟩

/-- C15 at the heap after `mm_init` with its free block of 144 bytes unlinked:
`place(4248, 32)` splits it into an allocated block of 32 bytes and a free block
of 112 bytes at `4280`, the head of bucket 6; `place(4248, 120)` takes the whole
block, since the remainder of 24 bytes is below four words. -/
theorem place_splits_or_takes_all_witness :
    (GET (place heap0_unlinked 4248 32) (HDRP 4248) = PACK 32 1 ∧
      GET (place heap0_unlinked 4248 32) (HDRP (4248 + 32)) = PACK (144 - 32) 0 ∧
      bucket (place heap0_unlinked 4248 32) (calc_size ((144 - 32) % UINT_MOD)) =
        some [4248 + 32]) ∧
    (GET (place heap0_unlinked 4248 120) (HDRP 4248) = PACK 144 1 ∧
      ∀ k, k < 15 → bucket (place heap0_unlinked 4248 120) k = bucket heap0_unlinked k) :=
  have h1 := (place_splits_or_takes_all heap0_unlinked (fun _ => []) 4248 32 144
    heap0_unlinked_index (by decide) (by decide) (by decide) (by decide) (by decide)
    (by decide) (by decide) (by decide)).1 (by decide)
  have h2 := (place_splits_or_takes_all heap0_unlinked (fun _ => []) 4248 120 144
    heap0_unlinked_index (by decide) (by decide) (by decide) (by decide) (by decide)
    (by decide) (by decide) (by decide)).2 (by decide)
  ⟨⟨h1.1, h1.2.2.2.1, h1.2.2.2.2.2.2.2.1⟩, ⟨h2.1, h2.2.2.2.2.1⟩⟩

/-- C15, as first stated, fails for `asize = 0` and for a remainder of `2 ^ 32`
bytes.  On the unlinked free block `4248` of 144 bytes, `place(4248, 0)` stores
`PACK(0, 1)` in the prologue footer at `4232`, a word below the block's header,
and leaves the block marked free with header `PACK(144, 0)`.  On the unlinked
block `4392` of `2 ^ 32 + 32` bytes, `place(4392, 32)` links the remainder of
`2 ^ 32` bytes at the head of bucket 0, not of bucket `calc_size(2 ^ 32) = 14`. -/
theorem place_zero_size_or_huge_remainder :
    (GET_SIZE heap0_unlinked (HDRP 4248) = 144 ∧ 0 ≤ 144 ∧ 0 % WSIZE = 0 ∧ 4 * WSIZE ≤ 144 - 0 ∧
      (∀ k, k < 15 → bucket heap0_unlinked k = some []) ∧
      GET heap0_unlinked 4232 = PACK 136 1 ∧ 4232 < HDRP 4248 ∧
      GET (place heap0_unlinked 4248 0) 4232 = PACK 0 1 ∧
      GET (place heap0_unlinked 4248 0) (HDRP 4248) = PACK 144 0) ∧
    (GET_SIZE heap_huge_unlinked (HDRP 4392) = UINT_MOD + 32 ∧ 32 ≤ UINT_MOD + 32 ∧
      (∀ k, k < 15 → bucket heap_huge_unlinked k = some (if k = 6 then [4248] else [])) ∧
      GET (place heap_huge_unlinked 4392 32) (HDRP (4392 + 32)) = PACK UINT_MOD 0 ∧
      calc_size UINT_MOD = 14 ∧
      bucket (place heap_huge_unlinked 4392 32) 14 = some [] ∧
      bucket (place heap_huge_unlinked 4392 32) 0 = some [4392 + 32]) := by
  decide

/-- A successful `extend_heap`, as a sequence of stores. -/
theorem extend_heap_eq (s : State) (words : Nat) (h : s.brk + words * 8 % SIZE_MOD ≤ s.cap) :
    extend_heap s words = (s.brk, insert_block (PUT (PUT (PUT
      { s with brk := s.brk + words * 8 % SIZE_MOD } (s.brk - 8) (PACK (words * 8 % SIZE_MOD) 0))
      (s.brk + words * 8 % SIZE_MOD - 16) (PACK (words * 8 % SIZE_MOD) 0))
      (s.brk + words * 8 % SIZE_MOD - 8) (PACK 0 1)) s.brk (words * 8 % SIZE_MOD)) := by
  have h8 : (words * 8 % SIZE_MOD) % 8 = 0 := by unfold SIZE_MOD; omega
  have hlt : words * 8 % SIZE_MOD < SIZE_MOD := Nat.mod_lt _ (by decide)
  simp only [extend_heap, mem_sbrk, WSIZE, if_pos h]
  generalize words * 8 % SIZE_MOD = size at *
  have e1 : PACK size 0 &&& (SIZE_MOD - 1 - (WSIZE - 1)) = size := pack_zero_size size h8 hlt
  have f1 : FTRP (PUT { s with brk := s.brk + size } (HDRP s.brk) (PACK size 0)) s.brk =
      s.brk + size - 16 := by
    simp only [FTRP, HDRP, GET_SIZE, GET, PUT_mem, WSIZE, DSIZE, if_true]
    rw [show (8 : Nat) - 1 = WSIZE - 1 from rfl, e1]
  have f2 : NEXT_BLKP (PUT (PUT { s with brk := s.brk + size } (HDRP s.brk) (PACK size 0))
      (s.brk + size - 16) (PACK size 0)) s.brk = s.brk + size := by
    simp only [NEXT_BLKP, HDRP, GET_SIZE, GET, PUT_mem, WSIZE, if_true]
    rw [show (8 : Nat) - 1 = WSIZE - 1 from rfl]
    split_ifs <;> rw [e1]
  rw [f1, f2]
  simp only [HDRP, WSIZE]

/-- A chain of `n` blocks spans at least `32 * n` bytes. -/
theorem Chain.length_le {m : Nat → Nat} {bs : List Blk} : ∀ {a e : Nat}, Chain m a bs e →
    a + 32 * bs.length ≤ e := by
  induction bs with
  | nil => intro a e h; simp only [Chain] at h; simp; omega
  | cons b bs ih =>
    intro a e h
    obtain ⟨_, h2, _, _, _, h6⟩ := h
    have := ih h6
    simp only [List.length_cons]
    omega

/-- Walking a chain that ends at a header of size `0` visits its blocks. -/
theorem Chain.walk {s : State} {e : Nat} {bs : List Blk} : ∀ {a fuel : Nat},
    Chain s.mem a bs e → e < SIZE_MOD → GET_SIZE s (e - 8) = 0 → bs.length < fuel →
    chain_from s fuel a = some (bs.map fun b => b.bp) := by
  induction bs with
  | nil =>
    intro a fuel h _ he hf
    simp only [Chain] at h
    subst h
    cases fuel with
    | zero => simp at hf
    | succ f => simp [chain_from, HDRP, WSIZE, he]
  | cons b bs ih =>
    intro a fuel h hlt he hf
    obtain ⟨h1, h2, h3, h4, _, h6⟩ := h
    have hle := Chain.le h6
    cases fuel with
    | zero => simp at hf
    | succ f =>
      have hsz : GET_SIZE s (a - 8) = b.sz := by
        simp only [GET_SIZE, GET, h4]
        exact tag_size _ _ h3 (by omega)
      have := ih h6 hlt he (by simpa using hf)
      simp only [chain_from, HDRP, WSIZE, hsz, NEXT_BLKP, this, List.map_cons, h1]
      rw [if_neg (by omega)]
      rfl

/-- In a linked heap the walk of the physical chain visits the blocks of the
chain and ends at the epilogue header, the last word below the break. -/
theorem Linked.chain_walk {s : State} {bs : List Blk} {L : Nat → List Nat} (h : Linked s bs L) :
    MM.chain s = some (bs.map fun b => b.bp) := by
  have := Chain.length_le h.chain
  show chain_from s (s.brk + 1) s.heap_listp = _
  exact Chain.walk h.chain h.high h.epi_size (by omega)

/-- Extending a linked heap: the new region becomes one free block at the old
break, linked at the head of the bucket of its size; the store below the old
epilogue changes only in that bucket's slot and in the `prev` field of the
bucket's old head. -/
theorem Linked.extend {s : State} {bs : List Blk} {L : Nat → List Nat} (h : Linked s bs L)
    (words : Nat) (hfit : s.brk + words * 8 % SIZE_MOD ≤ s.cap)
    (hhi : s.brk + words * 8 % SIZE_MOD < SIZE_MOD) (h32 : 32 ≤ words * 8 % SIZE_MOD) :
    (extend_heap s words).1 = s.brk ∧
    (extend_heap s words).2.brk = s.brk + words * 8 % SIZE_MOD ∧
    (extend_heap s words).2.cap = s.cap ∧
    Linked (extend_heap s words).2 (bs ++ [⟨s.brk, words * 8 % SIZE_MOD, false⟩])
      (fun k => if k = calc_size (words * 8 % SIZE_MOD % UINT_MOD) then s.brk :: L k else L k) ∧
    ∀ w, w + 8 < s.brk → w ≠ s.heap_listp + calc_size (words * 8 % SIZE_MOD % UINT_MOD) * 8 →
      (∀ u, (L (calc_size (words * 8 % SIZE_MOD % UINT_MOD))).head? = some u → w ≠ u + 8) →
      (extend_heap s words).2.mem w = s.mem w := by
  have h8 : (words * 8 % SIZE_MOD) % 8 = 0 := by unfold SIZE_MOD; omega
  rw [extend_heap_eq s words hfit]
  generalize words * 8 % SIZE_MOD = size at *
  have hl := h.low
  have hba := h.brk_above
  have hs3 : ∀ w, (PUT (PUT (PUT { s with brk := s.brk + size } (s.brk - 8) (PACK size 0))
      (s.brk + size - 16) (PACK size 0)) (s.brk + size - 8) (PACK 0 1)).mem w =
      if w = s.brk + size - 8 then PACK 0 1
      else if w = s.brk + size - 16 then PACK size 0
      else if w = s.brk - 8 then PACK size 0
      else s.mem w := fun w => by simp only [PUT_mem]
  generalize hs3d : PUT (PUT (PUT { s with brk := s.brk + size } (s.brk - 8) (PACK size 0))
      (s.brk + size - 16) (PACK size 0)) (s.brk + size - 8) (PACK 0 1) = s3 at hs3
  have hbrk3 : s3.brk = s.brk + size := by rw [← hs3d]; rfl
  have hhl3 : s3.heap_listp = s.heap_listp := by rw [← hs3d]; rfl
  have hcap3 : s3.cap = s.cap := by rw [← hs3d]; rfl
  have keep3 : ∀ w, w + 8 < s.brk → s3.mem w = s.mem w := by
    intro w hw
    rw [hs3, if_neg (by omega), if_neg (by omega), if_neg (by omega)]
  have hL3 : Linked s3 (bs ++ [⟨s.brk, size, false⟩]) L := by
    refine ⟨by omega, by omega, ?_, ?_, ?_, ?_, h.nodup, h.disjoint, ?_⟩
    · have := h.prologue
      cases bs with
      | nil => simp at this
      | cons p rest => simpa [hhl3] using this
    · rw [hhl3, hbrk3]
      apply Chain.append.2
      refine ⟨s.brk, Chain.congr_range (fun x _ hx => keep3 x hx) h.chain, ?_⟩
      refine ⟨rfl, h32, h8, ?_, ?_, rfl⟩
      · show s3.mem (s.brk - 8) = tag size false
        rw [hs3, if_neg (by omega), if_neg (by omega), if_pos rfl]
        rfl
      · show s3.mem (s.brk + size - 16) = tag size false
        rw [hs3, if_neg (by omega), if_pos rfl]
        rfl
    · rw [hbrk3, hs3, if_pos rfl]
    · intro k hk
      rw [hhl3]
      apply DLL.congr_links _ _ (h.links k hk)
      · exact keep3 _ (by omega)
      · intro x hx
        obtain ⟨b, _, _, _, e3, e4, e5⟩ := h.node hk hx
        exact ⟨keep3 _ (by omega), keep3 _ (by omega)⟩
    · intro k hk x hx
      obtain ⟨b, hb, e1, e2⟩ := h.listed k hk x hx
      exact ⟨b, by simp [hb], e1, e2⟩
  have hnl : ∀ k, k < 15 → (⟨s.brk, size, false⟩ : Blk).bp ∉ L k := by
    intro k hk hx
    obtain ⟨b, _, _, _, e3, e4, e5⟩ := h.node hk hx
    simp only at e5
    omega
  have hIns := hL3.insert (b := ⟨s.brk, size, false⟩) (by simp) rfl hnl size
  refine ⟨rfl, ?_, ?_, hIns, ?_⟩
  · simp only [insert_block_brk, hbrk3]
  · simp only [insert_block_cap, hcap3]
  · intro w hw h1 h2
    show (insert_block s3 s.brk size).mem w = s.mem w
    rw [hL3.index.link_frame _ _ _ (by rw [hhl3]; exact h1) h2 (by omega) (by omega)]
    exact keep3 w hw

/-- The store after the first half of `mm_init` is the result of 19 stores at
explicit addresses. -/
theorem init_layout_stores (s : State) :
    (init_layout s).mem = (PUT (PUT (PUT (PUT (PUT (PUT (PUT (PUT (PUT (PUT (PUT (PUT (PUT (PUT (PUT (PUT (PUT (PUT (PUT ({ s with brk := s.brk + 152, heap_listp := s.brk } : State) s.brk 0) (s.brk + 8) (PACK 136 1))
      (s.brk + 16) 0)
      (s.brk + 24) 0)
      (s.brk + 32) 0)
      (s.brk + 40) 0)
      (s.brk + 48) 0)
      (s.brk + 56) 0)
      (s.brk + 64) 0)
      (s.brk + 72) 0)
      (s.brk + 80) 0)
      (s.brk + 88) 0)
      (s.brk + 96) 0)
      (s.brk + 104) 0)
      (s.brk + 112) 0)
      (s.brk + 120) 0)
      (s.brk + 128) 0)
      (s.brk + 136) (PACK 136 1))
      (s.brk + 144) (PACK 0 1)).mem := rfl

/-- When the request for 19 words is granted, `mm_init` lays out the prologue
and calls `extend_heap`. -/
theorem mm_init_eq (s : State) (h1 : s.brk + 152 ≤ s.cap) :
    mm_init s = (match extend_heap (init_layout s) (CHUNKSIZE / WSIZE) with
      | (0, s8) => (-1, s8)
      | (_, s8) => (0, s8)) := by
  simp only [mm_init, mem_sbrk, WSIZE, if_pos h1]
  rfl

/-- The store after the first half of `mm_init`. -/
theorem init_layout_mem (s : State) (w : Nat) :
    (init_layout s).mem w =
      if w = s.brk + 144 then PACK 0 1
      else if w = s.brk + 136 then PACK 136 1
      else if s.brk + 16 ≤ w ∧ w < s.brk + 136 ∧ (w - s.brk) % 8 = 0 then 0
      else if w = s.brk + 8 then PACK 136 1
      else if w = s.brk then 0
      else s.mem w := by
  rw [init_layout_stores]
  simp only [PUT_mem]
  by_cases h1 : w = s.brk + 144
  · simp only [if_pos h1]
  by_cases h2 : w = s.brk + 136
  · simp only [if_neg h1, if_pos h2]
  simp only [if_neg h1, if_neg h2]
  by_cases hr : s.brk + 16 ≤ w ∧ w < s.brk + 136 ∧ (w - s.brk) % 8 = 0
  · rw [if_pos hr]
    have hw : w = s.brk + 16 ∨ w = s.brk + 24 ∨ w = s.brk + 32 ∨ w = s.brk + 40 ∨ w = s.brk + 48 ∨
        w = s.brk + 56 ∨ w = s.brk + 64 ∨ w = s.brk + 72 ∨ w = s.brk + 80 ∨ w = s.brk + 88 ∨
        w = s.brk + 96 ∨ w = s.brk + 104 ∨ w = s.brk + 112 ∨ w = s.brk + 120 ∨ w = s.brk + 128 := by
      omega
    rcases hw with e | e | e | e | e | e | e | e | e | e | e | e | e | e | e <;>
      · subst e
        simp
  · rw [if_neg hr]
    simp only [if_neg (show ¬ w = s.brk + 16 by omega), if_neg (show ¬ w = s.brk + 24 by omega),
      if_neg (show ¬ w = s.brk + 32 by omega), if_neg (show ¬ w = s.brk + 40 by omega),
      if_neg (show ¬ w = s.brk + 48 by omega), if_neg (show ¬ w = s.brk + 56 by omega),
      if_neg (show ¬ w = s.brk + 64 by omega), if_neg (show ¬ w = s.brk + 72 by omega),
      if_neg (show ¬ w = s.brk + 80 by omega), if_neg (show ¬ w = s.brk + 88 by omega),
      if_neg (show ¬ w = s.brk + 96 by omega), if_neg (show ¬ w = s.brk + 104 by omega),
      if_neg (show ¬ w = s.brk + 112 by omega), if_neg (show ¬ w = s.brk + 120 by omega),
      if_neg (show ¬ w = s.brk + 128 by omega)]

/-- After the first half of `mm_init` the heap is linked: it holds the prologue
block, 15 empty bucket lists and the epilogue header. -/
theorem init_layout_linked (s : State) (h2 : s.brk + 152 < SIZE_MOD) :
    Linked (init_layout s) [⟨s.brk + 16, 136, true⟩] (fun _ => []) := by
  have hhl : (init_layout s).heap_listp = s.brk + 16 := rfl
  have hbrk : (init_layout s).brk = s.brk + 152 := rfl
  refine ⟨?_, ?_, ?_, ?_, ?_, ?_, ?_, ?_, ?_⟩
  · rw [hhl]; omega
  · rw [hbrk]; exact h2
  · rw [hhl]; rfl
  · rw [hhl, hbrk]
    refine ⟨rfl, by simp, by simp, ?_, ?_, rfl⟩
    · show (init_layout s).mem (s.brk + 16 - 8) = tag 136 true
      rw [init_layout_mem, if_neg (by omega), if_neg (by omega), if_neg (by omega),
        if_pos (by omega)]
      rfl
    · show (init_layout s).mem (s.brk + 16 + 136 - 16) = tag 136 true
      rw [init_layout_mem, if_neg (by omega), if_pos (by omega)]
      rfl
  · rw [hbrk, init_layout_mem, if_pos (by omega)]
  · intro k hk
    show (init_layout s).mem ((init_layout s).heap_listp + k * 8) = 0
    rw [hhl, init_layout_mem, if_neg (by omega), if_neg (by omega), if_pos (by omega)]
  · intro k _; exact List.nodup_nil
  · intro j _ k _ _ x hx; simp at hx
  · intro k _ x hx; simp at hx

/-- A successful `mm_init`: the result is `0`, the break has moved by 19 words
plus `CHUNKSIZE`, the padding word is `0`, and the heap is well formed with the
prologue and one free block of `CHUNKSIZE` bytes, the only node of bucket 6. -/
theorem mm_init_heap (s : State) (hfit : s.brk + 296 ≤ s.cap) (hhi : s.brk + 296 < SIZE_MOD) :
    (mm_init s).1 = 0 ∧ (mm_init s).2.brk = s.brk + 296 ∧ (mm_init s).2.cap = s.cap ∧
    (mm_init s).2.heap_listp = s.brk + 16 ∧ (mm_init s).2.mem s.brk = 0 ∧
    Heap (mm_init s).2 [⟨s.brk + 16, 136, true⟩, ⟨s.brk + 152, 144, false⟩]
      (fun k => if k = 6 then [s.brk + 152] else []) := by
  have hL := init_layout_linked s (by omega)
  have hbrk : (init_layout s).brk = s.brk + 152 := rfl
  have hcap : (init_layout s).cap = s.cap := rfl
  have hhl : (init_layout s).heap_listp = s.brk + 16 := rfl
  have e18 : CHUNKSIZE / WSIZE = 18 := by decide
  have e144 : 18 * 8 % SIZE_MOD = 144 := by decide
  have e6 : calc_size (144 % UINT_MOD) = 6 := by decide
  obtain ⟨x1, x2, x3, x4, x5⟩ := hL.extend 18 (by rw [e144, hbrk, hcap]; omega)
    (by rw [e144, hbrk]; omega) (by rw [e144]; omega)
  simp only [e144, hbrk, hcap, hhl, e6, List.singleton_append] at x1 x2 x3 x4 x5
  rcases hx : extend_heap (init_layout s) 18 with ⟨bp, s8⟩
  rw [hx] at x1 x2 x3 x4 x5
  simp only at x1 x2 x3 x4 x5
  subst x1
  have hm : mm_init s = (0, s8) := by
    rw [mm_init_eq s (by omega), e18, hx]
    rfl
  rw [hm]
  have hhl8 : s8.heap_listp = s.brk + 16 := by
    have := congrArg (fun r => r.2.heap_listp) hx
    simp only at this
    rw [← this, extend_heap_eq _ _ (by rw [e144, hbrk, hcap]; omega)]
    simp only [insert_block_heap_listp, PUT_heap_listp]
    rfl
  have hmem : s8.mem s.brk = 0 := by
    rw [x5 s.brk (by omega) (by omega) (by intro u hu; simp at hu), init_layout_mem,
      if_neg (by omega), if_neg (by omega), if_neg (by omega), if_neg (by omega), if_pos rfl]
  refine ⟨rfl, by show s8.brk = _; omega, x3, hhl8, hmem, ?_, ?_⟩
  · exact x4
  · intro b hb hal
    simp only [List.mem_cons, List.mem_singleton, List.not_mem_nil, or_false] at hb
    rcases hb with e | e
    · subst e; simp at hal
    · subst e
      exact ⟨6, by omega, by simp⟩

/-- C11: `mm_init` returns `0` or `-1`, and `-1` exactly when the request for 19
words or the following request for `CHUNKSIZE` bytes is refused.  When it
returns `0` on a region that starts at `s.brk`: the word at `s.brk` is the
padding word `0`; `heap_listp` is `s.brk + 2 * WSIZE`; the prologue header at
`s.brk + WSIZE` and the prologue footer at `s.brk + 17 * WSIZE` both hold
`PACK(17 * WSIZE, 1)`, with the 15 bucket slots between them; the block chain
is the prologue followed by one block at `s.brk + 19 * WSIZE` whose header and
footer hold `PACK(CHUNKSIZE, 0)`; that block is the only node of bucket
`calc_size(CHUNKSIZE)` and the other 14 slots are `NULL`; the epilogue header
`PACK(0, 1)` follows the block and is the last word below the break; and the
heap is well formed (for this last part the limit of the growth primitive is
taken to be a 64-bit address). -/
theorem mm_init_layout (s : State) :
    ((mm_init s).1 = 0 ∨ (mm_init s).1 = -1) ∧
    ((mm_init s).1 = -1 ↔
      (mem_sbrk s (19 * WSIZE)).bind (fun r => mem_sbrk r.2 CHUNKSIZE) = none) ∧
    (∀ t, mm_init s = (0, t) → s.cap < SIZE_MOD →
      t.heap_listp = s.brk + 2 * WSIZE ∧ t.brk = s.brk + 19 * WSIZE + CHUNKSIZE ∧
      GET t s.brk = 0 ∧
      HDRP t.heap_listp = s.brk + WSIZE ∧ FTRP t t.heap_listp = s.brk + 17 * WSIZE ∧
      GET t (s.brk + WSIZE) = PACK (17 * WSIZE) 1 ∧
      GET t (s.brk + 17 * WSIZE) = PACK (17 * WSIZE) 1 ∧
      (∀ k, k < 15 → GET t (t.heap_listp + k * WSIZE) =
        if k = calc_size CHUNKSIZE then s.brk + 19 * WSIZE else 0) ∧
      (∀ k, k < 15 → bucket t k =
        some (if k = calc_size CHUNKSIZE then [s.brk + 19 * WSIZE] else [])) ∧
      chain t = some [t.heap_listp, s.brk + 19 * WSIZE] ∧
      GET t (HDRP (s.brk + 19 * WSIZE)) = PACK CHUNKSIZE 0 ∧
      GET t (FTRP t (s.brk + 19 * WSIZE)) = PACK CHUNKSIZE 0 ∧
      HDRP (NEXT_BLKP t (s.brk + 19 * WSIZE)) = t.brk - WSIZE ∧
      GET t (t.brk - WSIZE) = PACK 0 1 ∧
      Heap t [⟨s.brk + 16, 136, true⟩, ⟨s.brk + 152, 144, false⟩]
        (fun k => if k = 6 then [s.brk + 152] else [])) := by
  have e6 : calc_size CHUNKSIZE = 6 := by decide
  by_cases h1 : s.brk + 152 ≤ s.cap
  · by_cases h2 : s.brk + 296 ≤ s.cap
    · have r1 : (mm_init s).1 = 0 := by
        have e18 : CHUNKSIZE / WSIZE = 18 := by decide
        have hfit : (init_layout s).brk + 18 * 8 % SIZE_MOD ≤ (init_layout s).cap := by
          show s.brk + 19 * 8 + 18 * 8 % SIZE_MOD ≤ s.cap
          have : 18 * 8 % SIZE_MOD = 144 := by decide
          omega
        rw [mm_init_eq s h1, e18, extend_heap_eq _ _ hfit]
        rfl
      refine ⟨Or.inl r1, ?_, ?_⟩
      · rw [r1]
        simp only [mem_sbrk, WSIZE, CHUNKSIZE, if_pos h1, Option.some_bind]
        rw [if_pos (by show s.brk + 19 * 8 + 144 ≤ s.cap; omega)]
        simp
      · intro t ht hcap
        obtain ⟨_, r2, r3, r4, r5, r6⟩ := mm_init_heap s h2 (by omega)
        rw [ht] at r2 r3 r4 r5 r6
        simp only at r2 r3 r4 r5 r6
        have hl := r6.linked
        have hpro : (⟨s.brk + 16, 136, true⟩ : Blk) ∈
            [(⟨s.brk + 16, 136, true⟩ : Blk), ⟨s.brk + 152, 144, false⟩] := by simp
        have hblk : (⟨s.brk + 152, 144, false⟩ : Blk) ∈
            [(⟨s.brk + 16, 136, true⟩ : Blk), ⟨s.brk + 152, 144, false⟩] := by simp
        have p1 := hl.block hpro
        have b1 := hl.block hblk
        have pf := hl.ftrp hpro
        have bf := hl.ftrp hblk
        have bn := hl.next_blkp hblk
        have hch := hl.chain_walk
        have hep := hl.epilogue
        simp only [tag_true, tag_false] at p1 b1
        simp only [List.map_cons, List.map_nil] at hch
        rw [e6]
        simp only [WSIZE, DSIZE, CHUNKSIZE, HDRP, GET]
        rw [r2] at hep
        simp only at pf bf bn
        have a1 : s.brk + 16 - 8 = s.brk + 8 := by omega
        have a2 : s.brk + 16 + 136 - 16 = s.brk + 17 * 8 := by omega
        have a3 : s.brk + 152 - 8 = s.brk + 19 * 8 - 8 := by omega
        have a4 : s.brk + 152 + 144 - 16 = s.brk + 19 * 8 + 144 - 16 := by omega
        have a5 : s.brk + 152 = s.brk + 19 * 8 := by omega
        have a6 : s.brk + 296 - 8 = s.brk + 19 * 8 + 144 - 8 := by omega
        rw [a1, a2] at p1
        rw [a3, a4] at b1
        rw [a2] at pf
        rw [a5] at bf bn hch
        rw [a6] at hep
        refine ⟨by omega, by omega, r5, by omega, by rw [r4]; exact pf, p1.2.2.2.2.1,
          p1.2.2.2.2.2, ?_, ?_, by rw [r4]; exact hch, b1.2.2.2.2.1, ?_, ?_, ?_, r6⟩
        · intro k hk
          have hd := hl.links k hk
          rw [r4] at hd ⊢
          by_cases hk6 : k = 6
          · rw [if_pos hk6] at hd ⊢
            rw [← a5]
            exact hd.1
          · rw [if_neg hk6] at hd ⊢
            exact hd
        · intro k hk
          rw [← a5]
          exact hl.bucket hk
        · rw [bf, show s.brk + 19 * 8 + 144 - 2 * 8 = s.brk + 19 * 8 + 144 - 16 by omega]
          exact b1.2.2.2.2.2
        · rw [bn, r2]
        · rw [r2]
          exact hep
    · have hx : extend_heap (init_layout s) (CHUNKSIZE / WSIZE) = (0, init_layout s) := by
        have : ¬ (init_layout s).brk + 144 / 8 * 8 % SIZE_MOD ≤ (init_layout s).cap := by
          show ¬ s.brk + 19 * 8 + 144 / 8 * 8 % SIZE_MOD ≤ s.cap
          have : 144 / 8 * 8 % SIZE_MOD = 144 := by decide
          omega
        simp only [extend_heap, mem_sbrk, WSIZE, CHUNKSIZE, if_neg this]
      have hm : mm_init s = (-1, init_layout s) := by
        rw [mm_init_eq s h1, hx]
      refine ⟨Or.inr (by rw [hm]), ?_, ?_⟩
      · rw [hm]
        simp only [mem_sbrk, WSIZE, CHUNKSIZE, if_pos h1, Option.some_bind]
        rw [if_neg (by show ¬ s.brk + 19 * 8 + 144 ≤ s.cap; omega)]
        simp
      · intro t ht _
        rw [hm] at ht
        simp at ht
  · have hm : mm_init s = (-1, { s with heap_listp := SIZE_MOD - 1 }) := by
      simp only [mm_init, mem_sbrk, WSIZE, if_neg h1]
    refine ⟨Or.inr (by rw [hm]), ?_, ?_⟩
    · rw [hm]
      simp only [mem_sbrk, WSIZE, if_neg h1, Option.none_bind]
    · intro t ht _
      rw [hm] at ht
      simp at ht

/-- C11 on the region that starts at `4096`: `mm_init` succeeds, the chain is the
prologue `4112` and the free block `4248`, bucket 6 holds that block alone and
the epilogue is the last word of the heap. -/
theorem mm_init_layout_witness :
    heap0.heap_listp = 4096 + 2 * WSIZE ∧ heap0.brk = 4096 + 19 * WSIZE + CHUNKSIZE ∧
    chain heap0 = some [heap0.heap_listp, 4096 + 19 * WSIZE] ∧
    GET heap0 (heap0.brk - WSIZE) = PACK 0 1 :=
  have h := (mm_init_layout (boot 4096 1048576)).2.2 heap0
    (Prod.ext (by decide) rfl) (by decide)
  ⟨h.1, h.2.1, h.2.2.2.2.2.2.2.2.2.1, h.2.2.2.2.2.2.2.2.2.2.2.2.2.1⟩

end MM
